import Mathlib

/-!
# Verification of pulp-dsp strided matrix kernels and the square-root kernel

This file gives a shallow embedding of the C kernels of the pulp-dsp
repository (strided matrix add / subtract / copy in their scalar,
loop-unrolled, SIMD-packed and parallel variants, the parallel transposed
matrix multiplication, and the Newton-Raphson square-root kernel) and proves
the specified properties about them.

Memory is modelled at element granularity: a buffer is a total function
from element indices to integers, and a kernel is modelled as the list of
events (element stores and barrier rendezvous) it performs, in program
order.  Machine integers are modelled as integers wrapped to the signed
`w`-bit range where the C code performs `w`-bit arithmetic.  Pointer
arithmetic is modelled on `Nat`; the C code computes row steps with
unsigned subtractions such as `strideA - N`, which agree with truncated
`Nat` subtraction on the stride assumptions (`N ≤ stride`) under which the
kernels are specified.  Float arithmetic in the square-root kernel is
modelled by exact rational arithmetic.
-/

/-- A buffer: element index to stored integer value. -/
abbrev Mem := Nat → ℤ

/-- An observable kernel event: a store of a value to an element index, or a
barrier rendezvous (`rt_team_barrier`). -/
inductive Evt : Type where
  | store : Nat → ℤ → Evt
  | barrier : Evt
deriving DecidableEq

/-- Pointwise update of a buffer. -/
def upd (d : Mem) (i : Nat) (v : ℤ) : Mem := fun j => if j = i then v else d j

/-- Execute a list of events against a buffer: stores update the buffer,
barriers leave it unchanged. -/
def exec : Mem → List Evt → Mem
  | d, [] => d
  | d, Evt.store i v :: t => exec (upd d i v) t
  | d, Evt.barrier :: t => exec d t

/-- Two's-complement wraparound of an integer to the signed `w`-bit range
`[-2^(w-1), 2^(w-1))`. -/
def wrap (w : Nat) (x : ℤ) : ℤ := (x + 2 ^ (w - 1)) % 2 ^ w - 2 ^ (w - 1)

theorem exec_append (d : Mem) (l₁ l₂ : List Evt) :
    exec d (l₁ ++ l₂) = exec (exec d l₁) l₂ := by
  induction l₁ generalizing d with
  | nil => rfl
  | cons e t ih => cases e <;> simp [exec, ih]

theorem exec_mem_aux (a : Nat) (v : ℤ) (l : List Evt)
    (huniq : ∀ v', Evt.store a v' ∈ l → v' = v) :
    ∀ d : Mem, (Evt.store a v ∈ l ∨ d a = v) → exec d l a = v := by
  induction l with
  | nil =>
    intro d h
    rcases h with h | h
    · simp at h
    · simpa [exec] using h
  | cons e t ih =>
    intro d h
    cases e with
    | store i w =>
      by_cases hia : i = a
      · subst hia
        have hw : w = v := huniq w (by simp)
        subst hw
        apply ih
        · intro v' hv'
          exact huniq v' (List.mem_cons_of_mem _ hv')
        · right
          simp [upd]
      · simp only [exec]
        apply ih
        · intro v' hv'
          exact huniq v' (List.mem_cons_of_mem _ hv')
        · rcases h with h | h
          · rcases List.mem_cons.mp h with h | h
            · exact absurd (congrArg (fun e => match e with
                | Evt.store i _ => i
                | Evt.barrier => 0) h.symm) (by simpa using hia)
            · exact Or.inl h
          · right
            simpa [upd, Ne.symm hia] using h
    | barrier =>
      simp only [exec]
      apply ih
      · intro v' hv'
        exact huniq v' (List.mem_cons_of_mem _ hv')
      · rcases h with h | h
        · rcases List.mem_cons.mp h with h | h
          · exact absurd h (by simp)
          · exact Or.inl h
        · exact Or.inr h

/-- If the trace stores `v` to `a` and every store to `a` in the trace has
value `v`, executing the trace leaves `v` at `a`. -/
theorem exec_eq_of_mem (d : Mem) (l : List Evt) (a : Nat) (v : ℤ)
    (hmem : Evt.store a v ∈ l)
    (huniq : ∀ v', Evt.store a v' ∈ l → v' = v) : exec d l a = v :=
  exec_mem_aux a v l huniq d (Or.inl hmem)

/-- If the trace never stores to `a`, executing it leaves `a` unchanged. -/
theorem exec_eq_of_not_mem (d : Mem) (l : List Evt) (a : Nat)
    (h : ∀ v, Evt.store a v ∉ l) : exec d l a = d a := by
  induction l generalizing d with
  | nil => rfl
  | cons e t ih =>
    cases e with
    | store i w =>
      have hia : i ≠ a := by
        intro hc
        exact h w (by simp [hc])
      simp only [exec]
      rw [ih _ (fun v hv => h v (List.mem_cons_of_mem _ hv))]
      simp [upd, Ne.symm hia]
    | barrier =>
      simp only [exec]
      exact ih _ (fun v hv => h v (List.mem_cons_of_mem _ hv))

/-- With row stride at least the row width, the flattened index map of a
matrix view is injective. -/
theorem viewInj {sY N m n m' n' : Nat} (hsY : N ≤ sY) (hn : n < N) (hn' : n' < N)
    (h : m * sY + n = m' * sY + n') : m = m' ∧ n = n' := by
  have hsY0 : 0 < sY := by omega
  have h1 : (m * sY + n) / sY = m := by
    rw [Nat.mul_comm m sY, Nat.mul_add_div hsY0, Nat.div_eq_of_lt (lt_of_lt_of_le hn hsY)]
    omega
  have h2 : (m' * sY + n') / sY = m' := by
    rw [Nat.mul_comm m' sY, Nat.mul_add_div hsY0, Nat.div_eq_of_lt (lt_of_lt_of_le hn' hsY)]
    omega
  have hm : m = m' := by rw [← h1, ← h2, h]
  refine ⟨hm, ?_⟩
  subst hm
  omega

/-- Canonical trace of one row of a two-source elementwise operation:
element `n` of the row stores `val (ia + n) (ib + n)` at `iy + n`. -/
def canonRow2 (val : Nat → Nat → ℤ) (ia ib iy N : Nat) : List Evt :=
  (List.range N).map fun n => Evt.store (iy + n) (val (ia + n) (ib + n))

/-- Canonical trace of one row of a one-source (copy) operation. -/
def canonRow1 (S : Mem) (isrc iy N : Nat) : List Evt :=
  (List.range N).map fun n => Evt.store (iy + n) (S (isrc + n))

/-- Row-major double-loop reference of the spec for a two-source elementwise
operation: for `m` in `0..M`, for `n` in `0..N`,
`dst[m*sY+n] := val srcA[m*sA+n] srcB[m*sB+n]`.  This also models the plain
(non-unrolled) double loops of the C sources. -/
def canonMat2 (val : Nat → Nat → ℤ) (sA sB sY M N : Nat) : List Evt :=
  ((List.range M).map fun m => canonRow2 val (m * sA) (m * sB) (m * sY) N).flatten

/-- Row-major double-loop reference of the spec for a matrix copy. -/
def canonMat1 (S : Mem) (sS sD M N : Nat) : List Evt :=
  ((List.range M).map fun m => canonRow1 S (m * sS) (m * sD) N).flatten

theorem canonRow2_append (val : Nat → Nat → ℤ) (ia ib iy x y : Nat) :
    canonRow2 val ia ib iy (x + y) =
      canonRow2 val ia ib iy x ++ canonRow2 val (ia + x) (ib + x) (iy + x) y := by
  unfold canonRow2
  rw [List.range_add, List.map_append, List.map_map]
  congr 1
  apply List.map_congr_left
  intro n _
  simp [Function.comp, Nat.add_assoc]

theorem canonRow1_append (S : Mem) (isrc iy x y : Nat) :
    canonRow1 S isrc iy (x + y) =
      canonRow1 S isrc iy x ++ canonRow1 S (isrc + x) (iy + x) y := by
  unfold canonRow1
  rw [List.range_add, List.map_append, List.map_map]
  congr 1
  apply List.map_congr_left
  intro n _
  simp [Function.comp, Nat.add_assoc]

/-- Loop `for (n = 0; n < k; n++) body`, two source pointers and one destination
pointer threaded through; returns the trace and the final pointers. -/
def nIter2 (body : Nat → Nat → Nat → List Evt × Nat × Nat × Nat) :
    Nat → Nat → Nat → Nat → List Evt × Nat × Nat × Nat
  | 0, ia, ib, iy => ([], ia, ib, iy)
  | k + 1, ia, ib, iy =>
    let r := body ia ib iy
    let s := nIter2 body k r.2.1 r.2.2.1 r.2.2.2
    (r.1 ++ s.1, s.2)

/-- Loop `for (n = 0; n < k; n++) body`, one source pointer and one destination
pointer threaded through. -/
def nIter1 (body : Nat → Nat → List Evt × Nat × Nat) :
    Nat → Nat → Nat → List Evt × Nat × Nat
  | 0, isrc, iy => ([], isrc, iy)
  | k + 1, isrc, iy =>
    let r := body isrc iy
    let s := nIter1 body k r.2.1 r.2.2
    (r.1 ++ s.1, s.2)

/-- Loop `for (m = 0; m < M; m++)` over rows, stepping the pointers, for two-source
kernels. -/
def seqLoop2 (body : Nat → Nat → Nat → List Evt × Nat × Nat × Nat)
    (stepA stepB stepY : Nat) : Nat → Nat → Nat → Nat → List Evt
  | 0, _, _, _ => []
  | m + 1, ia, ib, iy =>
    let r := body ia ib iy
    r.1 ++ seqLoop2 body stepA stepB stepY m (r.2.1 + stepA) (r.2.2.1 + stepB) (r.2.2.2 + stepY)

/-- Loop `for (m = 0; m < M; m++)` over rows, stepping the pointers, for one-source
kernels. -/
def seqLoop1 (body : Nat → Nat → List Evt × Nat × Nat) (stepS stepD : Nat) :
    Nat → Nat → Nat → List Evt
  | 0, _, _ => []
  | m + 1, isrc, iy =>
    let r := body isrc iy
    r.1 ++ seqLoop1 body stepS stepD m (r.2.1 + stepS) (r.2.2 + stepD)

/-- Loop `for (m = core_id; m < M; m += nPE)` over rows, stepping the pointers.
The first argument of the recursion is fuel bounding the number of
iterations; the C loop performs at most `M` iterations whenever
`1 ≤ nPE`, so the kernels instantiate the fuel with `M`. -/
def parLoop2 (body : Nat → Nat → Nat → List Evt × Nat × Nat × Nat)
    (stepA stepB stepY nPE M : Nat) : Nat → Nat → Nat → Nat → Nat → List Evt
  | 0, _, _, _, _ => []
  | fuel + 1, m, ia, ib, iy =>
    if m < M then
      let r := body ia ib iy
      parLoop2 body stepA stepB stepY nPE M fuel (m + nPE)
        (r.2.1 + stepA) (r.2.2.1 + stepB) (r.2.2.2 + stepY) |> (r.1 ++ ·)
    else []

/-- One-source variant of `parLoop2`. -/
def parLoop1 (body : Nat → Nat → List Evt × Nat × Nat)
    (stepS stepD nPE M : Nat) : Nat → Nat → Nat → Nat → List Evt
  | 0, _, _, _ => []
  | fuel + 1, m, isrc, iy =>
    if m < M then
      let r := body isrc iy
      parLoop1 body stepS stepD nPE M fuel (m + nPE) (r.2.1 + stepS) (r.2.2 + stepD)
        |> (r.1 ++ ·)
    else []

/-- The sequence of row indices visited by `for (m = m0; m < M; m += nPE)`
with the given fuel. -/
def parIdx (nPE M : Nat) : Nat → Nat → List Nat
  | 0, _ => []
  | fuel + 1, m => if m < M then m :: parIdx nPE M fuel (m + nPE) else []

/-- A loop body writing `c` consecutive elements and advancing all pointers
by `c`. -/
abbrev IsChunk2 (val : Nat → Nat → ℤ) (c : Nat)
    (body : Nat → Nat → Nat → List Evt × Nat × Nat × Nat) : Prop :=
  ∀ ia ib iy, body ia ib iy = (canonRow2 val ia ib iy c, ia + c, ib + c, iy + c)

/-- One-source variant of `IsChunk2`. -/
abbrev IsChunk1 (S : Mem) (c : Nat) (body : Nat → Nat → List Evt × Nat × Nat) : Prop :=
  ∀ isrc iy, body isrc iy = (canonRow1 S isrc iy c, isrc + c, iy + c)

theorem nIter2_chunk {val : Nat → Nat → ℤ} {c : Nat}
    {body : Nat → Nat → Nat → List Evt × Nat × Nat × Nat} (h : IsChunk2 val c body) :
    ∀ k ia ib iy, nIter2 body k ia ib iy =
      (canonRow2 val ia ib iy (k * c), ia + k * c, ib + k * c, iy + k * c) := by
  intro k
  induction k with
  | zero => intro ia ib iy; simp [nIter2, canonRow2]
  | succ k ih =>
    intro ia ib iy
    simp only [nIter2, h ia ib iy, ih]
    have hc : (k + 1) * c = c + k * c := by ring
    rw [hc, canonRow2_append]
    refine congrArg₂ Prod.mk rfl ?_
    simp [Prod.ext_iff]
    omega

theorem nIter1_chunk {S : Mem} {c : Nat}
    {body : Nat → Nat → List Evt × Nat × Nat} (h : IsChunk1 S c body) :
    ∀ k isrc iy, nIter1 body k isrc iy =
      (canonRow1 S isrc iy (k * c), isrc + k * c, iy + k * c) := by
  intro k
  induction k with
  | zero => intro isrc iy; simp [nIter1, canonRow1]
  | succ k ih =>
    intro isrc iy
    simp only [nIter1, h isrc iy, ih]
    have hc : (k + 1) * c = c + k * c := by ring
    rw [hc, canonRow1_append]
    refine congrArg₂ Prod.mk rfl ?_
    simp [Prod.ext_iff]
    omega

theorem seqLoop2_canon {body : Nat → Nat → Nat → List Evt × Nat × Nat × Nat}
    {val : Nat → Nat → ℤ} {N t stepA stepB stepY : Nat} (sA sB sY : Nat)
    (hA : t + stepA = sA) (hB : t + stepB = sB) (hY : t + stepY = sY)
    (hrow : ∀ ia ib iy, body ia ib iy = (canonRow2 val ia ib iy N, ia + t, ib + t, iy + t)) :
    ∀ M a0 b0 y0, seqLoop2 body stepA stepB stepY M a0 b0 y0 =
      ((List.range M).map fun m =>
        canonRow2 val (a0 + m * sA) (b0 + m * sB) (y0 + m * sY) N).flatten := by
  intro M
  induction M with
  | zero => intro a0 b0 y0; simp [seqLoop2]
  | succ M ih =>
    intro a0 b0 y0
    simp only [seqLoop2, hrow a0 b0 y0]
    rw [show a0 + t + stepA = a0 + sA by omega, show b0 + t + stepB = b0 + sB by omega,
      show y0 + t + stepY = y0 + sY by omega, ih]
    rw [List.range_succ_eq_map, List.map_cons, List.map_map, List.flatten_cons]
    congr 1
    · simp
    · congr 1
      apply List.map_congr_left
      intro m _
      simp only [Function.comp]
      rw [show a0 + sA + m * sA = a0 + (m + 1) * sA by ring,
        show b0 + sB + m * sB = b0 + (m + 1) * sB by ring,
        show y0 + sY + m * sY = y0 + (m + 1) * sY by ring]

theorem seqLoop1_canon {body : Nat → Nat → List Evt × Nat × Nat}
    {S : Mem} {N t stepS stepD : Nat} (sS sD : Nat)
    (hS : t + stepS = sS) (hD : t + stepD = sD)
    (hrow : ∀ isrc iy, body isrc iy = (canonRow1 S isrc iy N, isrc + t, iy + t)) :
    ∀ M s0 y0, seqLoop1 body stepS stepD M s0 y0 =
      ((List.range M).map fun m => canonRow1 S (s0 + m * sS) (y0 + m * sD) N).flatten := by
  intro M
  induction M with
  | zero => intro s0 y0; simp [seqLoop1]
  | succ M ih =>
    intro s0 y0
    simp only [seqLoop1, hrow s0 y0]
    rw [show s0 + t + stepS = s0 + sS by omega, show y0 + t + stepD = y0 + sD by omega, ih]
    rw [List.range_succ_eq_map, List.map_cons, List.map_map, List.flatten_cons]
    congr 1
    · simp
    · congr 1
      apply List.map_congr_left
      intro m _
      simp only [Function.comp]
      rw [show s0 + sS + m * sS = s0 + (m + 1) * sS by ring,
        show y0 + sD + m * sD = y0 + (m + 1) * sD by ring]

theorem parLoop2_canon {body : Nat → Nat → Nat → List Evt × Nat × Nat × Nat}
    {val : Nat → Nat → ℤ} {N t stepA stepB stepY sA sB sY nPE M : Nat}
    (hA : t + stepA = sA * nPE) (hB : t + stepB = sB * nPE) (hY : t + stepY = sY * nPE)
    (hrow : ∀ ia ib iy, body ia ib iy = (canonRow2 val ia ib iy N, ia + t, ib + t, iy + t)) :
    ∀ fuel m, parLoop2 body stepA stepB stepY nPE M fuel m (m * sA) (m * sB) (m * sY) =
      ((parIdx nPE M fuel m).map fun r =>
        canonRow2 val (r * sA) (r * sB) (r * sY) N).flatten := by
  intro fuel
  induction fuel with
  | zero => intro m; simp [parLoop2, parIdx]
  | succ fuel ih =>
    intro m
    by_cases hm : m < M
    · simp only [parLoop2, parIdx, if_pos hm, hrow]
      rw [show m * sA + t + stepA = (m + nPE) * sA by rw [Nat.add_assoc, hA]; ring,
        show m * sB + t + stepB = (m + nPE) * sB by rw [Nat.add_assoc, hB]; ring,
        show m * sY + t + stepY = (m + nPE) * sY by rw [Nat.add_assoc, hY]; ring]
      rw [ih (m + nPE)]
      simp [List.flatten_cons]
    · simp [parLoop2, parIdx, hm]

theorem parLoop1_canon {body : Nat → Nat → List Evt × Nat × Nat}
    {S : Mem} {N t stepS stepD sS sD nPE M : Nat}
    (hS : t + stepS = sS * nPE) (hD : t + stepD = sD * nPE)
    (hrow : ∀ isrc iy, body isrc iy = (canonRow1 S isrc iy N, isrc + t, iy + t)) :
    ∀ fuel m, parLoop1 body stepS stepD nPE M fuel m (m * sS) (m * sD) =
      ((parIdx nPE M fuel m).map fun r => canonRow1 S (r * sS) (r * sD) N).flatten := by
  intro fuel
  induction fuel with
  | zero => intro m; simp [parLoop1, parIdx]
  | succ fuel ih =>
    intro m
    by_cases hm : m < M
    · simp only [parLoop1, parIdx, if_pos hm, hrow]
      rw [show m * sS + t + stepS = (m + nPE) * sS by rw [Nat.add_assoc, hS]; ring,
        show m * sD + t + stepD = (m + nPE) * sD by rw [Nat.add_assoc, hD]; ring]
      rw [ih (m + nPE)]
      simp [List.flatten_cons]
    · simp [parLoop1, parIdx, hm]

theorem parIdx_mem {nPE M : Nat} (hn : 1 ≤ nPE) :
    ∀ fuel m r, M ≤ m + fuel →
      (r ∈ parIdx nPE M fuel m ↔ m ≤ r ∧ r < M ∧ (r - m) % nPE = 0) := by
  intro fuel
  induction fuel with
  | zero =>
    intro m r h
    simp only [parIdx, List.not_mem_nil, false_iff]
    omega
  | succ fuel ih =>
    intro m r h
    by_cases hm : m < M
    · simp only [parIdx, if_pos hm, List.mem_cons]
      rw [ih (m + nPE) r (by omega)]
      constructor
      · rintro (rfl | ⟨h1, h2, h3⟩)
        · exact ⟨Nat.le_refl r, hm, by simp⟩
        · refine ⟨by omega, h2, ?_⟩
          have hsub : r - m = (r - (m + nPE)) + nPE := by omega
          rw [hsub, Nat.add_mod_right]
          exact h3
      · rintro ⟨h1, h2, h3⟩
        by_cases hrm : r = m
        · exact Or.inl hrm
        · right
          have hd : nPE ∣ (r - m) := Nat.dvd_of_mod_eq_zero h3
          have hge : nPE ≤ r - m := Nat.le_of_dvd (by omega) hd
          refine ⟨by omega, h2, ?_⟩
          have hsub : r - m = (r - (m + nPE)) + nPE := by omega
          rw [hsub, Nat.add_mod_right] at h3
          exact h3
    · simp only [parIdx, if_neg hm, List.not_mem_nil, false_iff]
      omega

/-- Rows visited by a processing element: exactly the rows `< M` congruent
to its core id modulo `nPE`. -/
theorem parIdx_mem_core {nPE M p r : Nat} (hn : 1 ≤ nPE) (hp : p < nPE) :
    r ∈ parIdx nPE M M p ↔ r < M ∧ r % nPE = p := by
  rw [parIdx_mem hn M p r (by omega)]
  constructor
  · rintro ⟨h1, h2, h3⟩
    refine ⟨h2, ?_⟩
    obtain ⟨k, hk⟩ := Nat.dvd_of_mod_eq_zero h3
    have hr : r = p + nPE * k := by omega
    rw [hr, Nat.add_mul_mod_self_left, Nat.mod_eq_of_lt hp]
  · rintro ⟨h1, h2⟩
    have hle : p ≤ r := h2 ▸ Nat.mod_le r nPE
    refine ⟨hle, h1, ?_⟩
    have hdm := Nat.div_add_mod r nPE
    have hr : r - p = nPE * (r / nPE) := by omega
    rw [hr]
    exact Nat.mul_mod_right _ _

/-- Characterization of a trace: it stores exactly `g m n` at `m*sY + n` for
rows satisfying `rows` and columns `n < N`, and nothing else. -/
def MemSpec (l : List Evt) (rows : Nat → Prop) (g : Nat → Nat → ℤ) (N sY : Nat) : Prop :=
  ∀ a v, Evt.store a v ∈ l ↔ ∃ m n, rows m ∧ n < N ∧ a = m * sY + n ∧ v = g m n

theorem exec_view_of_memSpec {l : List Evt} {rows : Nat → Prop} {g : Nat → Nat → ℤ}
    {N sY : Nat} (h : MemSpec l rows g N sY) (hsY : N ≤ sY) {m n : Nat}
    (hm : rows m) (hn : n < N) (d : Mem) : exec d l (m * sY + n) = g m n := by
  apply exec_eq_of_mem
  · exact (h _ _).mpr ⟨m, n, hm, hn, rfl, rfl⟩
  · intro v' hv'
    obtain ⟨m', n', hm', hn', ha, hveq⟩ := (h _ _).mp hv'
    obtain ⟨hmm, hnn⟩ := viewInj hsY hn hn' ha
    rw [hveq, ← hmm, ← hnn]

theorem exec_frame_of_memSpec {l : List Evt} {rows : Nat → Prop} {g : Nat → Nat → ℤ}
    {N sY : Nat} (h : MemSpec l rows g N sY) {a : Nat}
    (ha : ∀ m n, rows m → n < N → a ≠ m * sY + n) (d : Mem) : exec d l a = d a := by
  apply exec_eq_of_not_mem
  intro v hv
  obtain ⟨m, n, hm, hn, haeq, _⟩ := (h _ _).mp hv
  exact ha m n hm hn haeq

theorem memSpec_canonMat2 (val : Nat → Nat → ℤ) (sA sB sY M N : Nat) :
    MemSpec (canonMat2 val sA sB sY M N) (fun m => m < M)
      (fun m n => val (m * sA + n) (m * sB + n)) N sY := by
  intro a v
  simp only [canonMat2, canonRow2, List.mem_flatten, List.mem_map, List.mem_range]
  constructor
  · rintro ⟨l, ⟨m, hm, rfl⟩, hl⟩
    obtain ⟨n, hn, he⟩ := List.mem_map.mp hl
    obtain ⟨rfl, rfl⟩ : m * sY + n = a ∧ val (m * sA + n) (m * sB + n) = v := by
      cases he
      exact ⟨rfl, rfl⟩
    exact ⟨m, n, hm, List.mem_range.mp hn, rfl, rfl⟩
  · rintro ⟨m, n, hm, hn, rfl, rfl⟩
    exact ⟨_, ⟨m, hm, rfl⟩, List.mem_map.mpr ⟨n, List.mem_range.mpr hn, rfl⟩⟩

theorem memSpec_canonMat1 (S : Mem) (sS sD M N : Nat) :
    MemSpec (canonMat1 S sS sD M N) (fun m => m < M)
      (fun m n => S (m * sS + n)) N sD := by
  intro a v
  simp only [canonMat1, canonRow1, List.mem_flatten, List.mem_map, List.mem_range]
  constructor
  · rintro ⟨l, ⟨m, hm, rfl⟩, hl⟩
    obtain ⟨n, hn, he⟩ := List.mem_map.mp hl
    obtain ⟨rfl, rfl⟩ : m * sD + n = a ∧ S (m * sS + n) = v := by
      cases he
      exact ⟨rfl, rfl⟩
    exact ⟨m, n, hm, List.mem_range.mp hn, rfl, rfl⟩
  · rintro ⟨m, n, hm, hn, rfl, rfl⟩
    exact ⟨_, ⟨m, hm, rfl⟩, List.mem_map.mpr ⟨n, List.mem_range.mpr hn, rfl⟩⟩

/-- Elementwise `w`-bit machine addition of two buffer cells. -/
def addv (w : Nat) (A B : Mem) : Nat → Nat → ℤ := fun x y => wrap w (A x + B y)

/-- Elementwise `w`-bit machine subtraction of two buffer cells. -/
def subv (w : Nat) (A B : Mem) : Nat → Nat → ℤ := fun x y => wrap w (A x - B y)

theorem canonRow2_one (val : Nat → Nat → ℤ) (ia ib iy : Nat) :
    canonRow2 val ia ib iy 1 = [Evt.store iy (val ia ib)] := by
  simp [canonRow2, List.range_succ]

theorem canonRow1_one (S : Mem) (isrc iy : Nat) :
    canonRow1 S isrc iy 1 = [Evt.store iy (S isrc)] := by
  simp [canonRow1, List.range_succ]

/-- Scalar loop body `*pDst++ = *pSrcA++ + *pSrcB++` at width `w`. -/
def addChunk1 (w : Nat) (A B : Mem) (ia ib iy : Nat) : List Evt × Nat × Nat × Nat :=
  ([Evt.store iy (wrap w (A ia + B ib))], ia + 1, ib + 1, iy + 1)

/-- Scalar loop body `*pDst++ = *pSrcA++ - *pSrcB++` at width `w`. -/
def subChunk1 (w : Nat) (A B : Mem) (ia ib iy : Nat) : List Evt × Nat × Nat × Nat :=
  ([Evt.store iy (wrap w (A ia - B ib))], ia + 1, ib + 1, iy + 1)

theorem addChunk1_isChunk (w : Nat) (A B : Mem) :
    IsChunk2 (addv w A B) 1 (addChunk1 w A B) := by
  intro ia ib iy
  simp [addChunk1, canonRow2_one, addv]

theorem subChunk1_isChunk (w : Nat) (A B : Mem) :
    IsChunk2 (subv w A B) 1 (subChunk1 w A B) := by
  intro ia ib iy
  simp [subChunk1, canonRow2_one, subv]

/-- Unrolled inner-loop body of `plp_mat_add_stride_i32s_xpulpv2`
(`PLP_MATH_LOOPUNROLL` path): two scalar loads per operand, two adds, two
stores. -/
def addI32Chunk2 (A B : Mem) (ia ib iy : Nat) : List Evt × Nat × Nat × Nat :=
  ([Evt.store iy (wrap 32 (A ia + B ib)),
    Evt.store (iy + 1) (wrap 32 (A (ia + 1) + B (ib + 1)))],
   ia + 2, ib + 2, iy + 2)

theorem addI32Chunk2_isChunk (A B : Mem) : IsChunk2 (addv 32 A B) 2 (addI32Chunk2 A B) := by
  intro ia ib iy
  simp [addI32Chunk2, canonRow2, List.range_succ, addv]

/-- Kernel `plp_mat_add_stride_i32s_xpulpv2`, `PLP_MATH_LOOPUNROLL` build: inner
loop unrolled by 2, with a one-element remainder row tail when `N` is odd. -/
def plp_mat_add_stride_i32s_xpulpv2_unroll (A B : Mem) (M N sA sB sY : Nat) : List Evt :=
  let n_iter := N / 2       -- N >> 1
  let n_rem := N % 2        -- N & 0x1
  let step_a := sA - N
  let step_b := sB - N
  let step_y := sY - N
  if n_rem ≠ 0 then
    seqLoop2 (fun ia ib iy =>
      let r := nIter2 (addI32Chunk2 A B) n_iter ia ib iy
      (r.1 ++ [Evt.store r.2.2.2 (wrap 32 (A r.2.1 + B r.2.2.1))],
        r.2.1 + 1, r.2.2.1 + 1, r.2.2.2 + 1))
      step_a step_b step_y M 0 0 0
  else
    seqLoop2 (fun ia ib iy => nIter2 (addI32Chunk2 A B) n_iter ia ib iy)
      step_a step_b step_y M 0 0 0

/-- Kernel `plp_mat_add_stride_i32s_xpulpv2`, plain (non-unrolled) build: row-major
double loop with pointer stepping. -/
def plp_mat_add_stride_i32s_xpulpv2_plain (A B : Mem) (M N sA sB sY : Nat) : List Evt :=
  seqLoop2 (fun ia ib iy => nIter2 (addChunk1 32 A B) N ia ib iy)
    (sA - N) (sB - N) (sY - N) M 0 0 0

theorem addI32U_eq_canon (A B : Mem) (M N sA sB sY : Nat)
    (hA : N ≤ sA) (hB : N ≤ sB) (hY : N ≤ sY) :
    plp_mat_add_stride_i32s_xpulpv2_unroll A B M N sA sB sY =
      canonMat2 (addv 32 A B) sA sB sY M N := by
  unfold plp_mat_add_stride_i32s_xpulpv2_unroll
  by_cases hrem : N % 2 = 0
  · rw [if_neg (by omega)]
    have hrow : ∀ ia ib iy, nIter2 (addI32Chunk2 A B) (N / 2) ia ib iy =
        (canonRow2 (addv 32 A B) ia ib iy N, ia + N, ib + N, iy + N) := by
      intro ia ib iy
      rw [nIter2_chunk (addI32Chunk2_isChunk A B), show N / 2 * 2 = N by omega]
    rw [seqLoop2_canon (t := N) sA sB sY
      (by omega) (by omega) (by omega) hrow M 0 0 0]
    simp [canonMat2]
  · rw [if_pos (by omega)]
    have hrow : ∀ ia ib iy,
        (let r := nIter2 (addI32Chunk2 A B) (N / 2) ia ib iy
         (r.1 ++ [Evt.store r.2.2.2 (wrap 32 (A r.2.1 + B r.2.2.1))],
           r.2.1 + 1, r.2.2.1 + 1, r.2.2.2 + 1)) =
        (canonRow2 (addv 32 A B) ia ib iy N, ia + N, ib + N, iy + N) := by
      intro ia ib iy
      simp only [nIter2_chunk (addI32Chunk2_isChunk A B)]
      generalize hk : N / 2 = k
      rw [show N = k * 2 + 1 by omega]
      refine congrArg₂ Prod.mk ?_ ?_
      · rw [canonRow2_append (addv 32 A B) ia ib iy (k * 2) 1, canonRow2_one]
        simp [addv]
      · simp only [Prod.ext_iff]
        omega
    rw [seqLoop2_canon (t := N) sA sB sY
      (by omega) (by omega) (by omega) hrow M 0 0 0]
    simp [canonMat2]

theorem addI32P_eq_canon (A B : Mem) (M N sA sB sY : Nat)
    (hA : N ≤ sA) (hB : N ≤ sB) (hY : N ≤ sY) :
    plp_mat_add_stride_i32s_xpulpv2_plain A B M N sA sB sY =
      canonMat2 (addv 32 A B) sA sB sY M N := by
  unfold plp_mat_add_stride_i32s_xpulpv2_plain
  have hrow : ∀ ia ib iy, nIter2 (addChunk1 32 A B) N ia ib iy =
      (canonRow2 (addv 32 A B) ia ib iy N, ia + N, ib + N, iy + N) := by
    intro ia ib iy
    rw [nIter2_chunk (addChunk1_isChunk 32 A B), Nat.mul_one]
  rw [seqLoop2_canon (t := N) sA sB sY
    (by omega) (by omega) (by omega) hrow M 0 0 0]
  simp [canonMat2]

theorem canonRow2_glue3 (val : Nat → Nat → ℤ) (ia ib iy x y z : Nat) :
    canonRow2 val ia ib iy x ++ canonRow2 val (ia + x) (ib + x) (iy + x) y ++
      canonRow2 val (ia + x + y) (ib + x + y) (iy + x + y) z =
      canonRow2 val ia ib iy (x + y + z) := by
  rw [canonRow2_append val ia ib iy (x + y) z, canonRow2_append val ia ib iy x y]
  simp [Nat.add_assoc, List.append_assoc]

theorem canonRow1_glue3 (S : Mem) (isrc iy x y z : Nat) :
    canonRow1 S isrc iy x ++ canonRow1 S (isrc + x) (iy + x) y ++
      canonRow1 S (isrc + x + y) (iy + x + y) z =
      canonRow1 S isrc iy (x + y + z) := by
  rw [canonRow1_append S isrc iy (x + y) z, canonRow1_append S isrc iy x y]
  simp [Nat.add_assoc, List.append_assoc]

/-- SIMD inner-loop body of `plp_mat_add_stride_i16p_xpulpv2`: two `v2s`
loads per operand and two `__ADD2` stores — four 16-bit lanes, each added
with 16-bit wraparound, no carry between lanes. -/
def addI16Chunk4 (A B : Mem) (ia ib iy : Nat) : List Evt × Nat × Nat × Nat :=
  ([Evt.store iy (wrap 16 (A ia + B ib)),
    Evt.store (iy + 1) (wrap 16 (A (ia + 1) + B (ib + 1))),
    Evt.store (iy + 2) (wrap 16 (A (ia + 2) + B (ib + 2))),
    Evt.store (iy + 3) (wrap 16 (A (ia + 3) + B (ib + 3)))],
   ia + 4, ib + 4, iy + 4)

/-- One `__ADD2` block (two 16-bit lanes), used for the `n_blk` tail. -/
def addI16Chunk2 (A B : Mem) (ia ib iy : Nat) : List Evt × Nat × Nat × Nat :=
  ([Evt.store iy (wrap 16 (A ia + B ib)),
    Evt.store (iy + 1) (wrap 16 (A (ia + 1) + B (ib + 1)))],
   ia + 2, ib + 2, iy + 2)

theorem addI16Chunk4_isChunk (A B : Mem) : IsChunk2 (addv 16 A B) 4 (addI16Chunk4 A B) := by
  intro ia ib iy
  simp [addI16Chunk4, canonRow2, List.range_succ, addv]

theorem addI16Chunk2_isChunk (A B : Mem) : IsChunk2 (addv 16 A B) 2 (addI16Chunk2 A B) := by
  intro ia ib iy
  simp [addI16Chunk2, canonRow2, List.range_succ, addv]

/-- Kernel `plp_mat_add_stride_i16p_xpulpv2` (parallel SIMD): the trace performed by
the processing element with core id `p`.  Pointers are pre-offset by
`stride * core_id` and stepped by `stride * nPE - N` between owned rows. -/
def plp_mat_add_stride_i16p_xpulpv2 (A B : Mem) (M N sA sB sY nPE p : Nat) : List Evt :=
  let n_iter := N / 4       -- N >> 2
  let n_blk := N / 2 % 2    -- N & 0b10 (zero-tested only)
  let n_rem := N % 2        -- N & 0b01
  let step_a := sA * nPE - N
  let step_b := sB * nPE - N
  let step_y := sY * nPE - N
  if n_rem ≠ 0 then
    if n_blk ≠ 0 then
      parLoop2 (fun ia ib iy =>
        let r := nIter2 (addI16Chunk4 A B) n_iter ia ib iy
        let s := addI16Chunk2 A B r.2.1 r.2.2.1 r.2.2.2
        let u := addChunk1 16 A B s.2.1 s.2.2.1 s.2.2.2
        (r.1 ++ s.1 ++ u.1, u.2))
        step_a step_b step_y nPE M M p (sA * p) (sB * p) (sY * p)
    else
      parLoop2 (fun ia ib iy =>
        let r := nIter2 (addI16Chunk4 A B) n_iter ia ib iy
        let u := addChunk1 16 A B r.2.1 r.2.2.1 r.2.2.2
        (r.1 ++ u.1, u.2))
        step_a step_b step_y nPE M M p (sA * p) (sB * p) (sY * p)
  else
    if n_blk ≠ 0 then
      parLoop2 (fun ia ib iy =>
        let r := nIter2 (addI16Chunk4 A B) n_iter ia ib iy
        let s := addI16Chunk2 A B r.2.1 r.2.2.1 r.2.2.2
        (r.1 ++ s.1, s.2))
        step_a step_b step_y nPE M M p (sA * p) (sB * p) (sY * p)
    else
      parLoop2 (fun ia ib iy => nIter2 (addI16Chunk4 A B) n_iter ia ib iy)
        step_a step_b step_y nPE M M p (sA * p) (sB * p) (sY * p)

theorem addI16par_eq_canon (A B : Mem) (M N sA sB sY nPE p : Nat)
    (hA : N ≤ sA) (hB : N ≤ sB) (hY : N ≤ sY) (hnpe : 1 ≤ nPE) :
    plp_mat_add_stride_i16p_xpulpv2 A B M N sA sB sY nPE p =
      ((parIdx nPE M M p).map fun r =>
        canonRow2 (addv 16 A B) (r * sA) (r * sB) (r * sY) N).flatten := by
  have hsa : sA ≤ sA * nPE := Nat.le_mul_of_pos_right sA (by omega)
  have hsb : sB ≤ sB * nPE := Nat.le_mul_of_pos_right sB (by omega)
  have hsy : sY ≤ sY * nPE := Nat.le_mul_of_pos_right sY (by omega)
  unfold plp_mat_add_stride_i16p_xpulpv2
  rw [Nat.mul_comm sA p, Nat.mul_comm sB p, Nat.mul_comm sY p]
  by_cases hrem : N % 2 = 0 <;> by_cases hblk : N / 2 % 2 = 0
  · rw [if_neg (by omega), if_neg (by omega)]
    have hrow : ∀ ia ib iy, nIter2 (addI16Chunk4 A B) (N / 4) ia ib iy =
        (canonRow2 (addv 16 A B) ia ib iy N, ia + N, ib + N, iy + N) := by
      intro ia ib iy
      rw [nIter2_chunk (addI16Chunk4_isChunk A B), show N / 4 * 4 = N by omega]
    exact parLoop2_canon (t := N) (by omega) (by omega) (by omega) hrow M p
  · rw [if_neg (by omega), if_pos (by omega)]
    have hrow : ∀ ia ib iy,
        (let r := nIter2 (addI16Chunk4 A B) (N / 4) ia ib iy
         let s := addI16Chunk2 A B r.2.1 r.2.2.1 r.2.2.2
         (r.1 ++ s.1, s.2)) =
        (canonRow2 (addv 16 A B) ia ib iy N, ia + N, ib + N, iy + N) := by
      intro ia ib iy
      simp only [nIter2_chunk (addI16Chunk4_isChunk A B), addI16Chunk2_isChunk A B]
      generalize hk : N / 4 = k
      rw [show N = k * 4 + 2 by omega]
      refine congrArg₂ Prod.mk ?_ ?_
      · rw [← canonRow2_append (addv 16 A B) ia ib iy (k * 4) 2]
      · simp only [Prod.ext_iff]
        omega
    exact parLoop2_canon (t := N) (by omega) (by omega) (by omega) hrow M p
  · rw [if_pos (by omega), if_neg (by omega)]
    have hrow : ∀ ia ib iy,
        (let r := nIter2 (addI16Chunk4 A B) (N / 4) ia ib iy
         let u := addChunk1 16 A B r.2.1 r.2.2.1 r.2.2.2
         (r.1 ++ u.1, u.2)) =
        (canonRow2 (addv 16 A B) ia ib iy N, ia + N, ib + N, iy + N) := by
      intro ia ib iy
      simp only [nIter2_chunk (addI16Chunk4_isChunk A B), addChunk1_isChunk 16 A B]
      generalize hk : N / 4 = k
      rw [show N = k * 4 + 1 by omega]
      refine congrArg₂ Prod.mk ?_ ?_
      · rw [← canonRow2_append (addv 16 A B) ia ib iy (k * 4) 1]
      · simp only [Prod.ext_iff]
        omega
    exact parLoop2_canon (t := N) (by omega) (by omega) (by omega) hrow M p
  · rw [if_pos (by omega), if_pos (by omega)]
    have hrow : ∀ ia ib iy,
        (let r := nIter2 (addI16Chunk4 A B) (N / 4) ia ib iy
         let s := addI16Chunk2 A B r.2.1 r.2.2.1 r.2.2.2
         let u := addChunk1 16 A B s.2.1 s.2.2.1 s.2.2.2
         (r.1 ++ s.1 ++ u.1, u.2)) =
        (canonRow2 (addv 16 A B) ia ib iy N, ia + N, ib + N, iy + N) := by
      intro ia ib iy
      simp only [nIter2_chunk (addI16Chunk4_isChunk A B), addI16Chunk2_isChunk A B,
        addChunk1_isChunk 16 A B]
      generalize hk : N / 4 = k
      rw [show N = k * 4 + 2 + 1 by omega]
      refine congrArg₂ Prod.mk ?_ ?_
      · rw [← canonRow2_glue3 (addv 16 A B) ia ib iy (k * 4) 2 1]
      · simp only [Prod.ext_iff]
        omega
    exact parLoop2_canon (t := N) (by omega) (by omega) (by omega) hrow M p

/-- SIMD inner-loop body of `plp_mat_add_stride_i8p_xpulpv2`: two `v4s`
loads per operand and two `__ADD4` stores — eight 8-bit lanes, each added
with 8-bit wraparound, no carry between lanes. -/
def addI8Chunk8 (A B : Mem) (ia ib iy : Nat) : List Evt × Nat × Nat × Nat :=
  ([Evt.store iy (wrap 8 (A ia + B ib)),
    Evt.store (iy + 1) (wrap 8 (A (ia + 1) + B (ib + 1))),
    Evt.store (iy + 2) (wrap 8 (A (ia + 2) + B (ib + 2))),
    Evt.store (iy + 3) (wrap 8 (A (ia + 3) + B (ib + 3))),
    Evt.store (iy + 4) (wrap 8 (A (ia + 4) + B (ib + 4))),
    Evt.store (iy + 5) (wrap 8 (A (ia + 5) + B (ib + 5))),
    Evt.store (iy + 6) (wrap 8 (A (ia + 6) + B (ib + 6))),
    Evt.store (iy + 7) (wrap 8 (A (ia + 7) + B (ib + 7)))],
   ia + 8, ib + 8, iy + 8)

/-- One `__ADD4` block (four 8-bit lanes), used for the `n_blk` tail. -/
def addI8Chunk4 (A B : Mem) (ia ib iy : Nat) : List Evt × Nat × Nat × Nat :=
  ([Evt.store iy (wrap 8 (A ia + B ib)),
    Evt.store (iy + 1) (wrap 8 (A (ia + 1) + B (ib + 1))),
    Evt.store (iy + 2) (wrap 8 (A (ia + 2) + B (ib + 2))),
    Evt.store (iy + 3) (wrap 8 (A (ia + 3) + B (ib + 3)))],
   ia + 4, ib + 4, iy + 4)

theorem addI8Chunk8_isChunk (A B : Mem) : IsChunk2 (addv 8 A B) 8 (addI8Chunk8 A B) := by
  intro ia ib iy
  simp [addI8Chunk8, canonRow2, List.range_succ, addv]

theorem addI8Chunk4_isChunk (A B : Mem) : IsChunk2 (addv 8 A B) 4 (addI8Chunk4 A B) := by
  intro ia ib iy
  simp [addI8Chunk4, canonRow2, List.range_succ, addv]

/-- Kernel `plp_mat_add_stride_i8p_xpulpv2` (parallel SIMD): the trace performed by
the processing element with core id `p`.  `n_rem = N & 0b011` scalar
additions and one extra `__ADD4` block when `n_blk = N & 0b100` is set. -/
def plp_mat_add_stride_i8p_xpulpv2 (A B : Mem) (M N sA sB sY nPE p : Nat) : List Evt :=
  let n_iter := N / 8       -- N >> 3
  let n_rem := N % 4        -- N & 0b011
  let n_blk := N / 4 % 2    -- N & 0b100 (zero-tested only)
  let step_a := sA * nPE - N
  let step_b := sB * nPE - N
  let step_y := sY * nPE - N
  if n_rem ≠ 0 then
    if n_blk ≠ 0 then
      parLoop2 (fun ia ib iy =>
        let r := nIter2 (addI8Chunk8 A B) n_iter ia ib iy
        let s := addI8Chunk4 A B r.2.1 r.2.2.1 r.2.2.2
        let u := nIter2 (addChunk1 8 A B) n_rem s.2.1 s.2.2.1 s.2.2.2
        (r.1 ++ s.1 ++ u.1, u.2))
        step_a step_b step_y nPE M M p (sA * p) (sB * p) (sY * p)
    else
      parLoop2 (fun ia ib iy =>
        let r := nIter2 (addI8Chunk8 A B) n_iter ia ib iy
        let u := nIter2 (addChunk1 8 A B) n_rem r.2.1 r.2.2.1 r.2.2.2
        (r.1 ++ u.1, u.2))
        step_a step_b step_y nPE M M p (sA * p) (sB * p) (sY * p)
  else
    if n_blk ≠ 0 then
      parLoop2 (fun ia ib iy =>
        let r := nIter2 (addI8Chunk8 A B) n_iter ia ib iy
        let s := addI8Chunk4 A B r.2.1 r.2.2.1 r.2.2.2
        (r.1 ++ s.1, s.2))
        step_a step_b step_y nPE M M p (sA * p) (sB * p) (sY * p)
    else
      parLoop2 (fun ia ib iy => nIter2 (addI8Chunk8 A B) n_iter ia ib iy)
        step_a step_b step_y nPE M M p (sA * p) (sB * p) (sY * p)

theorem addI8par_eq_canon (A B : Mem) (M N sA sB sY nPE p : Nat)
    (hA : N ≤ sA) (hB : N ≤ sB) (hY : N ≤ sY) (hnpe : 1 ≤ nPE) :
    plp_mat_add_stride_i8p_xpulpv2 A B M N sA sB sY nPE p =
      ((parIdx nPE M M p).map fun r =>
        canonRow2 (addv 8 A B) (r * sA) (r * sB) (r * sY) N).flatten := by
  have hsa : sA ≤ sA * nPE := Nat.le_mul_of_pos_right sA (by omega)
  have hsb : sB ≤ sB * nPE := Nat.le_mul_of_pos_right sB (by omega)
  have hsy : sY ≤ sY * nPE := Nat.le_mul_of_pos_right sY (by omega)
  unfold plp_mat_add_stride_i8p_xpulpv2
  rw [Nat.mul_comm sA p, Nat.mul_comm sB p, Nat.mul_comm sY p]
  by_cases hrem : N % 4 = 0 <;> by_cases hblk : N / 4 % 2 = 0
  · rw [if_neg (by omega), if_neg (by omega)]
    have hrow : ∀ ia ib iy, nIter2 (addI8Chunk8 A B) (N / 8) ia ib iy =
        (canonRow2 (addv 8 A B) ia ib iy N, ia + N, ib + N, iy + N) := by
      intro ia ib iy
      rw [nIter2_chunk (addI8Chunk8_isChunk A B), show N / 8 * 8 = N by omega]
    exact parLoop2_canon (t := N) (by omega) (by omega) (by omega) hrow M p
  · rw [if_neg (by omega), if_pos (by omega)]
    have hrow : ∀ ia ib iy,
        (let r := nIter2 (addI8Chunk8 A B) (N / 8) ia ib iy
         let s := addI8Chunk4 A B r.2.1 r.2.2.1 r.2.2.2
         (r.1 ++ s.1, s.2)) =
        (canonRow2 (addv 8 A B) ia ib iy N, ia + N, ib + N, iy + N) := by
      intro ia ib iy
      simp only [nIter2_chunk (addI8Chunk8_isChunk A B), addI8Chunk4_isChunk A B]
      generalize hk : N / 8 = k
      rw [show N = k * 8 + 4 by omega]
      refine congrArg₂ Prod.mk ?_ ?_
      · rw [← canonRow2_append (addv 8 A B) ia ib iy (k * 8) 4]
      · simp only [Prod.ext_iff]
        omega
    exact parLoop2_canon (t := N) (by omega) (by omega) (by omega) hrow M p
  · rw [if_pos (by omega), if_neg (by omega)]
    have hrow : ∀ ia ib iy,
        (let r := nIter2 (addI8Chunk8 A B) (N / 8) ia ib iy
         let u := nIter2 (addChunk1 8 A B) (N % 4) r.2.1 r.2.2.1 r.2.2.2
         (r.1 ++ u.1, u.2)) =
        (canonRow2 (addv 8 A B) ia ib iy N, ia + N, ib + N, iy + N) := by
      intro ia ib iy
      simp only [nIter2_chunk (addI8Chunk8_isChunk A B), nIter2_chunk (addChunk1_isChunk 8 A B)]
      generalize hk : N / 8 = k
      generalize hr : N % 4 = r
      rw [show N = k * 8 + r * 1 by omega]
      refine congrArg₂ Prod.mk ?_ ?_
      · rw [← canonRow2_append (addv 8 A B) ia ib iy (k * 8) (r * 1)]
      · simp only [Prod.ext_iff]
        omega
    exact parLoop2_canon (t := N) (by omega) (by omega) (by omega) hrow M p
  · rw [if_pos (by omega), if_pos (by omega)]
    have hrow : ∀ ia ib iy,
        (let r := nIter2 (addI8Chunk8 A B) (N / 8) ia ib iy
         let s := addI8Chunk4 A B r.2.1 r.2.2.1 r.2.2.2
         let u := nIter2 (addChunk1 8 A B) (N % 4) s.2.1 s.2.2.1 s.2.2.2
         (r.1 ++ s.1 ++ u.1, u.2)) =
        (canonRow2 (addv 8 A B) ia ib iy N, ia + N, ib + N, iy + N) := by
      intro ia ib iy
      simp only [nIter2_chunk (addI8Chunk8_isChunk A B), addI8Chunk4_isChunk A B,
        nIter2_chunk (addChunk1_isChunk 8 A B)]
      generalize hk : N / 8 = k
      generalize hr : N % 4 = r
      rw [show N = k * 8 + 4 + r * 1 by omega]
      refine congrArg₂ Prod.mk ?_ ?_
      · rw [← canonRow2_glue3 (addv 8 A B) ia ib iy (k * 8) 4 (r * 1)]
      · simp only [Prod.ext_iff]
        omega
    exact parLoop2_canon (t := N) (by omega) (by omega) (by omega) hrow M p

/-- Unrolled inner-loop body of `plp_mat_sub_stride_i16s_rv32im`: two scalar
16-bit loads per operand, two subtractions, two stores. -/
def subI16rvChunk2 (A B : Mem) (ia ib iy : Nat) : List Evt × Nat × Nat × Nat :=
  ([Evt.store iy (wrap 16 (A ia - B ib)),
    Evt.store (iy + 1) (wrap 16 (A (ia + 1) - B (ib + 1)))],
   ia + 2, ib + 2, iy + 2)

theorem subI16rvChunk2_isChunk (A B : Mem) : IsChunk2 (subv 16 A B) 2 (subI16rvChunk2 A B) := by
  intro ia ib iy
  simp [subI16rvChunk2, canonRow2, List.range_succ, subv]

/-- Kernel `plp_mat_sub_stride_i16s_rv32im`, `PLP_MATH_LOOPUNROLL` build. -/
def plp_mat_sub_stride_i16s_rv32im_unroll (A B : Mem) (M N sA sB sY : Nat) : List Evt :=
  let n_iter := N / 2       -- N >> 1
  let n_rem := N % 2        -- N & 0x1
  let step_a := sA - N
  let step_b := sB - N
  let step_y := sY - N
  if n_rem ≠ 0 then
    seqLoop2 (fun ia ib iy =>
      let r := nIter2 (subI16rvChunk2 A B) n_iter ia ib iy
      (r.1 ++ [Evt.store r.2.2.2 (wrap 16 (A r.2.1 - B r.2.2.1))],
        r.2.1 + 1, r.2.2.1 + 1, r.2.2.2 + 1))
      step_a step_b step_y M 0 0 0
  else
    seqLoop2 (fun ia ib iy => nIter2 (subI16rvChunk2 A B) n_iter ia ib iy)
      step_a step_b step_y M 0 0 0

/-- Kernel `plp_mat_sub_stride_i16s_rv32im`, plain build: row-major double loop. -/
def plp_mat_sub_stride_i16s_rv32im_plain (A B : Mem) (M N sA sB sY : Nat) : List Evt :=
  seqLoop2 (fun ia ib iy => nIter2 (subChunk1 16 A B) N ia ib iy)
    (sA - N) (sB - N) (sY - N) M 0 0 0

theorem subI16rvU_eq_canon (A B : Mem) (M N sA sB sY : Nat)
    (hA : N ≤ sA) (hB : N ≤ sB) (hY : N ≤ sY) :
    plp_mat_sub_stride_i16s_rv32im_unroll A B M N sA sB sY =
      canonMat2 (subv 16 A B) sA sB sY M N := by
  unfold plp_mat_sub_stride_i16s_rv32im_unroll
  by_cases hrem : N % 2 = 0
  · rw [if_neg (by omega)]
    have hrow : ∀ ia ib iy, nIter2 (subI16rvChunk2 A B) (N / 2) ia ib iy =
        (canonRow2 (subv 16 A B) ia ib iy N, ia + N, ib + N, iy + N) := by
      intro ia ib iy
      rw [nIter2_chunk (subI16rvChunk2_isChunk A B), show N / 2 * 2 = N by omega]
    rw [seqLoop2_canon (t := N) sA sB sY
      (by omega) (by omega) (by omega) hrow M 0 0 0]
    simp [canonMat2]
  · rw [if_pos (by omega)]
    have hrow : ∀ ia ib iy,
        (let r := nIter2 (subI16rvChunk2 A B) (N / 2) ia ib iy
         (r.1 ++ [Evt.store r.2.2.2 (wrap 16 (A r.2.1 - B r.2.2.1))],
           r.2.1 + 1, r.2.2.1 + 1, r.2.2.2 + 1)) =
        (canonRow2 (subv 16 A B) ia ib iy N, ia + N, ib + N, iy + N) := by
      intro ia ib iy
      simp only [nIter2_chunk (subI16rvChunk2_isChunk A B)]
      generalize hk : N / 2 = k
      rw [show N = k * 2 + 1 by omega]
      refine congrArg₂ Prod.mk ?_ ?_
      · rw [canonRow2_append (subv 16 A B) ia ib iy (k * 2) 1, canonRow2_one]
        simp [subv]
      · simp only [Prod.ext_iff]
        omega
    rw [seqLoop2_canon (t := N) sA sB sY
      (by omega) (by omega) (by omega) hrow M 0 0 0]
    simp [canonMat2]

theorem subI16rvP_eq_canon (A B : Mem) (M N sA sB sY : Nat)
    (hA : N ≤ sA) (hB : N ≤ sB) (hY : N ≤ sY) :
    plp_mat_sub_stride_i16s_rv32im_plain A B M N sA sB sY =
      canonMat2 (subv 16 A B) sA sB sY M N := by
  unfold plp_mat_sub_stride_i16s_rv32im_plain
  have hrow : ∀ ia ib iy, nIter2 (subChunk1 16 A B) N ia ib iy =
      (canonRow2 (subv 16 A B) ia ib iy N, ia + N, ib + N, iy + N) := by
    intro ia ib iy
    rw [nIter2_chunk (subChunk1_isChunk 16 A B), Nat.mul_one]
  rw [seqLoop2_canon (t := N) sA sB sY
    (by omega) (by omega) (by omega) hrow M 0 0 0]
  simp [canonMat2]

/-- SIMD inner-loop body of `plp_mat_sub_stride_i16s_xpulpv2`
(`PLP_MATH_LOOPUNROLL`): two `v2s` loads per operand and two `__SUB2`
stores — four 16-bit lanes subtracted with 16-bit wraparound per lane. -/
def subI16Chunk4 (A B : Mem) (ia ib iy : Nat) : List Evt × Nat × Nat × Nat :=
  ([Evt.store iy (wrap 16 (A ia - B ib)),
    Evt.store (iy + 1) (wrap 16 (A (ia + 1) - B (ib + 1))),
    Evt.store (iy + 2) (wrap 16 (A (ia + 2) - B (ib + 2))),
    Evt.store (iy + 3) (wrap 16 (A (ia + 3) - B (ib + 3)))],
   ia + 4, ib + 4, iy + 4)

/-- One `__SUB2` block (two 16-bit lanes). -/
def subI16Chunk2 (A B : Mem) (ia ib iy : Nat) : List Evt × Nat × Nat × Nat :=
  ([Evt.store iy (wrap 16 (A ia - B ib)),
    Evt.store (iy + 1) (wrap 16 (A (ia + 1) - B (ib + 1)))],
   ia + 2, ib + 2, iy + 2)

theorem subI16Chunk4_isChunk (A B : Mem) : IsChunk2 (subv 16 A B) 4 (subI16Chunk4 A B) := by
  intro ia ib iy
  simp [subI16Chunk4, canonRow2, List.range_succ, subv]

theorem subI16Chunk2_isChunk (A B : Mem) : IsChunk2 (subv 16 A B) 2 (subI16Chunk2 A B) := by
  intro ia ib iy
  simp [subI16Chunk2, canonRow2, List.range_succ, subv]

/-- Kernel `plp_mat_sub_stride_i16s_xpulpv2`, `PLP_MATH_LOOPUNROLL` build: SIMD
loop unrolled by two `__SUB2` ops, one `__SUB2` block for `n_blk` and a
scalar tail for `n_rem`. -/
def plp_mat_sub_stride_i16s_xpulpv2_unroll (A B : Mem) (M N sA sB sY : Nat) : List Evt :=
  let n_iter := N / 4       -- N >> 2
  let n_rem := N % 2        -- N & 0b01
  let n_blk := N / 2 % 2    -- N & 0b10 (zero-tested only)
  let step_a := sA - N
  let step_b := sB - N
  let step_y := sY - N
  if n_rem ≠ 0 then
    if n_blk ≠ 0 then
      seqLoop2 (fun ia ib iy =>
        let r := nIter2 (subI16Chunk4 A B) n_iter ia ib iy
        let s := subI16Chunk2 A B r.2.1 r.2.2.1 r.2.2.2
        let u := subChunk1 16 A B s.2.1 s.2.2.1 s.2.2.2
        (r.1 ++ s.1 ++ u.1, u.2))
        step_a step_b step_y M 0 0 0
    else
      seqLoop2 (fun ia ib iy =>
        let r := nIter2 (subI16Chunk4 A B) n_iter ia ib iy
        let u := subChunk1 16 A B r.2.1 r.2.2.1 r.2.2.2
        (r.1 ++ u.1, u.2))
        step_a step_b step_y M 0 0 0
  else
    if n_blk ≠ 0 then
      seqLoop2 (fun ia ib iy =>
        let r := nIter2 (subI16Chunk4 A B) n_iter ia ib iy
        let s := subI16Chunk2 A B r.2.1 r.2.2.1 r.2.2.2
        (r.1 ++ s.1, s.2))
        step_a step_b step_y M 0 0 0
    else
      seqLoop2 (fun ia ib iy => nIter2 (subI16Chunk4 A B) n_iter ia ib iy)
        step_a step_b step_y M 0 0 0

/-- Kernel `plp_mat_sub_stride_i16s_xpulpv2`, non-unrolled build: one `__SUB2` per
inner step and a scalar tail when `N` is odd. -/
def plp_mat_sub_stride_i16s_xpulpv2_plain (A B : Mem) (M N sA sB sY : Nat) : List Evt :=
  let n_iter := N / 2       -- N >> 1
  let n_rem := N % 2        -- N & 0x1
  let step_a := sA - N
  let step_b := sB - N
  let step_y := sY - N
  if n_rem ≠ 0 then
    seqLoop2 (fun ia ib iy =>
      let r := nIter2 (subI16Chunk2 A B) n_iter ia ib iy
      let u := subChunk1 16 A B r.2.1 r.2.2.1 r.2.2.2
      (r.1 ++ u.1, u.2))
      step_a step_b step_y M 0 0 0
  else
    seqLoop2 (fun ia ib iy => nIter2 (subI16Chunk2 A B) n_iter ia ib iy)
      step_a step_b step_y M 0 0 0

theorem subI16xU_eq_canon (A B : Mem) (M N sA sB sY : Nat)
    (hA : N ≤ sA) (hB : N ≤ sB) (hY : N ≤ sY) :
    plp_mat_sub_stride_i16s_xpulpv2_unroll A B M N sA sB sY =
      canonMat2 (subv 16 A B) sA sB sY M N := by
  unfold plp_mat_sub_stride_i16s_xpulpv2_unroll
  by_cases hrem : N % 2 = 0 <;> by_cases hblk : N / 2 % 2 = 0
  · rw [if_neg (by omega), if_neg (by omega)]
    have hrow : ∀ ia ib iy, nIter2 (subI16Chunk4 A B) (N / 4) ia ib iy =
        (canonRow2 (subv 16 A B) ia ib iy N, ia + N, ib + N, iy + N) := by
      intro ia ib iy
      rw [nIter2_chunk (subI16Chunk4_isChunk A B), show N / 4 * 4 = N by omega]
    rw [seqLoop2_canon (t := N) sA sB sY
      (by omega) (by omega) (by omega) hrow M 0 0 0]
    simp [canonMat2]
  · rw [if_neg (by omega), if_pos (by omega)]
    have hrow : ∀ ia ib iy,
        (let r := nIter2 (subI16Chunk4 A B) (N / 4) ia ib iy
         let s := subI16Chunk2 A B r.2.1 r.2.2.1 r.2.2.2
         (r.1 ++ s.1, s.2)) =
        (canonRow2 (subv 16 A B) ia ib iy N, ia + N, ib + N, iy + N) := by
      intro ia ib iy
      simp only [nIter2_chunk (subI16Chunk4_isChunk A B), subI16Chunk2_isChunk A B]
      generalize hk : N / 4 = k
      rw [show N = k * 4 + 2 by omega]
      refine congrArg₂ Prod.mk ?_ ?_
      · rw [← canonRow2_append (subv 16 A B) ia ib iy (k * 4) 2]
      · simp only [Prod.ext_iff]
        omega
    rw [seqLoop2_canon (t := N) sA sB sY
      (by omega) (by omega) (by omega) hrow M 0 0 0]
    simp [canonMat2]
  · rw [if_pos (by omega), if_neg (by omega)]
    have hrow : ∀ ia ib iy,
        (let r := nIter2 (subI16Chunk4 A B) (N / 4) ia ib iy
         let u := subChunk1 16 A B r.2.1 r.2.2.1 r.2.2.2
         (r.1 ++ u.1, u.2)) =
        (canonRow2 (subv 16 A B) ia ib iy N, ia + N, ib + N, iy + N) := by
      intro ia ib iy
      simp only [nIter2_chunk (subI16Chunk4_isChunk A B), subChunk1_isChunk 16 A B]
      generalize hk : N / 4 = k
      rw [show N = k * 4 + 1 by omega]
      refine congrArg₂ Prod.mk ?_ ?_
      · rw [← canonRow2_append (subv 16 A B) ia ib iy (k * 4) 1]
      · simp only [Prod.ext_iff]
        omega
    rw [seqLoop2_canon (t := N) sA sB sY
      (by omega) (by omega) (by omega) hrow M 0 0 0]
    simp [canonMat2]
  · rw [if_pos (by omega), if_pos (by omega)]
    have hrow : ∀ ia ib iy,
        (let r := nIter2 (subI16Chunk4 A B) (N / 4) ia ib iy
         let s := subI16Chunk2 A B r.2.1 r.2.2.1 r.2.2.2
         let u := subChunk1 16 A B s.2.1 s.2.2.1 s.2.2.2
         (r.1 ++ s.1 ++ u.1, u.2)) =
        (canonRow2 (subv 16 A B) ia ib iy N, ia + N, ib + N, iy + N) := by
      intro ia ib iy
      simp only [nIter2_chunk (subI16Chunk4_isChunk A B), subI16Chunk2_isChunk A B,
        subChunk1_isChunk 16 A B]
      generalize hk : N / 4 = k
      rw [show N = k * 4 + 2 + 1 by omega]
      refine congrArg₂ Prod.mk ?_ ?_
      · rw [← canonRow2_glue3 (subv 16 A B) ia ib iy (k * 4) 2 1]
      · simp only [Prod.ext_iff]
        omega
    rw [seqLoop2_canon (t := N) sA sB sY
      (by omega) (by omega) (by omega) hrow M 0 0 0]
    simp [canonMat2]

theorem subI16xP_eq_canon (A B : Mem) (M N sA sB sY : Nat)
    (hA : N ≤ sA) (hB : N ≤ sB) (hY : N ≤ sY) :
    plp_mat_sub_stride_i16s_xpulpv2_plain A B M N sA sB sY =
      canonMat2 (subv 16 A B) sA sB sY M N := by
  unfold plp_mat_sub_stride_i16s_xpulpv2_plain
  by_cases hrem : N % 2 = 0
  · rw [if_neg (by omega)]
    have hrow : ∀ ia ib iy, nIter2 (subI16Chunk2 A B) (N / 2) ia ib iy =
        (canonRow2 (subv 16 A B) ia ib iy N, ia + N, ib + N, iy + N) := by
      intro ia ib iy
      rw [nIter2_chunk (subI16Chunk2_isChunk A B), show N / 2 * 2 = N by omega]
    rw [seqLoop2_canon (t := N) sA sB sY
      (by omega) (by omega) (by omega) hrow M 0 0 0]
    simp [canonMat2]
  · rw [if_pos (by omega)]
    have hrow : ∀ ia ib iy,
        (let r := nIter2 (subI16Chunk2 A B) (N / 2) ia ib iy
         let u := subChunk1 16 A B r.2.1 r.2.2.1 r.2.2.2
         (r.1 ++ u.1, u.2)) =
        (canonRow2 (subv 16 A B) ia ib iy N, ia + N, ib + N, iy + N) := by
      intro ia ib iy
      simp only [nIter2_chunk (subI16Chunk2_isChunk A B), subChunk1_isChunk 16 A B]
      generalize hk : N / 2 = k
      rw [show N = k * 2 + 1 by omega]
      refine congrArg₂ Prod.mk ?_ ?_
      · rw [← canonRow2_append (subv 16 A B) ia ib iy (k * 2) 1]
      · simp only [Prod.ext_iff]
        omega
    rw [seqLoop2_canon (t := N) sA sB sY
      (by omega) (by omega) (by omega) hrow M 0 0 0]
    simp [canonMat2]

/-- Two `int32` copies of an `int16` row segment (four 16-bit elements). -/
def cpI16Chunk4 (S : Mem) (isrc iy : Nat) : List Evt × Nat × Nat :=
  ([Evt.store iy (S isrc), Evt.store (iy + 1) (S (isrc + 1)),
    Evt.store (iy + 2) (S (isrc + 2)), Evt.store (iy + 3) (S (isrc + 3))],
   isrc + 4, iy + 4)

/-- One `int32` copy of an `int16` row segment (two 16-bit elements). -/
def cpI16Chunk2 (S : Mem) (isrc iy : Nat) : List Evt × Nat × Nat :=
  ([Evt.store iy (S isrc), Evt.store (iy + 1) (S (isrc + 1))], isrc + 2, iy + 2)

/-- One `int32` copy of an `int8` row segment (four 8-bit elements). -/
def cpI8Chunk4 (S : Mem) (isrc iy : Nat) : List Evt × Nat × Nat :=
  ([Evt.store iy (S isrc), Evt.store (iy + 1) (S (isrc + 1)),
    Evt.store (iy + 2) (S (isrc + 2)), Evt.store (iy + 3) (S (isrc + 3))],
   isrc + 4, iy + 4)

/-- Two `int32` copies of an `int8` row segment (eight 8-bit elements). -/
def cpI8Chunk8 (S : Mem) (isrc iy : Nat) : List Evt × Nat × Nat :=
  ([Evt.store iy (S isrc), Evt.store (iy + 1) (S (isrc + 1)),
    Evt.store (iy + 2) (S (isrc + 2)), Evt.store (iy + 3) (S (isrc + 3)),
    Evt.store (iy + 4) (S (isrc + 4)), Evt.store (iy + 5) (S (isrc + 5)),
    Evt.store (iy + 6) (S (isrc + 6)), Evt.store (iy + 7) (S (isrc + 7))],
   isrc + 8, iy + 8)

/-- Two scalar `int32` copies (`*pDst++ = *pSrc++` twice). -/
def cpI32Chunk2 (S : Mem) (isrc iy : Nat) : List Evt × Nat × Nat :=
  ([Evt.store iy (S isrc), Evt.store (iy + 1) (S (isrc + 1))], isrc + 2, iy + 2)

/-- One scalar copy `*pDst++ = *pSrc++`. -/
def cpChunk1 (S : Mem) (isrc iy : Nat) : List Evt × Nat × Nat :=
  ([Evt.store iy (S isrc)], isrc + 1, iy + 1)

theorem cpI16Chunk4_isChunk (S : Mem) : IsChunk1 S 4 (cpI16Chunk4 S) := by
  intro isrc iy
  simp [cpI16Chunk4, canonRow1, List.range_succ]

theorem cpI16Chunk2_isChunk (S : Mem) : IsChunk1 S 2 (cpI16Chunk2 S) := by
  intro isrc iy
  simp [cpI16Chunk2, canonRow1, List.range_succ]

theorem cpI8Chunk4_isChunk (S : Mem) : IsChunk1 S 4 (cpI8Chunk4 S) := by
  intro isrc iy
  simp [cpI8Chunk4, canonRow1, List.range_succ]

theorem cpI8Chunk8_isChunk (S : Mem) : IsChunk1 S 8 (cpI8Chunk8 S) := by
  intro isrc iy
  simp [cpI8Chunk8, canonRow1, List.range_succ]

theorem cpI32Chunk2_isChunk (S : Mem) : IsChunk1 S 2 (cpI32Chunk2 S) := by
  intro isrc iy
  simp [cpI32Chunk2, canonRow1, List.range_succ]

theorem cpChunk1_isChunk (S : Mem) : IsChunk1 S 1 (cpChunk1 S) := by
  intro isrc iy
  simp [cpChunk1, canonRow1_one]

/-- Kernel `plp_mat_copy_stride_i16s_xpulpv2`, `PLP_MATH_LOOPUNROLL` build.  In the
`n_rem` branches the final scalar copy does not advance the pointers; the
row step is `stride - N + 1` instead. -/
def plp_mat_copy_stride_i16s_xpulpv2_unroll (S : Mem) (M N sS sD : Nat) : List Evt :=
  let n_iter := N / 4       -- N >> 2
  let n_blk := N / 2 % 2    -- N & 0b10 (zero-tested only)
  let n_rem := N % 2        -- N & 0b01
  if n_rem ≠ 0 then
    let src_offset := sS - N + 1
    let dst_offset := sD - N + 1
    if n_blk ≠ 0 then
      seqLoop1 (fun isrc iy =>
        let r := nIter1 (cpI16Chunk4 S) n_iter isrc iy
        let s := cpI16Chunk2 S r.2.1 r.2.2
        (r.1 ++ s.1 ++ [Evt.store s.2.2 (S s.2.1)], s.2.1, s.2.2))
        src_offset dst_offset M 0 0
    else
      seqLoop1 (fun isrc iy =>
        let r := nIter1 (cpI16Chunk4 S) n_iter isrc iy
        (r.1 ++ [Evt.store r.2.2 (S r.2.1)], r.2.1, r.2.2))
        src_offset dst_offset M 0 0
  else
    let src_offset := sS - N
    let dst_offset := sD - N
    if n_blk ≠ 0 then
      seqLoop1 (fun isrc iy =>
        let r := nIter1 (cpI16Chunk4 S) n_iter isrc iy
        let s := cpI16Chunk2 S r.2.1 r.2.2
        (r.1 ++ s.1, s.2))
        src_offset dst_offset M 0 0
    else
      seqLoop1 (fun isrc iy => nIter1 (cpI16Chunk4 S) n_iter isrc iy)
        src_offset dst_offset M 0 0

/-- Kernel `plp_mat_copy_stride_i16s_xpulpv2`, non-unrolled build: one `int32` copy
per step and a non-advancing scalar tail when `N` is odd. -/
def plp_mat_copy_stride_i16s_xpulpv2_plain (S : Mem) (M N sS sD : Nat) : List Evt :=
  let n_iter := N / 2       -- N >> 1
  let n_rem := N % 2        -- N & 0x1
  if n_rem ≠ 0 then
    seqLoop1 (fun isrc iy =>
      let r := nIter1 (cpI16Chunk2 S) n_iter isrc iy
      (r.1 ++ [Evt.store r.2.2 (S r.2.1)], r.2.1, r.2.2))
      (sS - N + 1) (sD - N + 1) M 0 0
  else
    seqLoop1 (fun isrc iy => nIter1 (cpI16Chunk2 S) n_iter isrc iy)
      (sS - N) (sD - N) M 0 0

theorem cpI16xU_eq_canon (S : Mem) (M N sS sD : Nat) (hS : N ≤ sS) (hD : N ≤ sD) :
    plp_mat_copy_stride_i16s_xpulpv2_unroll S M N sS sD = canonMat1 S sS sD M N := by
  unfold plp_mat_copy_stride_i16s_xpulpv2_unroll
  by_cases hrem : N % 2 = 0 <;> by_cases hblk : N / 2 % 2 = 0
  · rw [if_neg (by omega), if_neg (by omega)]
    have hrow : ∀ isrc iy, nIter1 (cpI16Chunk4 S) (N / 4) isrc iy =
        (canonRow1 S isrc iy N, isrc + N, iy + N) := by
      intro isrc iy
      rw [nIter1_chunk (cpI16Chunk4_isChunk S), show N / 4 * 4 = N by omega]
    rw [seqLoop1_canon (t := N) sS sD (by omega) (by omega) hrow M 0 0]
    simp [canonMat1]
  · rw [if_neg (by omega), if_pos (by omega)]
    have hrow : ∀ isrc iy,
        (let r := nIter1 (cpI16Chunk4 S) (N / 4) isrc iy
         let s := cpI16Chunk2 S r.2.1 r.2.2
         (r.1 ++ s.1, s.2)) =
        (canonRow1 S isrc iy N, isrc + N, iy + N) := by
      intro isrc iy
      simp only [nIter1_chunk (cpI16Chunk4_isChunk S), cpI16Chunk2_isChunk S]
      generalize hk : N / 4 = k
      rw [show N = k * 4 + 2 by omega]
      refine congrArg₂ Prod.mk ?_ ?_
      · rw [← canonRow1_append S isrc iy (k * 4) 2]
      · simp only [Prod.ext_iff]
        omega
    rw [seqLoop1_canon (t := N) sS sD (by omega) (by omega) hrow M 0 0]
    simp [canonMat1]
  · rw [if_pos (by omega), if_neg (by omega)]
    have hrow : ∀ isrc iy,
        (let r := nIter1 (cpI16Chunk4 S) (N / 4) isrc iy
         (r.1 ++ [Evt.store r.2.2 (S r.2.1)], r.2.1, r.2.2)) =
        (canonRow1 S isrc iy N, isrc + (N - 1), iy + (N - 1)) := by
      intro isrc iy
      simp only [nIter1_chunk (cpI16Chunk4_isChunk S)]
      generalize hk : N / 4 = k
      rw [show N = k * 4 + 1 by omega]
      refine congrArg₂ Prod.mk ?_ ?_
      · rw [canonRow1_append S isrc iy (k * 4) 1, canonRow1_one]
      · simp only [Prod.ext_iff]
        omega
    rw [seqLoop1_canon (t := N - 1) sS sD (by omega) (by omega) hrow M 0 0]
    simp [canonMat1]
  · rw [if_pos (by omega), if_pos (by omega)]
    have hrow : ∀ isrc iy,
        (let r := nIter1 (cpI16Chunk4 S) (N / 4) isrc iy
         let s := cpI16Chunk2 S r.2.1 r.2.2
         (r.1 ++ s.1 ++ [Evt.store s.2.2 (S s.2.1)], s.2.1, s.2.2)) =
        (canonRow1 S isrc iy N, isrc + (N - 1), iy + (N - 1)) := by
      intro isrc iy
      simp only [nIter1_chunk (cpI16Chunk4_isChunk S), cpI16Chunk2_isChunk S]
      generalize hk : N / 4 = k
      rw [show N = k * 4 + 2 + 1 by omega]
      refine congrArg₂ Prod.mk ?_ ?_
      · rw [← canonRow1_glue3 S isrc iy (k * 4) 2 1, canonRow1_one]
      · simp only [Prod.ext_iff]
        omega
    rw [seqLoop1_canon (t := N - 1) sS sD (by omega) (by omega) hrow M 0 0]
    simp [canonMat1]

theorem cpI16xP_eq_canon (S : Mem) (M N sS sD : Nat) (hS : N ≤ sS) (hD : N ≤ sD) :
    plp_mat_copy_stride_i16s_xpulpv2_plain S M N sS sD = canonMat1 S sS sD M N := by
  unfold plp_mat_copy_stride_i16s_xpulpv2_plain
  by_cases hrem : N % 2 = 0
  · rw [if_neg (by omega)]
    have hrow : ∀ isrc iy, nIter1 (cpI16Chunk2 S) (N / 2) isrc iy =
        (canonRow1 S isrc iy N, isrc + N, iy + N) := by
      intro isrc iy
      rw [nIter1_chunk (cpI16Chunk2_isChunk S), show N / 2 * 2 = N by omega]
    rw [seqLoop1_canon (t := N) sS sD (by omega) (by omega) hrow M 0 0]
    simp [canonMat1]
  · rw [if_pos (by omega)]
    have hrow : ∀ isrc iy,
        (let r := nIter1 (cpI16Chunk2 S) (N / 2) isrc iy
         (r.1 ++ [Evt.store r.2.2 (S r.2.1)], r.2.1, r.2.2)) =
        (canonRow1 S isrc iy N, isrc + (N - 1), iy + (N - 1)) := by
      intro isrc iy
      simp only [nIter1_chunk (cpI16Chunk2_isChunk S)]
      generalize hk : N / 2 = k
      rw [show N = k * 2 + 1 by omega]
      refine congrArg₂ Prod.mk ?_ ?_
      · rw [canonRow1_append S isrc iy (k * 2) 1, canonRow1_one]
      · simp only [Prod.ext_iff]
        omega
    rw [seqLoop1_canon (t := N - 1) sS sD (by omega) (by omega) hrow M 0 0]
    simp [canonMat1]

/-- Kernel `plp_mat_copy_stride_i32s_rv32im`, `PLP_MATH_LOOPUNROLL` build: two
scalar copies per inner step and an in-loop `if (n_rem)` scalar tail. -/
def plp_mat_copy_stride_i32s_rv32im_unroll (S : Mem) (M N sS sD : Nat) : List Evt :=
  let n_iter := N / 2       -- N >> 1
  let n_rem := N % 2        -- N & 0x1
  seqLoop1 (fun isrc iy =>
    let r := nIter1 (cpI32Chunk2 S) n_iter isrc iy
    if n_rem ≠ 0 then (r.1 ++ [Evt.store r.2.2 (S r.2.1)], r.2.1 + 1, r.2.2 + 1)
    else r)
    (sS - N) (sD - N) M 0 0

/-- Kernel `plp_mat_copy_stride_i32s_rv32im`, plain build: index-based row-major
double loop `pDst[m*strideDst+n] = pSrc[m*strideSrc+n]`. -/
def plp_mat_copy_stride_i32s_rv32im_plain (S : Mem) (M N sS sD : Nat) : List Evt :=
  ((List.range M).map fun m =>
    (List.range N).map fun n => Evt.store (m * sD + n) (S (m * sS + n))).flatten

theorem cpI32rvU_eq_canon (S : Mem) (M N sS sD : Nat) (hS : N ≤ sS) (hD : N ≤ sD) :
    plp_mat_copy_stride_i32s_rv32im_unroll S M N sS sD = canonMat1 S sS sD M N := by
  unfold plp_mat_copy_stride_i32s_rv32im_unroll
  by_cases hrem : N % 2 = 0
  · have hrow : ∀ isrc iy,
        (let r := nIter1 (cpI32Chunk2 S) (N / 2) isrc iy
         if N % 2 ≠ 0 then (r.1 ++ [Evt.store r.2.2 (S r.2.1)], r.2.1 + 1, r.2.2 + 1)
         else r) =
        (canonRow1 S isrc iy N, isrc + N, iy + N) := by
      intro isrc iy
      rw [if_neg (by omega), nIter1_chunk (cpI32Chunk2_isChunk S), show N / 2 * 2 = N by omega]
    rw [seqLoop1_canon (t := N) sS sD (by omega) (by omega) hrow M 0 0]
    simp [canonMat1]
  · have hrow : ∀ isrc iy,
        (let r := nIter1 (cpI32Chunk2 S) (N / 2) isrc iy
         if N % 2 ≠ 0 then (r.1 ++ [Evt.store r.2.2 (S r.2.1)], r.2.1 + 1, r.2.2 + 1)
         else r) =
        (canonRow1 S isrc iy N, isrc + N, iy + N) := by
      intro isrc iy
      rw [if_pos (by omega), nIter1_chunk (cpI32Chunk2_isChunk S)]
      generalize hk : N / 2 = k
      rw [show N = k * 2 + 1 by omega]
      refine congrArg₂ Prod.mk ?_ ?_
      · rw [canonRow1_append S isrc iy (k * 2) 1, canonRow1_one]
      · simp only [Prod.ext_iff]
        omega
    rw [seqLoop1_canon (t := N) sS sD (by omega) (by omega) hrow M 0 0]
    simp [canonMat1]

theorem cpI32rvP_eq_canon (S : Mem) (M N sS sD : Nat) :
    plp_mat_copy_stride_i32s_rv32im_plain S M N sS sD = canonMat1 S sS sD M N := rfl

/-- Kernel `plp_mat_copy_stride_i8s_rv32im`, plain build: one `int32` copy (four
8-bit elements) per inner step and an advancing scalar remainder loop. -/
def plp_mat_copy_stride_i8s_rv32im_plain (S : Mem) (M N sS sD : Nat) : List Evt :=
  let n_iter := N / 4       -- N >> 2
  let n_rem := N % 4        -- N & 0x3
  if n_rem ≠ 0 then
    seqLoop1 (fun isrc iy =>
      let r := nIter1 (cpI8Chunk4 S) n_iter isrc iy
      let u := nIter1 (cpChunk1 S) n_rem r.2.1 r.2.2
      (r.1 ++ u.1, u.2))
      (sS - N) (sD - N) M 0 0
  else
    seqLoop1 (fun isrc iy => nIter1 (cpI8Chunk4 S) n_iter isrc iy)
      (sS - N) (sD - N) M 0 0

theorem cpI8rvP_eq_canon (S : Mem) (M N sS sD : Nat) (hS : N ≤ sS) (hD : N ≤ sD) :
    plp_mat_copy_stride_i8s_rv32im_plain S M N sS sD = canonMat1 S sS sD M N := by
  unfold plp_mat_copy_stride_i8s_rv32im_plain
  by_cases hrem : N % 4 = 0
  · rw [if_neg (by omega)]
    have hrow : ∀ isrc iy, nIter1 (cpI8Chunk4 S) (N / 4) isrc iy =
        (canonRow1 S isrc iy N, isrc + N, iy + N) := by
      intro isrc iy
      rw [nIter1_chunk (cpI8Chunk4_isChunk S), show N / 4 * 4 = N by omega]
    rw [seqLoop1_canon (t := N) sS sD (by omega) (by omega) hrow M 0 0]
    simp [canonMat1]
  · rw [if_pos (by omega)]
    have hrow : ∀ isrc iy,
        (let r := nIter1 (cpI8Chunk4 S) (N / 4) isrc iy
         let u := nIter1 (cpChunk1 S) (N % 4) r.2.1 r.2.2
         (r.1 ++ u.1, u.2)) =
        (canonRow1 S isrc iy N, isrc + N, iy + N) := by
      intro isrc iy
      simp only [nIter1_chunk (cpI8Chunk4_isChunk S), nIter1_chunk (cpChunk1_isChunk S)]
      generalize hk : N / 4 = k
      generalize hr : N % 4 = r
      rw [show N = k * 4 + r * 1 by omega]
      refine congrArg₂ Prod.mk ?_ ?_
      · rw [← canonRow1_append S isrc iy (k * 4) (r * 1)]
      · simp only [Prod.ext_iff]
        omega
    rw [seqLoop1_canon (t := N) sS sD (by omega) (by omega) hrow M 0 0]
    simp [canonMat1]

/-- Kernel `plp_mat_copy_stride_i16p_xpulpv2` (parallel): the trace performed by the
processing element with core id `p`.  Rem branches use a non-advancing tail
copy and row step `nPE * stride - N + 1`. -/
def plp_mat_copy_stride_i16p_xpulpv2 (S : Mem) (M N sS sD nPE p : Nat) : List Evt :=
  let n_iter := N / 4       -- N >> 2
  let n_blk := N / 2 % 2    -- N & 0b10 (zero-tested only)
  let n_rem := N % 2        -- N & 0b01
  if n_rem ≠ 0 then
    let src_offset := nPE * sS - N + 1
    let dst_offset := nPE * sD - N + 1
    if n_blk ≠ 0 then
      parLoop1 (fun isrc iy =>
        let r := nIter1 (cpI16Chunk4 S) n_iter isrc iy
        let s := cpI16Chunk2 S r.2.1 r.2.2
        (r.1 ++ s.1 ++ [Evt.store s.2.2 (S s.2.1)], s.2.1, s.2.2))
        src_offset dst_offset nPE M M p (sS * p) (sD * p)
    else
      parLoop1 (fun isrc iy =>
        let r := nIter1 (cpI16Chunk4 S) n_iter isrc iy
        (r.1 ++ [Evt.store r.2.2 (S r.2.1)], r.2.1, r.2.2))
        src_offset dst_offset nPE M M p (sS * p) (sD * p)
  else
    let src_offset := nPE * sS - N
    let dst_offset := nPE * sD - N
    if n_blk ≠ 0 then
      parLoop1 (fun isrc iy =>
        let r := nIter1 (cpI16Chunk4 S) n_iter isrc iy
        let s := cpI16Chunk2 S r.2.1 r.2.2
        (r.1 ++ s.1, s.2))
        src_offset dst_offset nPE M M p (sS * p) (sD * p)
    else
      parLoop1 (fun isrc iy => nIter1 (cpI16Chunk4 S) n_iter isrc iy)
        src_offset dst_offset nPE M M p (sS * p) (sD * p)

theorem cpI16par_eq_canon (S : Mem) (M N sS sD nPE p : Nat)
    (hS : N ≤ sS) (hD : N ≤ sD) (hnpe : 1 ≤ nPE) :
    plp_mat_copy_stride_i16p_xpulpv2 S M N sS sD nPE p =
      ((parIdx nPE M M p).map fun r => canonRow1 S (r * sS) (r * sD) N).flatten := by
  have hcs : nPE * sS = sS * nPE := Nat.mul_comm _ _
  have hcd : nPE * sD = sD * nPE := Nat.mul_comm _ _
  have hss : sS ≤ sS * nPE := Nat.le_mul_of_pos_right sS (by omega)
  have hsd : sD ≤ sD * nPE := Nat.le_mul_of_pos_right sD (by omega)
  unfold plp_mat_copy_stride_i16p_xpulpv2
  rw [Nat.mul_comm sS p, Nat.mul_comm sD p]
  by_cases hrem : N % 2 = 0 <;> by_cases hblk : N / 2 % 2 = 0
  · rw [if_neg (by omega), if_neg (by omega)]
    have hrow : ∀ isrc iy, nIter1 (cpI16Chunk4 S) (N / 4) isrc iy =
        (canonRow1 S isrc iy N, isrc + N, iy + N) := by
      intro isrc iy
      rw [nIter1_chunk (cpI16Chunk4_isChunk S), show N / 4 * 4 = N by omega]
    exact parLoop1_canon (t := N) (by omega) (by omega) hrow M p
  · rw [if_neg (by omega), if_pos (by omega)]
    have hrow : ∀ isrc iy,
        (let r := nIter1 (cpI16Chunk4 S) (N / 4) isrc iy
         let s := cpI16Chunk2 S r.2.1 r.2.2
         (r.1 ++ s.1, s.2)) =
        (canonRow1 S isrc iy N, isrc + N, iy + N) := by
      intro isrc iy
      simp only [nIter1_chunk (cpI16Chunk4_isChunk S), cpI16Chunk2_isChunk S]
      generalize hk : N / 4 = k
      rw [show N = k * 4 + 2 by omega]
      refine congrArg₂ Prod.mk ?_ ?_
      · rw [← canonRow1_append S isrc iy (k * 4) 2]
      · simp only [Prod.ext_iff]
        omega
    exact parLoop1_canon (t := N) (by omega) (by omega) hrow M p
  · rw [if_pos (by omega), if_neg (by omega)]
    have hrow : ∀ isrc iy,
        (let r := nIter1 (cpI16Chunk4 S) (N / 4) isrc iy
         (r.1 ++ [Evt.store r.2.2 (S r.2.1)], r.2.1, r.2.2)) =
        (canonRow1 S isrc iy N, isrc + (N - 1), iy + (N - 1)) := by
      intro isrc iy
      simp only [nIter1_chunk (cpI16Chunk4_isChunk S)]
      generalize hk : N / 4 = k
      rw [show N = k * 4 + 1 by omega]
      refine congrArg₂ Prod.mk ?_ ?_
      · rw [canonRow1_append S isrc iy (k * 4) 1, canonRow1_one]
      · simp only [Prod.ext_iff]
        omega
    exact parLoop1_canon (t := N - 1) (by omega) (by omega) hrow M p
  · rw [if_pos (by omega), if_pos (by omega)]
    have hrow : ∀ isrc iy,
        (let r := nIter1 (cpI16Chunk4 S) (N / 4) isrc iy
         let s := cpI16Chunk2 S r.2.1 r.2.2
         (r.1 ++ s.1 ++ [Evt.store s.2.2 (S s.2.1)], s.2.1, s.2.2)) =
        (canonRow1 S isrc iy N, isrc + (N - 1), iy + (N - 1)) := by
      intro isrc iy
      simp only [nIter1_chunk (cpI16Chunk4_isChunk S), cpI16Chunk2_isChunk S]
      generalize hk : N / 4 = k
      rw [show N = k * 4 + 2 + 1 by omega]
      refine congrArg₂ Prod.mk ?_ ?_
      · rw [← canonRow1_glue3 S isrc iy (k * 4) 2 1, canonRow1_one]
      · simp only [Prod.ext_iff]
        omega
    exact parLoop1_canon (t := N - 1) (by omega) (by omega) hrow M p

/-- Kernel `plp_mat_copy_stride_i8p_xpulpv2` (parallel): the trace performed by the
processing element with core id `p`.  The source splits into eight cases on
`n_iter = N >> 3`, `n_rem = N & 0b011` and `n_last_full = N & 0b100`; the
`n_iter == n_rem == n_last_full == 0` case (`N = 0`) performs no work. -/
def plp_mat_copy_stride_i8p_xpulpv2 (S : Mem) (M N sS sD nPE p : Nat) : List Evt :=
  let n_iter := N / 8           -- N >> 3
  let n_rem := N % 4            -- N & 0b011
  let n_last_full := N / 4 % 2  -- N & 0b100 (zero-tested only)
  let src_offset := sS * nPE - N
  let dst_offset := sD * nPE - N
  if n_iter = 0 then
    if n_rem = 0 then
      if n_last_full = 0 then []
      else
        parLoop1 (fun isrc iy => cpI8Chunk4 S isrc iy)
          src_offset dst_offset nPE M M p (sS * p) (sD * p)
    else
      if n_last_full = 0 then
        parLoop1 (fun isrc iy => nIter1 (cpChunk1 S) n_rem isrc iy)
          src_offset dst_offset nPE M M p (sS * p) (sD * p)
      else
        parLoop1 (fun isrc iy =>
          let r := cpI8Chunk4 S isrc iy
          let u := nIter1 (cpChunk1 S) n_rem r.2.1 r.2.2
          (r.1 ++ u.1, u.2))
          src_offset dst_offset nPE M M p (sS * p) (sD * p)
  else
    if n_rem = 0 then
      if n_last_full = 0 then
        parLoop1 (fun isrc iy => nIter1 (cpI8Chunk8 S) n_iter isrc iy)
          src_offset dst_offset nPE M M p (sS * p) (sD * p)
      else
        parLoop1 (fun isrc iy =>
          let r := nIter1 (cpI8Chunk8 S) n_iter isrc iy
          let s := cpI8Chunk4 S r.2.1 r.2.2
          (r.1 ++ s.1, s.2))
          src_offset dst_offset nPE M M p (sS * p) (sD * p)
    else
      if n_last_full = 0 then
        parLoop1 (fun isrc iy =>
          let r := nIter1 (cpI8Chunk8 S) n_iter isrc iy
          let u := nIter1 (cpChunk1 S) n_rem r.2.1 r.2.2
          (r.1 ++ u.1, u.2))
          src_offset dst_offset nPE M M p (sS * p) (sD * p)
      else
        parLoop1 (fun isrc iy =>
          let r := nIter1 (cpI8Chunk8 S) n_iter isrc iy
          let s := cpI8Chunk4 S r.2.1 r.2.2
          let u := nIter1 (cpChunk1 S) n_rem s.2.1 s.2.2
          (r.1 ++ s.1 ++ u.1, u.2))
          src_offset dst_offset nPE M M p (sS * p) (sD * p)

theorem cpI8par_eq_canon (S : Mem) (M N sS sD nPE p : Nat)
    (hS : N ≤ sS) (hD : N ≤ sD) (hnpe : 1 ≤ nPE) :
    plp_mat_copy_stride_i8p_xpulpv2 S M N sS sD nPE p =
      ((parIdx nPE M M p).map fun r => canonRow1 S (r * sS) (r * sD) N).flatten := by
  have hss : sS ≤ sS * nPE := Nat.le_mul_of_pos_right sS (by omega)
  have hsd : sD ≤ sD * nPE := Nat.le_mul_of_pos_right sD (by omega)
  unfold plp_mat_copy_stride_i8p_xpulpv2
  rw [Nat.mul_comm sS p, Nat.mul_comm sD p]
  by_cases hiter : N / 8 = 0 <;> by_cases hrem : N % 4 = 0 <;>
    by_cases hlast : N / 4 % 2 = 0
  · -- N = 0: no work, and the canonical rows are all empty
    rw [if_pos hiter, if_pos hrem, if_pos hlast]
    have hN : N = 0 := by omega
    subst hN
    simp [canonRow1, List.flatten_eq_nil_iff]
  · rw [if_pos hiter, if_pos hrem, if_neg hlast]
    have hrow : ∀ isrc iy, cpI8Chunk4 S isrc iy =
        (canonRow1 S isrc iy N, isrc + N, iy + N) := by
      intro isrc iy
      rw [cpI8Chunk4_isChunk S, show (4 : Nat) = N by omega]
    exact parLoop1_canon (t := N) (by omega) (by omega) hrow M p
  · rw [if_pos hiter, if_neg hrem, if_pos hlast]
    have hrow : ∀ isrc iy, nIter1 (cpChunk1 S) (N % 4) isrc iy =
        (canonRow1 S isrc iy N, isrc + N, iy + N) := by
      intro isrc iy
      rw [nIter1_chunk (cpChunk1_isChunk S), show N % 4 * 1 = N by omega]
    exact parLoop1_canon (t := N) (by omega) (by omega) hrow M p
  · rw [if_pos hiter, if_neg hrem, if_neg hlast]
    have hrow : ∀ isrc iy,
        (let r := cpI8Chunk4 S isrc iy
         let u := nIter1 (cpChunk1 S) (N % 4) r.2.1 r.2.2
         (r.1 ++ u.1, u.2)) =
        (canonRow1 S isrc iy N, isrc + N, iy + N) := by
      intro isrc iy
      simp only [cpI8Chunk4_isChunk S, nIter1_chunk (cpChunk1_isChunk S)]
      generalize hr : N % 4 = r
      rw [show N = 4 + r * 1 by omega]
      refine congrArg₂ Prod.mk ?_ ?_
      · rw [← canonRow1_append S isrc iy 4 (r * 1)]
      · simp only [Prod.ext_iff]
        omega
    exact parLoop1_canon (t := N) (by omega) (by omega) hrow M p
  · rw [if_neg hiter, if_pos hrem, if_pos hlast]
    have hrow : ∀ isrc iy, nIter1 (cpI8Chunk8 S) (N / 8) isrc iy =
        (canonRow1 S isrc iy N, isrc + N, iy + N) := by
      intro isrc iy
      rw [nIter1_chunk (cpI8Chunk8_isChunk S), show N / 8 * 8 = N by omega]
    exact parLoop1_canon (t := N) (by omega) (by omega) hrow M p
  · rw [if_neg hiter, if_pos hrem, if_neg hlast]
    have hrow : ∀ isrc iy,
        (let r := nIter1 (cpI8Chunk8 S) (N / 8) isrc iy
         let s := cpI8Chunk4 S r.2.1 r.2.2
         (r.1 ++ s.1, s.2)) =
        (canonRow1 S isrc iy N, isrc + N, iy + N) := by
      intro isrc iy
      simp only [nIter1_chunk (cpI8Chunk8_isChunk S), cpI8Chunk4_isChunk S]
      generalize hk : N / 8 = k
      rw [show N = k * 8 + 4 by omega]
      refine congrArg₂ Prod.mk ?_ ?_
      · rw [← canonRow1_append S isrc iy (k * 8) 4]
      · simp only [Prod.ext_iff]
        omega
    exact parLoop1_canon (t := N) (by omega) (by omega) hrow M p
  · rw [if_neg hiter, if_neg hrem, if_pos hlast]
    have hrow : ∀ isrc iy,
        (let r := nIter1 (cpI8Chunk8 S) (N / 8) isrc iy
         let u := nIter1 (cpChunk1 S) (N % 4) r.2.1 r.2.2
         (r.1 ++ u.1, u.2)) =
        (canonRow1 S isrc iy N, isrc + N, iy + N) := by
      intro isrc iy
      simp only [nIter1_chunk (cpI8Chunk8_isChunk S), nIter1_chunk (cpChunk1_isChunk S)]
      generalize hk : N / 8 = k
      generalize hr : N % 4 = r
      rw [show N = k * 8 + r * 1 by omega]
      refine congrArg₂ Prod.mk ?_ ?_
      · rw [← canonRow1_append S isrc iy (k * 8) (r * 1)]
      · simp only [Prod.ext_iff]
        omega
    exact parLoop1_canon (t := N) (by omega) (by omega) hrow M p
  · rw [if_neg hiter, if_neg hrem, if_neg hlast]
    have hrow : ∀ isrc iy,
        (let r := nIter1 (cpI8Chunk8 S) (N / 8) isrc iy
         let s := cpI8Chunk4 S r.2.1 r.2.2
         let u := nIter1 (cpChunk1 S) (N % 4) s.2.1 s.2.2
         (r.1 ++ s.1 ++ u.1, u.2)) =
        (canonRow1 S isrc iy N, isrc + N, iy + N) := by
      intro isrc iy
      simp only [nIter1_chunk (cpI8Chunk8_isChunk S), cpI8Chunk4_isChunk S,
        nIter1_chunk (cpChunk1_isChunk S)]
      generalize hk : N / 8 = k
      generalize hr : N % 4 = r
      rw [show N = k * 8 + 4 + r * 1 by omega]
      refine congrArg₂ Prod.mk ?_ ?_
      · rw [← canonRow1_glue3 S isrc iy (k * 8) 4 (r * 1)]
      · simp only [Prod.ext_iff]
        omega
    exact parLoop1_canon (t := N) (by omega) (by omega) hrow M p

theorem mem_canonRow1 {e : Evt} {S : Mem} {isrc iy N : Nat} :
    e ∈ canonRow1 S isrc iy N ↔ ∃ n, n < N ∧ e = Evt.store (iy + n) (S (isrc + n)) := by
  unfold canonRow1
  rw [List.mem_map]
  constructor
  · rintro ⟨n, hn, rfl⟩
    exact ⟨n, List.mem_range.mp hn, rfl⟩
  · rintro ⟨n, hn, rfl⟩
    exact ⟨n, List.mem_range.mpr hn, rfl⟩

theorem canonRow1_two (S : Mem) (isrc iy : Nat) :
    canonRow1 S isrc iy 2 = [Evt.store iy (S isrc), Evt.store (iy + 1) (S (isrc + 1))] := by
  simp [canonRow1, List.range_succ]

/-- Interleaved unrolled inner loop of the row-paired rv32im copies: per
iteration, one block of `c` elements on each of the two rows.  `c = 2`
models the `int16` kernel (one `int32` copy per row); `c = 4` models the
`int8` kernel. -/
def pairInner (S : Mem) (c : Nat) :
    Nat → Nat → Nat → Nat → Nat → List Evt × Nat × Nat × Nat × Nat
  | 0, is1, is2, id1, id2 => ([], is1, is2, id1, id2)
  | k + 1, is1, is2, id1, id2 =>
    let t := canonRow1 S is1 id1 c ++ canonRow1 S is2 id2 c
    let r := pairInner S c k (is1 + c) (is2 + c) (id1 + c) (id2 + c)
    (t ++ r.1, r.2)

/-- Interleaved remainder loop of the row-paired `int8` rv32im copy:
`*pDst1++ = *pSrc1++; *pDst2++ = *pSrc2++` per iteration. -/
def pairRemLoop (S : Mem) :
    Nat → Nat → Nat → Nat → Nat → List Evt × Nat × Nat × Nat × Nat
  | 0, is1, is2, id1, id2 => ([], is1, is2, id1, id2)
  | k + 1, is1, is2, id1, id2 =>
    let t := [Evt.store id1 (S is1), Evt.store id2 (S is2)]
    let r := pairRemLoop S k (is1 + 1) (is2 + 1) (id1 + 1) (id2 + 1)
    (t ++ r.1, r.2)

theorem pairInner_snd (S : Mem) (c : Nat) :
    ∀ k is1 is2 id1 id2, (pairInner S c k is1 is2 id1 id2).2 =
      (is1 + k * c, is2 + k * c, id1 + k * c, id2 + k * c) := by
  intro k
  induction k with
  | zero => intro is1 is2 id1 id2; simp [pairInner]
  | succ k ih =>
    intro is1 is2 id1 id2
    simp only [pairInner, ih]
    rw [show (k + 1) * c = c + k * c by ring]
    simp only [Prod.ext_iff]
    omega

theorem pairInner_mem (S : Mem) (c : Nat) :
    ∀ k is1 is2 id1 id2 e, e ∈ (pairInner S c k is1 is2 id1 id2).1 ↔
      e ∈ canonRow1 S is1 id1 (k * c) ∨ e ∈ canonRow1 S is2 id2 (k * c) := by
  intro k
  induction k with
  | zero =>
    intro is1 is2 id1 id2 e
    simp [pairInner, canonRow1]
  | succ k ih =>
    intro is1 is2 id1 id2 e
    simp only [pairInner, List.append_assoc, List.mem_append, ih]
    rw [show (k + 1) * c = c + k * c by ring,
      canonRow1_append S is1 id1 c (k * c), canonRow1_append S is2 id2 c (k * c)]
    simp only [List.mem_append]
    tauto

theorem pairRemLoop_snd (S : Mem) :
    ∀ k is1 is2 id1 id2, (pairRemLoop S k is1 is2 id1 id2).2 =
      (is1 + k, is2 + k, id1 + k, id2 + k) := by
  intro k
  induction k with
  | zero => intro is1 is2 id1 id2; simp [pairRemLoop]
  | succ k ih =>
    intro is1 is2 id1 id2
    simp only [pairRemLoop, ih]
    simp only [Prod.ext_iff]
    omega

theorem pairRemLoop_mem (S : Mem) :
    ∀ k is1 is2 id1 id2 e, e ∈ (pairRemLoop S k is1 is2 id1 id2).1 ↔
      e ∈ canonRow1 S is1 id1 k ∨ e ∈ canonRow1 S is2 id2 k := by
  intro k
  induction k with
  | zero =>
    intro is1 is2 id1 id2 e
    simp [pairRemLoop, canonRow1]
  | succ k ih =>
    intro is1 is2 id1 id2 e
    simp only [pairRemLoop, List.mem_append, List.mem_cons, List.mem_singleton, ih]
    rw [show k + 1 = 1 + k by ring,
      canonRow1_append S is1 id1 1 k, canonRow1_append S is2 id2 1 k, canonRow1_one,
      canonRow1_one]
    simp only [List.mem_append, List.mem_singleton]
    tauto

/-- Loop `for (m = 0; m < m_iter; m++)` over row pairs: the two source and two
destination pointers are threaded and stepped by the shared per-pair
offsets between iterations. -/
def pairLoop (body : Nat → Nat → Nat → Nat → List Evt × Nat × Nat × Nat × Nat)
    (stepS stepD : Nat) : Nat → Nat → Nat → Nat → Nat → List Evt × Nat × Nat × Nat × Nat
  | 0, is1, is2, id1, id2 => ([], is1, is2, id1, id2)
  | m + 1, is1, is2, id1, id2 =>
    let r := body is1 is2 id1 id2
    let q := pairLoop body stepS stepD m (r.2.1 + stepS) (r.2.2.1 + stepS)
      (r.2.2.2.1 + stepD) (r.2.2.2.2 + stepD)
    (r.1 ++ q.1, q.2)

theorem pairLoop_spec {body : Nat → Nat → Nat → Nat → List Evt × Nat × Nat × Nat × Nat}
    {S : Mem} {N t : Nat} (stepS stepD sS sD : Nat)
    (hsnd : ∀ is1 is2 id1 id2, (body is1 is2 id1 id2).2 =
      (is1 + t, is2 + t, id1 + t, id2 + t))
    (hmem : ∀ is1 is2 id1 id2 e, e ∈ (body is1 is2 id1 id2).1 ↔
      e ∈ canonRow1 S is1 id1 N ∨ e ∈ canonRow1 S is2 id2 N)
    (hS : t + stepS = 2 * sS) (hD : t + stepD = 2 * sD) :
    ∀ k s0 y0,
      (pairLoop body stepS stepD k s0 (s0 + sS) y0 (y0 + sD)).2 =
        (s0 + 2 * k * sS, s0 + 2 * k * sS + sS, y0 + 2 * k * sD, y0 + 2 * k * sD + sD) ∧
      ∀ e, e ∈ (pairLoop body stepS stepD k s0 (s0 + sS) y0 (y0 + sD)).1 ↔
        ∃ j, j < 2 * k ∧ e ∈ canonRow1 S (s0 + j * sS) (y0 + j * sD) N := by
  intro k
  induction k with
  | zero =>
    intro s0 y0
    refine ⟨by simp [pairLoop], ?_⟩
    intro e
    simp [pairLoop]
  | succ k ih =>
    intro s0 y0
    have hstep1 : s0 + t + stepS = s0 + 2 * sS := by omega
    have hstep2 : s0 + sS + t + stepS = (s0 + 2 * sS) + sS := by omega
    have hstep3 : y0 + t + stepD = y0 + 2 * sD := by omega
    have hstep4 : y0 + sD + t + stepD = (y0 + 2 * sD) + sD := by omega
    obtain ⟨ihsnd, ihmem⟩ := ih (s0 + 2 * sS) (y0 + 2 * sD)
    constructor
    · simp only [pairLoop, hsnd, hstep1, hstep2, hstep3, hstep4, ihsnd]
      simp only [Prod.ext_iff]
      refine ⟨by ring, by ring, by ring, by ring⟩
    · intro e
      simp only [pairLoop, hsnd, hstep1, hstep2, hstep3, hstep4, List.mem_append,
        ihmem, hmem]
      constructor
      · rintro ((h | h) | ⟨j, hj, h⟩)
        · exact ⟨0, by omega, by simpa using h⟩
        · exact ⟨1, by omega, by simpa [one_mul] using h⟩
        · refine ⟨j + 2, by omega, ?_⟩
          rw [show s0 + (j + 2) * sS = s0 + 2 * sS + j * sS by ring,
            show y0 + (j + 2) * sD = y0 + 2 * sD + j * sD by ring]
          exact h
      · rintro ⟨j, hj, h⟩
        match j with
        | 0 => exact Or.inl (Or.inl (by simpa using h))
        | 1 => exact Or.inl (Or.inr (by simpa [one_mul] using h))
        | j + 2 =>
          refine Or.inr ⟨j, by omega, ?_⟩
          rw [show s0 + 2 * sS + j * sS = s0 + (j + 2) * sS by ring,
            show y0 + 2 * sD + j * sD = y0 + (j + 2) * sD by ring]
          exact h

/-- Row-pair body of `plp_mat_copy_stride_i16s_rv32im` (unrolled) for odd
`N`: the interleaved `int32`-copy loop and the two non-advancing remainder
copies, one per row. -/
def cpI16rvPairBodyRem (S : Mem) (n_iter : Nat) (is1 is2 id1 id2 : Nat) :
    List Evt × Nat × Nat × Nat × Nat :=
  let r := pairInner S 2 n_iter is1 is2 id1 id2
  (r.1 ++ [Evt.store r.2.2.2.1 (S r.2.1), Evt.store r.2.2.2.2 (S r.2.2.1)], r.2)

/-- Kernel `plp_mat_copy_stride_i16s_rv32im`, `PLP_MATH_LOOPUNROLL` build: rows are
processed two at a time (`pSrc1`/`pSrc2`, `pDst1`/`pDst2`); when `M` is odd
the `m_rem` block runs the same two-row body once more, touching row `M`. -/
def plp_mat_copy_stride_i16s_rv32im_unroll (S : Mem) (M N sS sD : Nat) : List Evt :=
  let n_iter := N / 2       -- N >> 1
  let n_rem := N % 2        -- N & 0x1
  let m_iter := M / 2       -- M >> 1
  let m_rem := M % 2        -- M & 0x1
  if n_rem ≠ 0 then
    let src_offset := 2 * sS - N + 1
    let dst_offset := 2 * sD - N + 1
    let q := pairLoop (cpI16rvPairBodyRem S n_iter) src_offset dst_offset m_iter 0 sS 0 sD
    q.1 ++ (if m_rem ≠ 0 then
      (cpI16rvPairBodyRem S n_iter q.2.1 q.2.2.1 q.2.2.2.1 q.2.2.2.2).1 else [])
  else
    let src_offset := 2 * sS - N
    let dst_offset := 2 * sD - N
    let q := pairLoop (fun is1 is2 id1 id2 => pairInner S 2 n_iter is1 is2 id1 id2)
      src_offset dst_offset m_iter 0 sS 0 sD
    q.1 ++ (if m_rem ≠ 0 then
      (pairInner S 2 n_iter q.2.1 q.2.2.1 q.2.2.2.1 q.2.2.2.2).1 else [])

/-- The unrolled `int16` rv32im copy touches the rows of an
`(M + M % 2) × N` view: when `M` is odd, the remainder block also copies
row `M`, one row beyond the logical matrix. -/
theorem cpI16rvU_mem (S : Mem) (M N sS sD : Nat) (hS : N ≤ sS) (hD : N ≤ sD) :
    ∀ e, e ∈ plp_mat_copy_stride_i16s_rv32im_unroll S M N sS sD ↔
      ∃ m, m < M + M % 2 ∧ e ∈ canonRow1 S (m * sS) (m * sD) N := by
  intro e
  unfold plp_mat_copy_stride_i16s_rv32im_unroll
  by_cases hrem : N % 2 = 0
  · rw [if_neg (by omega)]
    have hsnd : ∀ is1 is2 id1 id2, (pairInner S 2 (N / 2) is1 is2 id1 id2).2 =
        (is1 + N, is2 + N, id1 + N, id2 + N) := by
      intro is1 is2 id1 id2
      rw [pairInner_snd, show N / 2 * 2 = N by omega]
    have hmem : ∀ is1 is2 id1 id2 e', e' ∈ (pairInner S 2 (N / 2) is1 is2 id1 id2).1 ↔
        e' ∈ canonRow1 S is1 id1 N ∨ e' ∈ canonRow1 S is2 id2 N := by
      intro is1 is2 id1 id2 e'
      rw [pairInner_mem, show N / 2 * 2 = N by omega]
    obtain ⟨hq2, hq1⟩ := pairLoop_spec (N := N) (t := N)
      (2 * sS - N) (2 * sD - N) sS sD
      hsnd hmem (by omega) (by omega) (M / 2) 0 0
    simp only [Nat.zero_add] at hq2 hq1
    rw [List.mem_append, hq1 e]
    by_cases hM : M % 2 = 0
    · rw [if_neg (by omega)]
      simp only [List.not_mem_nil, or_false]
      constructor
      · rintro ⟨j, hj, h⟩
        exact ⟨j, by omega, h⟩
      · rintro ⟨m, hm, h⟩
        exact ⟨m, by omega, h⟩
    · rw [if_pos (by omega), hq2, hmem]
      constructor
      · rintro (⟨j, hj, h⟩ | h | h)
        · exact ⟨j, by omega, h⟩
        · exact ⟨2 * (M / 2), by omega, h⟩
        · refine ⟨2 * (M / 2) + 1, by omega, ?_⟩
          rw [show (2 * (M / 2) + 1) * sS = 2 * (M / 2) * sS + sS by ring,
            show (2 * (M / 2) + 1) * sD = 2 * (M / 2) * sD + sD by ring]
          exact h
      · rintro ⟨m, hm, h⟩
        by_cases hml : m < 2 * (M / 2)
        · exact Or.inl ⟨m, hml, h⟩
        · by_cases hme : m = 2 * (M / 2)
          · subst hme
            exact Or.inr (Or.inl h)
          · have hme1 : m = 2 * (M / 2) + 1 := by omega
            subst hme1
            refine Or.inr (Or.inr ?_)
            rw [show 2 * (M / 2) * sS + sS = (2 * (M / 2) + 1) * sS by ring,
              show 2 * (M / 2) * sD + sD = (2 * (M / 2) + 1) * sD by ring]
            exact h
  · rw [if_pos (by omega)]
    have hsnd : ∀ is1 is2 id1 id2, (cpI16rvPairBodyRem S (N / 2) is1 is2 id1 id2).2 =
        (is1 + (N - 1), is2 + (N - 1), id1 + (N - 1), id2 + (N - 1)) := by
      intro is1 is2 id1 id2
      unfold cpI16rvPairBodyRem
      rw [pairInner_snd, show N / 2 * 2 = N - 1 by omega]
    have hmem : ∀ is1 is2 id1 id2 e', e' ∈ (cpI16rvPairBodyRem S (N / 2) is1 is2 id1 id2).1 ↔
        e' ∈ canonRow1 S is1 id1 N ∨ e' ∈ canonRow1 S is2 id2 N := by
      intro is1 is2 id1 id2 e'
      unfold cpI16rvPairBodyRem
      simp only [pairInner_snd, List.mem_append, pairInner_mem, List.mem_cons,
        List.mem_singleton, List.not_mem_nil, or_false]
      generalize hk : N / 2 = k
      rw [show N = k * 2 + 1 by omega,
        canonRow1_append S is1 id1 (k * 2) 1, canonRow1_append S is2 id2 (k * 2) 1,
        canonRow1_one, canonRow1_one]
      simp only [List.mem_append, List.mem_singleton]
      tauto
    obtain ⟨hq2, hq1⟩ := pairLoop_spec (N := N) (t := N - 1)
      (2 * sS - N + 1) (2 * sD - N + 1) sS sD
      hsnd hmem (by omega) (by omega) (M / 2) 0 0
    simp only [Nat.zero_add] at hq2 hq1
    rw [List.mem_append, hq1 e]
    by_cases hM : M % 2 = 0
    · rw [if_neg (by omega)]
      simp only [List.not_mem_nil, or_false]
      constructor
      · rintro ⟨j, hj, h⟩
        exact ⟨j, by omega, h⟩
      · rintro ⟨m, hm, h⟩
        exact ⟨m, by omega, h⟩
    · rw [if_pos (by omega), hq2, hmem]
      constructor
      · rintro (⟨j, hj, h⟩ | h | h)
        · exact ⟨j, by omega, h⟩
        · exact ⟨2 * (M / 2), by omega, h⟩
        · refine ⟨2 * (M / 2) + 1, by omega, ?_⟩
          rw [show (2 * (M / 2) + 1) * sS = 2 * (M / 2) * sS + sS by ring,
            show (2 * (M / 2) + 1) * sD = 2 * (M / 2) * sD + sD by ring]
          exact h
      · rintro ⟨m, hm, h⟩
        by_cases hml : m < 2 * (M / 2)
        · exact Or.inl ⟨m, hml, h⟩
        · by_cases hme : m = 2 * (M / 2)
          · subst hme
            exact Or.inr (Or.inl h)
          · have hme1 : m = 2 * (M / 2) + 1 := by omega
            subst hme1
            refine Or.inr (Or.inr ?_)
            rw [show 2 * (M / 2) * sS + sS = (2 * (M / 2) + 1) * sS by ring,
              show 2 * (M / 2) * sD + sD = (2 * (M / 2) + 1) * sD by ring]
            exact h

/-- Row-pair body of `plp_mat_copy_stride_i8s_rv32im` (unrolled), `n_rem`
branch: the interleaved `int32`-copy loop and the interleaved advancing
scalar remainder loop. -/
def cpI8rvPairBody (S : Mem) (n_iter n_rem : Nat) (is1 is2 id1 id2 : Nat) :
    List Evt × Nat × Nat × Nat × Nat :=
  let r := pairInner S 4 n_iter is1 is2 id1 id2
  let u := pairRemLoop S n_rem r.2.1 r.2.2.1 r.2.2.2.1 r.2.2.2.2
  (r.1 ++ u.1, u.2)

/-- Kernel `plp_mat_copy_stride_i8s_rv32im`, `PLP_MATH_LOOPUNROLL` build: rows are
processed two at a time; when `M` is odd the `m_rem` block copies the single
remaining row `M - 1` (only `pSrc1`/`pDst1`). -/
def plp_mat_copy_stride_i8s_rv32im_unroll (S : Mem) (M N sS sD : Nat) : List Evt :=
  let n_iter := N / 4       -- N >> 2
  let n_rem := N % 4        -- N & 0x3
  let m_iter := M / 2       -- M >> 1
  let m_rem := M % 2        -- M & 0x1
  let offset_src := 2 * sS - N
  let offset_dst := 2 * sD - N
  if n_rem ≠ 0 then
    let q := pairLoop (cpI8rvPairBody S n_iter n_rem) offset_src offset_dst m_iter 0 sS 0 sD
    q.1 ++ (if m_rem ≠ 0 then
      (let r := nIter1 (cpI8Chunk4 S) n_iter q.2.1 q.2.2.2.1
       let u := nIter1 (cpChunk1 S) n_rem r.2.1 r.2.2
       r.1 ++ u.1) else [])
  else
    let q := pairLoop (fun is1 is2 id1 id2 => pairInner S 4 n_iter is1 is2 id1 id2)
      offset_src offset_dst m_iter 0 sS 0 sD
    q.1 ++ (if m_rem ≠ 0 then (nIter1 (cpI8Chunk4 S) n_iter q.2.1 q.2.2.2.1).1 else [])

/-- The unrolled `int8` rv32im copy touches exactly the rows of the `M × N`
view: the odd-`M` remainder block copies only the last row. -/
theorem cpI8rvU_mem (S : Mem) (M N sS sD : Nat) (hS : N ≤ sS) (hD : N ≤ sD) :
    ∀ e, e ∈ plp_mat_copy_stride_i8s_rv32im_unroll S M N sS sD ↔
      ∃ m, m < M ∧ e ∈ canonRow1 S (m * sS) (m * sD) N := by
  intro e
  unfold plp_mat_copy_stride_i8s_rv32im_unroll
  by_cases hrem : N % 4 = 0
  · rw [if_neg (by omega)]
    have hsnd : ∀ is1 is2 id1 id2, (pairInner S 4 (N / 4) is1 is2 id1 id2).2 =
        (is1 + N, is2 + N, id1 + N, id2 + N) := by
      intro is1 is2 id1 id2
      rw [pairInner_snd, show N / 4 * 4 = N by omega]
    have hmem : ∀ is1 is2 id1 id2 e', e' ∈ (pairInner S 4 (N / 4) is1 is2 id1 id2).1 ↔
        e' ∈ canonRow1 S is1 id1 N ∨ e' ∈ canonRow1 S is2 id2 N := by
      intro is1 is2 id1 id2 e'
      rw [pairInner_mem, show N / 4 * 4 = N by omega]
    obtain ⟨hq2, hq1⟩ := pairLoop_spec (N := N) (t := N)
      (2 * sS - N) (2 * sD - N) sS sD
      hsnd hmem (by omega) (by omega) (M / 2) 0 0
    simp only [Nat.zero_add] at hq2 hq1
    rw [List.mem_append, hq1 e]
    by_cases hM : M % 2 = 0
    · rw [if_neg (by omega)]
      simp only [List.not_mem_nil, or_false]
      constructor
      · rintro ⟨j, hj, h⟩
        exact ⟨j, by omega, h⟩
      · rintro ⟨m, hm, h⟩
        exact ⟨m, by omega, h⟩
    · rw [if_pos (by omega), hq2]
      rw [nIter1_chunk (cpI8Chunk4_isChunk S), show N / 4 * 4 = N by omega]
      constructor
      · rintro (⟨j, hj, h⟩ | h)
        · exact ⟨j, by omega, h⟩
        · exact ⟨2 * (M / 2), by omega, h⟩
      · rintro ⟨m, hm, h⟩
        by_cases hml : m < 2 * (M / 2)
        · exact Or.inl ⟨m, hml, h⟩
        · have hme : m = 2 * (M / 2) := by omega
          subst hme
          exact Or.inr h
  · rw [if_pos (by omega)]
    have hsnd : ∀ is1 is2 id1 id2, (cpI8rvPairBody S (N / 4) (N % 4) is1 is2 id1 id2).2 =
        (is1 + N, is2 + N, id1 + N, id2 + N) := by
      intro is1 is2 id1 id2
      unfold cpI8rvPairBody
      simp only [pairInner_snd, pairRemLoop_snd]
      simp only [Prod.ext_iff]
      omega
    have hmem : ∀ is1 is2 id1 id2 e', e' ∈ (cpI8rvPairBody S (N / 4) (N % 4) is1 is2 id1 id2).1 ↔
        e' ∈ canonRow1 S is1 id1 N ∨ e' ∈ canonRow1 S is2 id2 N := by
      intro is1 is2 id1 id2 e'
      unfold cpI8rvPairBody
      simp only [pairInner_snd, List.mem_append, pairInner_mem, pairRemLoop_mem]
      generalize hk : N / 4 = k
      generalize hr : N % 4 = r
      rw [show N = k * 4 + r by omega,
        canonRow1_append S is1 id1 (k * 4) r, canonRow1_append S is2 id2 (k * 4) r]
      simp only [List.mem_append]
      tauto
    obtain ⟨hq2, hq1⟩ := pairLoop_spec (N := N) (t := N)
      (2 * sS - N) (2 * sD - N) sS sD
      hsnd hmem (by omega) (by omega) (M / 2) 0 0
    simp only [Nat.zero_add] at hq2 hq1
    rw [List.mem_append, hq1 e]
    by_cases hM : M % 2 = 0
    · rw [if_neg (by omega)]
      simp only [List.not_mem_nil, or_false]
      constructor
      · rintro ⟨j, hj, h⟩
        exact ⟨j, by omega, h⟩
      · rintro ⟨m, hm, h⟩
        exact ⟨m, by omega, h⟩
    · rw [if_pos (by omega), hq2]
      simp only [nIter1_chunk (cpI8Chunk4_isChunk S), nIter1_chunk (cpChunk1_isChunk S),
        List.mem_append]
      have htail : ∀ e', (e' ∈ canonRow1 S (2 * (M / 2) * sS) (2 * (M / 2) * sD) (N / 4 * 4) ∨
          e' ∈ canonRow1 S (2 * (M / 2) * sS + N / 4 * 4) (2 * (M / 2) * sD + N / 4 * 4) (N % 4 * 1)) ↔
          e' ∈ canonRow1 S (2 * (M / 2) * sS) (2 * (M / 2) * sD) N := by
        intro e'
        generalize hk : N / 4 = k
        generalize hr : N % 4 = r
        rw [show N = k * 4 + r * 1 by omega,
          canonRow1_append S (2 * (M / 2) * sS) (2 * (M / 2) * sD) (k * 4) (r * 1)]
        simp only [List.mem_append]
      rw [htail e]
      constructor
      · rintro (⟨j, hj, h⟩ | h)
        · exact ⟨j, by omega, h⟩
        · exact ⟨2 * (M / 2), by omega, h⟩
      · rintro ⟨m, hm, h⟩
        by_cases hml : m < 2 * (M / 2)
        · exact Or.inl ⟨m, hml, h⟩
        · have hme : m = 2 * (M / 2) := by omega
          subst hme
          exact Or.inr h

theorem wrap_emod (w : Nat) (x : ℤ) : wrap w x % 2 ^ w = x % 2 ^ w := by
  unfold wrap
  rw [Int.sub_emod, Int.emod_emod_of_dvd _ dvd_rfl, ← Int.sub_emod]
  simp

theorem wrap_emod_congr {w : Nat} {x y : ℤ} (h : x % 2 ^ w = y % 2 ^ w) :
    wrap w x = wrap w y := by
  unfold wrap
  rw [Int.add_emod x, Int.add_emod y, h]

theorem wrap_add_left (w : Nat) (x y : ℤ) : wrap w (wrap w x + y) = wrap w (x + y) := by
  apply wrap_emod_congr
  rw [Int.add_emod, wrap_emod, ← Int.add_emod]

theorem wrap_add_right (w : Nat) (x y : ℤ) : wrap w (x + wrap w y) = wrap w (x + y) := by
  apply wrap_emod_congr
  rw [Int.add_emod, wrap_emod, ← Int.add_emod]

/-- The accumulator loop `sum = sum + pSrcA[...] * pSrcB[...]` of the
transposed matrix multiplication, in 32-bit two's-complement arithmetic. -/
def dotAcc (A B : Mem) (aBase bBase : Nat) : Nat → ℤ
  | 0 => 0
  | n + 1 => wrap 32 (dotAcc A B aBase bBase n + wrap 32 (A (aBase + n) * B (bBase + n)))

theorem dotAcc_eq_wrap_sum (A B : Mem) (aBase bBase : Nat) :
    ∀ n, dotAcc A B aBase bBase n =
      wrap 32 (∑ k ∈ Finset.range n, A (aBase + k) * B (bBase + k)) := by
  intro n
  induction n with
  | zero => simp [dotAcc, wrap]
  | succ n ih =>
    show wrap 32 (dotAcc A B aBase bBase n + wrap 32 (A (aBase + n) * B (bBase + n))) = _
    rw [ih, wrap_add_left, wrap_add_right, Finset.sum_range_succ]

/-- Kernel `plp_mat_mult_trans_i16vp_xpulpv2` (BASIC_VERSION): the trace performed
by the processing element with core id `p` — rows `p, p + nPE, …` of
`pSrcA` against every row of `pSrcB`, each dot product accumulated in a
32-bit `sum` and stored to `pDstC[m*O + o]`, followed by one
`rt_team_barrier`. -/
def plp_mat_mult_trans_i16vp_xpulpv2 (A B : Mem) (M N O nPE p : Nat) : List Evt :=
  ((parIdx nPE M M p).map fun m =>
    (List.range O).map fun o => Evt.store (m * O + o) (dotAcc A B (m * N) (o * N) N)).flatten
  ++ [Evt.barrier]

theorem memSpec_multTrans (A B : Mem) (M N O nPE p : Nat) (hnpe : 1 ≤ nPE) (hp : p < nPE) :
    MemSpec (plp_mat_mult_trans_i16vp_xpulpv2 A B M N O nPE p)
      (fun m => m < M ∧ m % nPE = p)
      (fun m o => wrap 32 (∑ k ∈ Finset.range N, A (m * N + k) * B (o * N + k))) O O := by
  intro a v
  unfold plp_mat_mult_trans_i16vp_xpulpv2
  simp only [List.mem_append, List.mem_flatten, List.mem_map, List.mem_singleton,
    List.mem_range]
  constructor
  · rintro (⟨l, ⟨m, hm, rfl⟩, hl⟩ | h)
    · obtain ⟨o, ho, he⟩ := List.mem_map.mp hl
      obtain ⟨rfl, rfl⟩ : m * O + o = a ∧ dotAcc A B (m * N) (o * N) N = v := by
        cases he
        exact ⟨rfl, rfl⟩
      rw [parIdx_mem_core hnpe hp] at hm
      exact ⟨m, o, hm, List.mem_range.mp ho, rfl, dotAcc_eq_wrap_sum A B _ _ N⟩
    · cases h
  · rintro ⟨m, o, hm, ho, rfl, rfl⟩
    refine Or.inl ⟨_, ⟨m, (parIdx_mem_core hnpe hp).mpr hm, rfl⟩, ?_⟩
    exact List.mem_map.mpr ⟨o, List.mem_range.mpr ho, by rw [dotAcc_eq_wrap_sum]⟩

/-- One Newton-Raphson step `y ← y * (1.5 - y*y*half)` of the
reciprocal-square-root refinement. -/
def nrStep (half y : ℚ) : ℚ := y * (3 / 2 - y * y * half)

/-- The fixed-count iteration loop, `numIters = 15` in the source. -/
def nrIter (half : ℚ) : Nat → ℚ → ℚ
  | 0, y => y
  | n + 1, y => nrIter half n (nrStep half y)

/-- Kernel `plp_sqrt_f32s_xpulpv2`, modelled over exact rationals: seed
`intermediate = 1 / (2 * x)`, guard `half = x / 2 > 0`, fifteen
Newton-Raphson iterations, and a final multiplication by the input;
non-positive input writes exactly `0`. -/
def plp_sqrt_f32s_xpulpv2 (x : ℚ) : ℚ :=
  let intermediate := 1 / (2 * x)
  let half := x / 2
  if half > 0 then nrIter half 15 intermediate * x else 0

theorem nrIter_succ_out (half : ℚ) : ∀ n y, nrIter half (n + 1) y = nrStep half (nrIter half n y) := by
  intro n
  induction n with
  | zero => intro y; rfl
  | succ n ih =>
    intro y
    show nrIter half (n + 1) (nrStep half y) = _
    rw [ih (nrStep half y)]
    rfl

theorem nrIter_add (half : ℚ) (m n : Nat) (y : ℚ) :
    nrIter half (m + n) y = nrIter half n (nrIter half m y) := by
  induction m generalizing y with
  | zero =>
    rw [Nat.zero_add]
    rfl
  | succ m ih =>
    rw [show m + 1 + n = m + n + 1 by omega]
    show nrIter half (m + n) (nrStep half y) = _
    rw [ih (nrStep half y)]
    rfl

/-- Monotone interval step for the `x = 4` iteration (`half = 2`): from a
lower bound `a` with `0 ≤ a ≤ y ≤ 1/2`, the next iterate stays in
`[a * (3/2 - 2 a²), 1/2]`. -/
theorem nr4_step (y a a' : ℚ) (hay : a ≤ y) (hy : y ≤ 1 / 2) (ha : 0 ≤ a)
    (ha' : a' ≤ a * (3 / 2 - 2 * (a * a))) :
    a' ≤ nrStep 2 y ∧ nrStep 2 y ≤ 1 / 2 := by
  have hy0 : 0 ≤ y := le_trans ha hay
  have h1 : 0 ≤ (1 / 2 - y) * y := mul_nonneg (by linarith) hy0
  have h2 : 0 ≤ (1 / 2 - a) * a := mul_nonneg (by linarith) ha
  have h3 : 0 ≤ (1 / 2 - y) * a := mul_nonneg (by linarith) ha
  have hD : 0 ≤ 3 / 2 - 2 * (y * y + a * y + a * a) := by nlinarith
  have hmono : 0 ≤ (y - a) * (3 / 2 - 2 * (y * y + a * y + a * a)) :=
    mul_nonneg (by linarith) hD
  constructor
  · unfold nrStep
    nlinarith [hmono]
  · unfold nrStep
    nlinarith [mul_nonneg (sq_nonneg (2 * y - 1)) (by linarith : (0:ℚ) ≤ y + 1)]

/-- Invariant interval for the `x = 4` iteration: `[a, 1/2]` maps into
itself whenever `0 ≤ a` (and the interval is nonempty below `1/2`). -/
theorem nr4_inv (a : ℚ) (ha : 0 ≤ a) :
    ∀ n y, a ≤ y → y ≤ 1 / 2 → a ≤ nrIter 2 n y ∧ nrIter 2 n y ≤ 1 / 2 := by
  intro n
  induction n with
  | zero => intro y h1 h2; exact ⟨h1, h2⟩
  | succ n ih =>
    intro y h1 h2
    have hfac : (0:ℚ) ≤ a * (1 / 2 - a) * (1 / 2 + a) := by
      have h3 : (0:ℚ) ≤ 1 / 2 - a := by linarith
      have h4 : (0:ℚ) ≤ 1 / 2 + a := by linarith
      exact mul_nonneg (mul_nonneg ha h3) h4
    have hga : a ≤ a * (3 / 2 - 2 * (a * a)) := by nlinarith [hfac]
    have hstep := nr4_step y a a h1 h2 ha hga
    show a ≤ nrIter 2 n (nrStep 2 y) ∧ nrIter 2 n (nrStep 2 y) ≤ 1 / 2
    exact ih (nrStep 2 y) hstep.1 hstep.2

/-- Monotone interval step for the `x = 1` iteration (`half = 1/2`). -/
theorem nr1_step (y a a' : ℚ) (hay : a ≤ y) (hy : y ≤ 1) (ha : 0 ≤ a)
    (ha' : a' ≤ a * (3 / 2 - a * a / 2)) :
    a' ≤ nrStep (1 / 2) y ∧ nrStep (1 / 2) y ≤ 1 := by
  have hy0 : 0 ≤ y := le_trans ha hay
  have h1 : 0 ≤ (1 - y) * y := mul_nonneg (by linarith) hy0
  have h2 : 0 ≤ (1 - a) * a := mul_nonneg (by linarith) ha
  have h3 : 0 ≤ (1 - y) * a := mul_nonneg (by linarith) ha
  have hD : 0 ≤ 3 / 2 - (y * y + a * y + a * a) / 2 := by nlinarith
  have hmono : 0 ≤ (y - a) * (3 / 2 - (y * y + a * y + a * a) / 2) :=
    mul_nonneg (by linarith) hD
  constructor
  · unfold nrStep
    nlinarith [hmono]
  · unfold nrStep
    nlinarith [mul_nonneg (sq_nonneg (y - 1)) (by linarith : (0:ℚ) ≤ y + 2)]

/-- Invariant interval for the `x = 1` iteration. -/
theorem nr1_inv (a : ℚ) (ha : 0 ≤ a) (ha1 : a ≤ 1) :
    ∀ n y, a ≤ y → y ≤ 1 → a ≤ nrIter (1 / 2) n y ∧ nrIter (1 / 2) n y ≤ 1 := by
  intro n
  induction n with
  | zero => intro y h1 h2; exact ⟨h1, h2⟩
  | succ n ih =>
    intro y h1 h2
    have hfac : (0:ℚ) ≤ a * (1 - a) * (1 + a) := by
      have h3 : (0:ℚ) ≤ 1 - a := by linarith
      have h4 : (0:ℚ) ≤ 1 + a := by linarith
      exact mul_nonneg (mul_nonneg ha h3) h4
    have hga : a ≤ a * (3 / 2 - a * a / 2) := by nlinarith [hfac]
    have hstep := nr1_step y a a h1 h2 ha hga
    show a ≤ nrIter (1 / 2) n (nrStep (1 / 2) y) ∧ nrIter (1 / 2) n (nrStep (1 / 2) y) ≤ 1
    exact ih (nrStep (1 / 2) y) hstep.1 hstep.2

/-- After the fifteen fixed iterations from seed `1/8` (the case `x = 4`),
the reciprocal-square-root estimate lies within `3e-7` of `1/2`. -/
theorem nr4_bound :
    4999997 / 10000000 ≤ nrIter 2 15 (1 / 8 : ℚ) ∧ nrIter 2 15 (1 / 8 : ℚ) ≤ 1 / 2 := by
  have e0 : (1 / 8 : ℚ) ≤ nrIter 2 0 (1 / 8) ∧ nrIter 2 0 (1 / 8) ≤ 1 / 2 := by
    constructor <;> norm_num [nrIter]
  have e1 : (1835 / 10000 : ℚ) ≤ nrIter 2 1 (1 / 8) ∧ nrIter 2 1 (1 / 8) ≤ 1 / 2 := by
    rw [nrIter_succ_out 2 0]
    exact nr4_step _ _ _ e0.1 e0.2 (by norm_num) (by norm_num)
  have e2 : (2628 / 10000 : ℚ) ≤ nrIter 2 2 (1 / 8) ∧ nrIter 2 2 (1 / 8) ≤ 1 / 2 := by
    rw [nrIter_succ_out 2 1]
    exact nr4_step _ _ _ e1.1 e1.2 (by norm_num) (by norm_num)
  have e3 : (3579 / 10000 : ℚ) ≤ nrIter 2 3 (1 / 8) ∧ nrIter 2 3 (1 / 8) ≤ 1 / 2 := by
    rw [nrIter_succ_out 2 2]
    exact nr4_step _ _ _ e2.1 e2.2 (by norm_num) (by norm_num)
  have e4 : (4451 / 10000 : ℚ) ≤ nrIter 2 4 (1 / 8) ∧ nrIter 2 4 (1 / 8) ≤ 1 / 2 := by
    rw [nrIter_succ_out 2 3]
    exact nr4_step _ _ _ e3.1 e3.2 (by norm_num) (by norm_num)
  have e5 : (4912 / 10000 : ℚ) ≤ nrIter 2 5 (1 / 8) ∧ nrIter 2 5 (1 / 8) ≤ 1 / 2 := by
    rw [nrIter_succ_out 2 4]
    exact nr4_step _ _ _ e4.1 e4.2 (by norm_num) (by norm_num)
  have e6 : (4997 / 10000 : ℚ) ≤ nrIter 2 6 (1 / 8) ∧ nrIter 2 6 (1 / 8) ≤ 1 / 2 := by
    rw [nrIter_succ_out 2 5]
    exact nr4_step _ _ _ e5.1 e5.2 (by norm_num) (by norm_num)
  have e7 : (4999997 / 10000000 : ℚ) ≤ nrIter 2 7 (1 / 8) ∧ nrIter 2 7 (1 / 8) ≤ 1 / 2 := by
    rw [nrIter_succ_out 2 6]
    exact nr4_step _ _ _ e6.1 e6.2 (by norm_num) (by norm_num)
  rw [show (15 : Nat) = 7 + 8 from rfl, nrIter_add]
  exact nr4_inv _ (by norm_num) 8 _ e7.1 e7.2

/-- After the fifteen fixed iterations from seed `1/2` (the case `x = 1`),
the reciprocal-square-root estimate lies within `2e-6` of `1`. -/
theorem nr1_bound :
    999998 / 1000000 ≤ nrIter (1 / 2) 15 (1 / 2 : ℚ) ∧ nrIter (1 / 2) 15 (1 / 2 : ℚ) ≤ 1 := by
  have e0 : (1 / 2 : ℚ) ≤ nrIter (1 / 2) 0 (1 / 2) ∧ nrIter (1 / 2) 0 (1 / 2) ≤ 1 := by
    constructor <;> norm_num [nrIter]
  have e1 : (6875 / 10000 : ℚ) ≤ nrIter (1 / 2) 1 (1 / 2) ∧ nrIter (1 / 2) 1 (1 / 2) ≤ 1 := by
    rw [nrIter_succ_out (1 / 2) 0]
    exact nr1_step _ _ _ e0.1 e0.2 (by norm_num) (by norm_num)
  have e2 : (8687 / 10000 : ℚ) ≤ nrIter (1 / 2) 2 (1 / 2) ∧ nrIter (1 / 2) 2 (1 / 2) ≤ 1 := by
    rw [nrIter_succ_out (1 / 2) 1]
    exact nr1_step _ _ _ e1.1 e1.2 (by norm_num) (by norm_num)
  have e3 : (9752 / 10000 : ℚ) ≤ nrIter (1 / 2) 3 (1 / 2) ∧ nrIter (1 / 2) 3 (1 / 2) ≤ 1 := by
    rw [nrIter_succ_out (1 / 2) 2]
    exact nr1_step _ _ _ e2.1 e2.2 (by norm_num) (by norm_num)
  have e4 : (999 / 1000 : ℚ) ≤ nrIter (1 / 2) 4 (1 / 2) ∧ nrIter (1 / 2) 4 (1 / 2) ≤ 1 := by
    rw [nrIter_succ_out (1 / 2) 3]
    exact nr1_step _ _ _ e3.1 e3.2 (by norm_num) (by norm_num)
  have e5 : (999998 / 1000000 : ℚ) ≤ nrIter (1 / 2) 5 (1 / 2) ∧ nrIter (1 / 2) 5 (1 / 2) ≤ 1 := by
    rw [nrIter_succ_out (1 / 2) 4]
    exact nr1_step _ _ _ e4.1 e4.2 (by norm_num) (by norm_num)
  rw [show (15 : Nat) = 5 + 10 from rfl, nrIter_add]
  exact nr1_inv _ (by norm_num) (by norm_num) 10 _ e5.1 e5.2

/-- From the small-input counterexample: the fixed seed at `x = 1/16` is `8`,
the first step maps it to `-4`, and `-4` is a fixed point of the iteration. -/
theorem nrIter_neg4_fixed : ∀ n, nrIter (1 / 32) n (-4 : ℚ) = -4 := by
  intro n
  induction n with
  | zero => rfl
  | succ n ih =>
    show nrIter (1 / 32) n (nrStep (1 / 32) (-4)) = -4
    rw [show nrStep (1 / 32) (-4 : ℚ) = -4 by norm_num [nrStep], ih]

theorem plp_sqrt_at_sixteenth : plp_sqrt_f32s_xpulpv2 (1 / 16) = -(1 / 4) := by
  unfold plp_sqrt_f32s_xpulpv2
  rw [if_pos (by norm_num)]
  rw [show (1 / (2 * (1 / 16)) : ℚ) = 8 by norm_num]
  rw [show nrIter (1 / 16 / 2) 15 8 = nrIter (1 / 32) 14 (-4 : ℚ) by
    rw [show (1 / 16 / 2 : ℚ) = 1 / 32 by norm_num]
    show nrIter (1 / 32) 14 (nrStep (1 / 32) 8) = _
    rw [show nrStep (1 / 32) (8 : ℚ) = -4 by norm_num [nrStep]]]
  rw [nrIter_neg4_fixed 14]
  norm_num

theorem memSpec_parFlat2 {val : Nat → Nat → ℤ} {sA sB sY nPE M p N : Nat}
    (hnpe : 1 ≤ nPE) (hp : p < nPE) :
    MemSpec (((parIdx nPE M M p).map fun r =>
        canonRow2 val (r * sA) (r * sB) (r * sY) N).flatten)
      (fun m => m < M ∧ m % nPE = p) (fun m n => val (m * sA + n) (m * sB + n)) N sY := by
  intro a v
  simp only [List.mem_flatten, List.mem_map]
  constructor
  · rintro ⟨l, ⟨m, hm, rfl⟩, hl⟩
    rw [parIdx_mem_core hnpe hp] at hm
    obtain ⟨n, hn, he⟩ := List.mem_map.mp hl
    obtain ⟨rfl, rfl⟩ : m * sY + n = a ∧ val (m * sA + n) (m * sB + n) = v := by
      cases he
      exact ⟨rfl, rfl⟩
    exact ⟨m, n, hm, List.mem_range.mp hn, rfl, rfl⟩
  · rintro ⟨m, n, hm, hn, rfl, rfl⟩
    refine ⟨_, ⟨m, (parIdx_mem_core hnpe hp).mpr hm, rfl⟩, ?_⟩
    exact List.mem_map.mpr ⟨n, List.mem_range.mpr hn, rfl⟩

theorem memSpec_parFlat1 {S : Mem} {sS sD nPE M p N : Nat}
    (hnpe : 1 ≤ nPE) (hp : p < nPE) :
    MemSpec (((parIdx nPE M M p).map fun r => canonRow1 S (r * sS) (r * sD) N).flatten)
      (fun m => m < M ∧ m % nPE = p) (fun m n => S (m * sS + n)) N sD := by
  intro a v
  simp only [List.mem_flatten, List.mem_map]
  constructor
  · rintro ⟨l, ⟨m, hm, rfl⟩, hl⟩
    rw [parIdx_mem_core hnpe hp] at hm
    obtain ⟨n, hn, he⟩ := List.mem_map.mp hl
    obtain ⟨rfl, rfl⟩ : m * sD + n = a ∧ S (m * sS + n) = v := by
      cases he
      exact ⟨rfl, rfl⟩
    exact ⟨m, n, hm, List.mem_range.mp hn, rfl, rfl⟩
  · rintro ⟨m, n, hm, hn, rfl, rfl⟩
    refine ⟨_, ⟨m, (parIdx_mem_core hnpe hp).mpr hm, rfl⟩, ?_⟩
    exact List.mem_map.mpr ⟨n, List.mem_range.mpr hn, rfl⟩

/-- MemSpec from a row-set membership characterization of a copy trace. -/
theorem memSpec_of_rowMem {l : List Evt} {S : Mem} {R N sS sD : Nat}
    (h : ∀ e, e ∈ l ↔ ∃ m, m < R ∧ e ∈ canonRow1 S (m * sS) (m * sD) N) :
    MemSpec l (fun m => m < R) (fun m n => S (m * sS + n)) N sD := by
  intro a v
  rw [h]
  constructor
  · rintro ⟨m, hm, hrow⟩
    obtain ⟨n, hn, he⟩ := mem_canonRow1.mp hrow
    simp only [Evt.store.injEq] at he
    exact ⟨m, n, hm, hn, he.1, he.2⟩
  · rintro ⟨m, n, hm, hn, rfl, rfl⟩
    exact ⟨m, hm, mem_canonRow1.mpr ⟨n, hn, rfl⟩⟩

/-- Sequential composition of the traces of all `nPE` processing elements
(the cores write disjoint rows, so order is irrelevant). -/
def runAll (ker : Nat → List Evt) (nPE : Nat) : List Evt :=
  ((List.range nPE).map ker).flatten

theorem memSpec_runAll {ker : Nat → List Evt} {M N sY nPE : Nat} {g : Nat → Nat → ℤ}
    (hnpe : 1 ≤ nPE)
    (h : ∀ p, p < nPE → MemSpec (ker p) (fun m => m < M ∧ m % nPE = p) g N sY) :
    MemSpec (runAll ker nPE) (fun m => m < M) g N sY := by
  intro a v
  simp only [runAll, List.mem_flatten, List.mem_map, List.mem_range]
  constructor
  · rintro ⟨l, ⟨p, hp, rfl⟩, hl⟩
    obtain ⟨m, n, ⟨hm, _⟩, hn, rfl, rfl⟩ := (h p hp _ _).mp hl
    exact ⟨m, n, hm, hn, rfl, rfl⟩
  · rintro ⟨m, n, hm, hn, rfl, rfl⟩
    have hmp : m % nPE < nPE := Nat.mod_lt _ (by omega)
    refine ⟨ker (m % nPE), ⟨m % nPE, hmp, rfl⟩, ?_⟩
    exact (h _ hmp _ _).mpr ⟨m, n, ⟨hm, rfl⟩, hn, rfl, rfl⟩

theorem parIdx_nil {nPE M fuel m : Nat} (h : ¬ m < M) : parIdx nPE M fuel m = [] := by
  cases fuel <;> simp [parIdx, h]

theorem exec_canonMat2_view {val : Nat → Nat → ℤ} {sA sB sY M N m n : Nat}
    (hsY : N ≤ sY) (hm : m < M) (hn : n < N) (d : Mem) :
    exec d (canonMat2 val sA sB sY M N) (m * sY + n) = val (m * sA + n) (m * sB + n) :=
  exec_view_of_memSpec (memSpec_canonMat2 val sA sB sY M N) hsY hm hn d

theorem exec_canonMat2_frame {val : Nat → Nat → ℤ} {sA sB sY M N a : Nat}
    (ha : ∀ m n, m < M → n < N → a ≠ m * sY + n) (d : Mem) :
    exec d (canonMat2 val sA sB sY M N) a = d a :=
  exec_frame_of_memSpec (memSpec_canonMat2 val sA sB sY M N) ha d

theorem exec_canonMat1_view {S : Mem} {sS sD M N m n : Nat}
    (hsD : N ≤ sD) (hm : m < M) (hn : n < N) (d : Mem) :
    exec d (canonMat1 S sS sD M N) (m * sD + n) = S (m * sS + n) :=
  exec_view_of_memSpec (memSpec_canonMat1 S sS sD M N) hsD hm hn d

theorem exec_canonMat1_frame {S : Mem} {sS sD M N a : Nat}
    (ha : ∀ m n, m < M → n < N → a ≠ m * sD + n) (d : Mem) :
    exec d (canonMat1 S sS sD M N) a = d a :=
  exec_frame_of_memSpec (memSpec_canonMat1 S sS sD M N) ha d

theorem no_barrier_nIter2 {body : Nat → Nat → Nat → List Evt × Nat × Nat × Nat}
    (h : ∀ ia ib iy, Evt.barrier ∉ (body ia ib iy).1) :
    ∀ k ia ib iy, Evt.barrier ∉ (nIter2 body k ia ib iy).1 := by
  intro k
  induction k with
  | zero => intro ia ib iy; simp [nIter2]
  | succ k ih =>
    intro ia ib iy
    simp only [nIter2, List.mem_append]
    push_neg
    exact ⟨h ia ib iy, ih _ _ _⟩

theorem no_barrier_nIter1 {body : Nat → Nat → List Evt × Nat × Nat}
    (h : ∀ isrc iy, Evt.barrier ∉ (body isrc iy).1) :
    ∀ k isrc iy, Evt.barrier ∉ (nIter1 body k isrc iy).1 := by
  intro k
  induction k with
  | zero => intro isrc iy; simp [nIter1]
  | succ k ih =>
    intro isrc iy
    simp only [nIter1, List.mem_append]
    push_neg
    exact ⟨h isrc iy, ih _ _⟩

theorem no_barrier_parLoop2 {body : Nat → Nat → Nat → List Evt × Nat × Nat × Nat}
    {stepA stepB stepY nPE M : Nat}
    (h : ∀ ia ib iy, Evt.barrier ∉ (body ia ib iy).1) :
    ∀ fuel m ia ib iy, Evt.barrier ∉ parLoop2 body stepA stepB stepY nPE M fuel m ia ib iy := by
  intro fuel
  induction fuel with
  | zero => intro m ia ib iy; simp [parLoop2]
  | succ fuel ih =>
    intro m ia ib iy
    by_cases hm : m < M
    · simp only [parLoop2, if_pos hm, List.mem_append]
      push_neg
      exact ⟨h _ _ _, ih _ _ _ _⟩
    · simp [parLoop2, hm]

theorem no_barrier_parLoop1 {body : Nat → Nat → List Evt × Nat × Nat}
    {stepS stepD nPE M : Nat}
    (h : ∀ isrc iy, Evt.barrier ∉ (body isrc iy).1) :
    ∀ fuel m isrc iy, Evt.barrier ∉ parLoop1 body stepS stepD nPE M fuel m isrc iy := by
  intro fuel
  induction fuel with
  | zero => intro m isrc iy; simp [parLoop1]
  | succ fuel ih =>
    intro m isrc iy
    by_cases hm : m < M
    · simp only [parLoop1, if_pos hm, List.mem_append]
      push_neg
      exact ⟨h _ _, ih _ _ _⟩
    · simp [parLoop1, hm]

/-- Kernel `plp_mat_copy_stride_i16s_rv32im`, non-unrolled build: one `int32` copy
per step and a non-advancing scalar tail when `N` is odd. -/
def plp_mat_copy_stride_i16s_rv32im_plain (S : Mem) (M N sS sD : Nat) : List Evt :=
  let n_iter := N / 2       -- N >> 1
  let n_rem := N % 2        -- N & 0x1
  if n_rem ≠ 0 then
    seqLoop1 (fun isrc iy =>
      let r := nIter1 (cpI16Chunk2 S) n_iter isrc iy
      (r.1 ++ [Evt.store r.2.2 (S r.2.1)], r.2.1, r.2.2))
      (sS - N + 1) (sD - N + 1) M 0 0
  else
    seqLoop1 (fun isrc iy => nIter1 (cpI16Chunk2 S) n_iter isrc iy)
      (sS - N) (sD - N) M 0 0

theorem cpI16rvP_eq_canon (S : Mem) (M N sS sD : Nat) (hS : N ≤ sS) (hD : N ≤ sD) :
    plp_mat_copy_stride_i16s_rv32im_plain S M N sS sD = canonMat1 S sS sD M N := by
  unfold plp_mat_copy_stride_i16s_rv32im_plain
  by_cases hrem : N % 2 = 0
  · rw [if_neg (by omega)]
    have hrow : ∀ isrc iy, nIter1 (cpI16Chunk2 S) (N / 2) isrc iy =
        (canonRow1 S isrc iy N, isrc + N, iy + N) := by
      intro isrc iy
      rw [nIter1_chunk (cpI16Chunk2_isChunk S), show N / 2 * 2 = N by omega]
    rw [seqLoop1_canon (t := N) sS sD (by omega) (by omega) hrow M 0 0]
    simp [canonMat1]
  · rw [if_pos (by omega)]
    have hrow : ∀ isrc iy,
        (let r := nIter1 (cpI16Chunk2 S) (N / 2) isrc iy
         (r.1 ++ [Evt.store r.2.2 (S r.2.1)], r.2.1, r.2.2)) =
        (canonRow1 S isrc iy N, isrc + (N - 1), iy + (N - 1)) := by
      intro isrc iy
      simp only [nIter1_chunk (cpI16Chunk2_isChunk S)]
      generalize hk : N / 2 = k
      rw [show N = k * 2 + 1 by omega]
      refine congrArg₂ Prod.mk ?_ ?_
      · rw [canonRow1_append S isrc iy (k * 2) 1, canonRow1_one]
      · simp only [Prod.ext_iff]
        omega
    rw [seqLoop1_canon (t := N - 1) sS sD (by omega) (by omega) hrow M 0 0]
    simp [canonMat1]

/-- A two-source strided kernel writes, at every view cell `(m, n)`, the
`w`-bit machine result of `op` applied to the corresponding source cells. -/
def computes2 (K : Mem → Mem → Nat → Nat → Nat → Nat → Nat → List Evt) (w : Nat)
    (op : ℤ → ℤ → ℤ) : Prop :=
  ∀ A B M N sA sB sY d m n, N ≤ sA → N ≤ sB → N ≤ sY → m < M → n < N →
    exec d (K A B M N sA sB sY) (m * sY + n) = wrap w (op (A (m * sA + n)) (B (m * sB + n)))

/-- A one-source strided copy kernel reproduces, at every view cell, the
corresponding source cell. -/
def computes1 (K : Mem → Nat → Nat → Nat → Nat → List Evt) : Prop :=
  ∀ S M N sS sD d m n, N ≤ sS → N ≤ sD → m < M → n < N →
    exec d (K S M N sS sD) (m * sD + n) = S (m * sS + n)

/-- C1: every sequential strided elementwise kernel (add, subtract, copy),
in both its unrolled and plain build, satisfies
`pDst[m*strideY + n] = pSrcA[m*strideA + n] OP pSrcB[m*strideB + n]`
(machine arithmetic at the kernel's width; identity for copy, which reads a
single source with its own stride) at every `(m, n)` with `m < M`, `n < N`,
for all strides at least `N`. -/
theorem C1_elementwise_values :
    computes2 plp_mat_add_stride_i32s_xpulpv2_unroll 32 (· + ·) ∧
    computes2 plp_mat_add_stride_i32s_xpulpv2_plain 32 (· + ·) ∧
    computes2 plp_mat_sub_stride_i16s_rv32im_unroll 16 (· - ·) ∧
    computes2 plp_mat_sub_stride_i16s_rv32im_plain 16 (· - ·) ∧
    computes2 plp_mat_sub_stride_i16s_xpulpv2_unroll 16 (· - ·) ∧
    computes2 plp_mat_sub_stride_i16s_xpulpv2_plain 16 (· - ·) ∧
    computes1 plp_mat_copy_stride_i16s_xpulpv2_unroll ∧
    computes1 plp_mat_copy_stride_i16s_xpulpv2_plain ∧
    computes1 plp_mat_copy_stride_i16s_rv32im_plain ∧
    computes1 plp_mat_copy_stride_i16s_rv32im_unroll ∧
    computes1 plp_mat_copy_stride_i32s_rv32im_unroll ∧
    computes1 plp_mat_copy_stride_i32s_rv32im_plain ∧
    computes1 plp_mat_copy_stride_i8s_rv32im_unroll ∧
    computes1 plp_mat_copy_stride_i8s_rv32im_plain := by
  refine ⟨?_, ?_, ?_, ?_, ?_, ?_, ?_, ?_, ?_, ?_, ?_, ?_, ?_, ?_⟩
  · intro A B M N sA sB sY d m n hA hB hY hm hn
    rw [addI32U_eq_canon A B M N sA sB sY hA hB hY]
    exact exec_canonMat2_view hY hm hn d
  · intro A B M N sA sB sY d m n hA hB hY hm hn
    rw [addI32P_eq_canon A B M N sA sB sY hA hB hY]
    exact exec_canonMat2_view hY hm hn d
  · intro A B M N sA sB sY d m n hA hB hY hm hn
    rw [subI16rvU_eq_canon A B M N sA sB sY hA hB hY]
    exact exec_canonMat2_view hY hm hn d
  · intro A B M N sA sB sY d m n hA hB hY hm hn
    rw [subI16rvP_eq_canon A B M N sA sB sY hA hB hY]
    exact exec_canonMat2_view hY hm hn d
  · intro A B M N sA sB sY d m n hA hB hY hm hn
    rw [subI16xU_eq_canon A B M N sA sB sY hA hB hY]
    exact exec_canonMat2_view hY hm hn d
  · intro A B M N sA sB sY d m n hA hB hY hm hn
    rw [subI16xP_eq_canon A B M N sA sB sY hA hB hY]
    exact exec_canonMat2_view hY hm hn d
  · intro S M N sS sD d m n hS hD hm hn
    rw [cpI16xU_eq_canon S M N sS sD hS hD]
    exact exec_canonMat1_view hD hm hn d
  · intro S M N sS sD d m n hS hD hm hn
    rw [cpI16xP_eq_canon S M N sS sD hS hD]
    exact exec_canonMat1_view hD hm hn d
  · intro S M N sS sD d m n hS hD hm hn
    rw [cpI16rvP_eq_canon S M N sS sD hS hD]
    exact exec_canonMat1_view hD hm hn d
  · intro S M N sS sD d m n hS hD hm hn
    exact exec_view_of_memSpec (memSpec_of_rowMem (cpI16rvU_mem S M N sS sD hS hD))
      hD (by omega) hn d
  · intro S M N sS sD d m n hS hD hm hn
    rw [cpI32rvU_eq_canon S M N sS sD hS hD]
    exact exec_canonMat1_view hD hm hn d
  · intro S M N sS sD d m n hS hD hm hn
    rw [cpI32rvP_eq_canon S M N sS sD]
    exact exec_canonMat1_view hD hm hn d
  · intro S M N sS sD d m n hS hD hm hn
    exact exec_view_of_memSpec (memSpec_of_rowMem (cpI8rvU_mem S M N sS sD hS hD))
      hD hm hn d
  · intro S M N sS sD d m n hS hD hm hn
    rw [cpI8rvP_eq_canon S M N sS sD hS hD]
    exact exec_canonMat1_view hD hm hn d

/-- Witness for C1 at a concrete instance: a 2×3 add with all strides 3,
`A i = i`, `B i = 2 i`, evaluated at cell `(1, 2)` (index 5). -/
theorem C1_witness :
    exec (fun _ => 0)
      (plp_mat_add_stride_i32s_xpulpv2_unroll (fun i => (i : ℤ)) (fun i => 2 * (i : ℤ))
        2 3 3 3 3) 5 = 15 := by
  have h := C1_elementwise_values.1 (fun i => (i : ℤ)) (fun i => 2 * (i : ℤ)) 2 3 3 3 3
    (fun _ => 0) 1 2 (by norm_num) (by norm_num) (by norm_num) (by norm_num) (by norm_num)
  norm_num [wrap] at h
  exact h

/-- Two buffers agree on every cell of the logical `M × N` view laid out
with row stride `sY`. -/
def agreeOnView (M N sY : Nat) (d1 d2 : Mem) : Prop :=
  ∀ m n, m < M → n < N → d1 (m * sY + n) = d2 (m * sY + n)

/-- C2: for every embedded variant (plain scalar loop, loop-unrolled,
SIMD-packed, and parallel with all core ids `0 .. nPE-1` executed) and
every width (8/16/32 bit), and for every `N` — hence every remainder class
of `N` modulo the unrolling factor, including `N = 0` and `0 < N < k` —
the logical `M × N` destination content after the call is identical to the
row-major double-loop reference computation. -/
theorem C2_variants_match_reference :
    ∀ (A B S : Mem) (M N sA sB sY sS sD nPE : Nat) (d : Mem),
      N ≤ sA → N ≤ sB → N ≤ sY → N ≤ sS → N ≤ sD → 1 ≤ nPE →
      agreeOnView M N sY
        (exec d (plp_mat_add_stride_i32s_xpulpv2_unroll A B M N sA sB sY))
        (exec d (canonMat2 (addv 32 A B) sA sB sY M N)) ∧
      agreeOnView M N sY
        (exec d (plp_mat_add_stride_i32s_xpulpv2_plain A B M N sA sB sY))
        (exec d (canonMat2 (addv 32 A B) sA sB sY M N)) ∧
      agreeOnView M N sY
        (exec d (plp_mat_sub_stride_i16s_rv32im_unroll A B M N sA sB sY))
        (exec d (canonMat2 (subv 16 A B) sA sB sY M N)) ∧
      agreeOnView M N sY
        (exec d (plp_mat_sub_stride_i16s_rv32im_plain A B M N sA sB sY))
        (exec d (canonMat2 (subv 16 A B) sA sB sY M N)) ∧
      agreeOnView M N sY
        (exec d (plp_mat_sub_stride_i16s_xpulpv2_unroll A B M N sA sB sY))
        (exec d (canonMat2 (subv 16 A B) sA sB sY M N)) ∧
      agreeOnView M N sY
        (exec d (plp_mat_sub_stride_i16s_xpulpv2_plain A B M N sA sB sY))
        (exec d (canonMat2 (subv 16 A B) sA sB sY M N)) ∧
      agreeOnView M N sD
        (exec d (plp_mat_copy_stride_i16s_xpulpv2_unroll S M N sS sD))
        (exec d (canonMat1 S sS sD M N)) ∧
      agreeOnView M N sD
        (exec d (plp_mat_copy_stride_i16s_xpulpv2_plain S M N sS sD))
        (exec d (canonMat1 S sS sD M N)) ∧
      agreeOnView M N sD
        (exec d (plp_mat_copy_stride_i16s_rv32im_plain S M N sS sD))
        (exec d (canonMat1 S sS sD M N)) ∧
      agreeOnView M N sD
        (exec d (plp_mat_copy_stride_i16s_rv32im_unroll S M N sS sD))
        (exec d (canonMat1 S sS sD M N)) ∧
      agreeOnView M N sD
        (exec d (plp_mat_copy_stride_i32s_rv32im_unroll S M N sS sD))
        (exec d (canonMat1 S sS sD M N)) ∧
      agreeOnView M N sD
        (exec d (plp_mat_copy_stride_i32s_rv32im_plain S M N sS sD))
        (exec d (canonMat1 S sS sD M N)) ∧
      agreeOnView M N sD
        (exec d (plp_mat_copy_stride_i8s_rv32im_unroll S M N sS sD))
        (exec d (canonMat1 S sS sD M N)) ∧
      agreeOnView M N sD
        (exec d (plp_mat_copy_stride_i8s_rv32im_plain S M N sS sD))
        (exec d (canonMat1 S sS sD M N)) ∧
      agreeOnView M N sY
        (exec d (runAll (fun p =>
          plp_mat_add_stride_i16p_xpulpv2 A B M N sA sB sY nPE p) nPE))
        (exec d (canonMat2 (addv 16 A B) sA sB sY M N)) ∧
      agreeOnView M N sY
        (exec d (runAll (fun p =>
          plp_mat_add_stride_i8p_xpulpv2 A B M N sA sB sY nPE p) nPE))
        (exec d (canonMat2 (addv 8 A B) sA sB sY M N)) ∧
      agreeOnView M N sD
        (exec d (runAll (fun p =>
          plp_mat_copy_stride_i16p_xpulpv2 S M N sS sD nPE p) nPE))
        (exec d (canonMat1 S sS sD M N)) ∧
      agreeOnView M N sD
        (exec d (runAll (fun p =>
          plp_mat_copy_stride_i8p_xpulpv2 S M N sS sD nPE p) nPE))
        (exec d (canonMat1 S sS sD M N)) := by
  intro A B S M N sA sB sY sS sD nPE d hA hB hY hS hD hnpe
  refine ⟨?_, ?_, ?_, ?_, ?_, ?_, ?_, ?_, ?_, ?_, ?_, ?_, ?_, ?_, ?_, ?_, ?_, ?_⟩
  · intro m n hm hn
    rw [addI32U_eq_canon A B M N sA sB sY hA hB hY]
  · intro m n hm hn
    rw [addI32P_eq_canon A B M N sA sB sY hA hB hY]
  · intro m n hm hn
    rw [subI16rvU_eq_canon A B M N sA sB sY hA hB hY]
  · intro m n hm hn
    rw [subI16rvP_eq_canon A B M N sA sB sY hA hB hY]
  · intro m n hm hn
    rw [subI16xU_eq_canon A B M N sA sB sY hA hB hY]
  · intro m n hm hn
    rw [subI16xP_eq_canon A B M N sA sB sY hA hB hY]
  · intro m n hm hn
    rw [cpI16xU_eq_canon S M N sS sD hS hD]
  · intro m n hm hn
    rw [cpI16xP_eq_canon S M N sS sD hS hD]
  · intro m n hm hn
    rw [cpI16rvP_eq_canon S M N sS sD hS hD]
  · intro m n hm hn
    rw [exec_view_of_memSpec (memSpec_of_rowMem (cpI16rvU_mem S M N sS sD hS hD))
      hD (show m < M + M % 2 by omega) hn d]
    rw [exec_canonMat1_view hD hm hn d]
  · intro m n hm hn
    rw [cpI32rvU_eq_canon S M N sS sD hS hD]
  · intro m n hm hn
    rw [cpI32rvP_eq_canon S M N sS sD]
  · intro m n hm hn
    rw [exec_view_of_memSpec (memSpec_of_rowMem (cpI8rvU_mem S M N sS sD hS hD))
      hD hm hn d]
    rw [exec_canonMat1_view hD hm hn d]
  · intro m n hm hn
    rw [cpI8rvP_eq_canon S M N sS sD hS hD]
  · intro m n hm hn
    have hms : MemSpec (runAll (fun p =>
        plp_mat_add_stride_i16p_xpulpv2 A B M N sA sB sY nPE p) nPE)
        (fun m => m < M) (fun m n => addv 16 A B (m * sA + n) (m * sB + n)) N sY := by
      apply memSpec_runAll hnpe
      intro p hp
      rw [addI16par_eq_canon A B M N sA sB sY nPE p hA hB hY hnpe]
      exact memSpec_parFlat2 hnpe hp
    rw [exec_view_of_memSpec hms hY hm hn d, exec_canonMat2_view hY hm hn d]
  · intro m n hm hn
    have hms : MemSpec (runAll (fun p =>
        plp_mat_add_stride_i8p_xpulpv2 A B M N sA sB sY nPE p) nPE)
        (fun m => m < M) (fun m n => addv 8 A B (m * sA + n) (m * sB + n)) N sY := by
      apply memSpec_runAll hnpe
      intro p hp
      rw [addI8par_eq_canon A B M N sA sB sY nPE p hA hB hY hnpe]
      exact memSpec_parFlat2 hnpe hp
    rw [exec_view_of_memSpec hms hY hm hn d, exec_canonMat2_view hY hm hn d]
  · intro m n hm hn
    have hms : MemSpec (runAll (fun p =>
        plp_mat_copy_stride_i16p_xpulpv2 S M N sS sD nPE p) nPE)
        (fun m => m < M) (fun m n => S (m * sS + n)) N sD := by
      apply memSpec_runAll hnpe
      intro p hp
      rw [cpI16par_eq_canon S M N sS sD nPE p hS hD hnpe]
      exact memSpec_parFlat1 hnpe hp
    rw [exec_view_of_memSpec hms hD hm hn d, exec_canonMat1_view hD hm hn d]
  · intro m n hm hn
    have hms : MemSpec (runAll (fun p =>
        plp_mat_copy_stride_i8p_xpulpv2 S M N sS sD nPE p) nPE)
        (fun m => m < M) (fun m n => S (m * sS + n)) N sD := by
      apply memSpec_runAll hnpe
      intro p hp
      rw [cpI8par_eq_canon S M N sS sD nPE p hS hD hnpe]
      exact memSpec_parFlat1 hnpe hp
    rw [exec_view_of_memSpec hms hD hm hn d, exec_canonMat1_view hD hm hn d]

/-- Witness for C2 at a concrete instance: the parallel SIMD 8-bit add with
`M = 2, N = 5` (a pure-remainder width for the 8-wide unroll), `nPE = 2`,
matches the reference at cell `(1, 4)`. -/
theorem C2_witness :
    exec (fun _ => 0)
      (runAll (fun p =>
        plp_mat_add_stride_i8p_xpulpv2 (fun i => (i : ℤ)) (fun i => 3 * (i : ℤ))
          2 5 5 5 5 2 p) 2) (1 * 5 + 4) =
    exec (fun _ => 0)
      (canonMat2 (addv 8 (fun i => (i : ℤ)) (fun i => 3 * (i : ℤ))) 5 5 5 2 5) (1 * 5 + 4) := by
  have h := C2_variants_match_reference (fun i => (i : ℤ)) (fun i => 3 * (i : ℤ))
    (fun _ => 0) 2 5 5 5 5 5 5 2 (fun _ => 0) (by norm_num) (by norm_num) (by norm_num)
    (by norm_num) (by norm_num) (by norm_num)
  exact h.2.2.2.2.2.2.2.2.2.2.2.2.2.2.2.1 1 4 (by norm_num) (by norm_num)

theorem exec_core_cell {l : List Evt} {g : Nat → Nat → ℤ} {M N sY nPE p m n : Nat}
    (h : MemSpec l (fun m => m < M ∧ m % nPE = p) g N sY) (hsY : N ≤ sY)
    (hm : m < M) (hn : n < N) (d : Mem) :
    exec d l (m * sY + n) = if m % nPE = p then g m n else d (m * sY + n) := by
  by_cases hmp : m % nPE = p
  · rw [if_pos hmp]
    exact exec_view_of_memSpec h hsY ⟨hm, hmp⟩ hn d
  · rw [if_neg hmp]
    apply exec_frame_of_memSpec h
    intro m' n' hrow hn' heq
    obtain ⟨hmm, -⟩ := viewInj hsY hn hn' heq
    exact hmp (hmm ▸ hrow.2)

/-- C3: every parallel elementwise kernel invoked with core id `p` processes
exactly the rows `{m < M | m % nPE = p}` — each view cell of an owned row
receives its computed value, cells of rows owned by other cores and all
other addresses are untouched; with `core_id ≥ M` the kernel performs zero
stores; and each row `m < M` is owned by exactly one core id below `nPE`. -/
theorem C3_round_robin_partition :
    ∀ (A B S : Mem) (M N sA sB sY sS sD nPE p : Nat) (d : Mem),
      N ≤ sA → N ≤ sB → N ≤ sY → N ≤ sS → N ≤ sD → 1 ≤ nPE → p < nPE →
      ((∀ m n, m < M → n < N →
          exec d (plp_mat_add_stride_i16p_xpulpv2 A B M N sA sB sY nPE p) (m * sY + n) =
            if m % nPE = p then wrap 16 (A (m * sA + n) + B (m * sB + n))
            else d (m * sY + n)) ∧
        (M ≤ p → plp_mat_add_stride_i16p_xpulpv2 A B M N sA sB sY nPE p = [])) ∧
      ((∀ m n, m < M → n < N →
          exec d (plp_mat_add_stride_i8p_xpulpv2 A B M N sA sB sY nPE p) (m * sY + n) =
            if m % nPE = p then wrap 8 (A (m * sA + n) + B (m * sB + n))
            else d (m * sY + n)) ∧
        (M ≤ p → plp_mat_add_stride_i8p_xpulpv2 A B M N sA sB sY nPE p = [])) ∧
      ((∀ m n, m < M → n < N →
          exec d (plp_mat_copy_stride_i16p_xpulpv2 S M N sS sD nPE p) (m * sD + n) =
            if m % nPE = p then S (m * sS + n) else d (m * sD + n)) ∧
        (M ≤ p → plp_mat_copy_stride_i16p_xpulpv2 S M N sS sD nPE p = [])) ∧
      ((∀ m n, m < M → n < N →
          exec d (plp_mat_copy_stride_i8p_xpulpv2 S M N sS sD nPE p) (m * sD + n) =
            if m % nPE = p then S (m * sS + n) else d (m * sD + n)) ∧
        (M ≤ p → plp_mat_copy_stride_i8p_xpulpv2 S M N sS sD nPE p = [])) ∧
      (∀ a, (∀ m n, m < M → m % nPE = p → n < N → a ≠ m * sY + n) →
        exec d (plp_mat_add_stride_i16p_xpulpv2 A B M N sA sB sY nPE p) a = d a) ∧
      (∀ m, m < M → ∃! q, q < nPE ∧ m % nPE = q) := by
  intro A B S M N sA sB sY sS sD nPE p d hA hB hY hS hD hnpe hp
  have hms16 : MemSpec (plp_mat_add_stride_i16p_xpulpv2 A B M N sA sB sY nPE p)
      (fun m => m < M ∧ m % nPE = p)
      (fun m n => addv 16 A B (m * sA + n) (m * sB + n)) N sY := by
    rw [addI16par_eq_canon A B M N sA sB sY nPE p hA hB hY hnpe]
    exact memSpec_parFlat2 hnpe hp
  have hms8 : MemSpec (plp_mat_add_stride_i8p_xpulpv2 A B M N sA sB sY nPE p)
      (fun m => m < M ∧ m % nPE = p)
      (fun m n => addv 8 A B (m * sA + n) (m * sB + n)) N sY := by
    rw [addI8par_eq_canon A B M N sA sB sY nPE p hA hB hY hnpe]
    exact memSpec_parFlat2 hnpe hp
  have hmc16 : MemSpec (plp_mat_copy_stride_i16p_xpulpv2 S M N sS sD nPE p)
      (fun m => m < M ∧ m % nPE = p) (fun m n => S (m * sS + n)) N sD := by
    rw [cpI16par_eq_canon S M N sS sD nPE p hS hD hnpe]
    exact memSpec_parFlat1 hnpe hp
  have hmc8 : MemSpec (plp_mat_copy_stride_i8p_xpulpv2 S M N sS sD nPE p)
      (fun m => m < M ∧ m % nPE = p) (fun m n => S (m * sS + n)) N sD := by
    rw [cpI8par_eq_canon S M N sS sD nPE p hS hD hnpe]
    exact memSpec_parFlat1 hnpe hp
  refine ⟨⟨?_, ?_⟩, ⟨?_, ?_⟩, ⟨?_, ?_⟩, ⟨?_, ?_⟩, ?_, ?_⟩
  · intro m n hm hn
    exact exec_core_cell hms16 hY hm hn d
  · intro hMp
    rw [addI16par_eq_canon A B M N sA sB sY nPE p hA hB hY hnpe,
      parIdx_nil (by omega)]
    rfl
  · intro m n hm hn
    exact exec_core_cell hms8 hY hm hn d
  · intro hMp
    rw [addI8par_eq_canon A B M N sA sB sY nPE p hA hB hY hnpe,
      parIdx_nil (by omega)]
    rfl
  · intro m n hm hn
    exact exec_core_cell hmc16 hD hm hn d
  · intro hMp
    rw [cpI16par_eq_canon S M N sS sD nPE p hS hD hnpe, parIdx_nil (by omega)]
    rfl
  · intro m n hm hn
    exact exec_core_cell hmc8 hD hm hn d
  · intro hMp
    rw [cpI8par_eq_canon S M N sS sD nPE p hS hD hnpe, parIdx_nil (by omega)]
    rfl
  · intro a ha
    apply exec_frame_of_memSpec hms16
    intro m n hrow hn
    exact ha m n hrow.1 hrow.2 hn
  · intro m hm
    refine ⟨m % nPE, ⟨Nat.mod_lt _ (by omega), rfl⟩, ?_⟩
    rintro q ⟨hq, rfl⟩
    rfl

/-- Witness for C3 at a concrete instance: `M = 3, N = 2, nPE = 2, p = 1`
processes rows 1 (owned) and leaves row 0 (owned by core 0) untouched. -/
theorem C3_witness :
    exec (fun _ => 100)
      (plp_mat_add_stride_i16p_xpulpv2 (fun i => (i : ℤ)) (fun i => (i : ℤ))
        3 2 2 2 2 2 1) (1 * 2 + 0) = 4 ∧
    exec (fun _ => 100)
      (plp_mat_add_stride_i16p_xpulpv2 (fun i => (i : ℤ)) (fun i => (i : ℤ))
        3 2 2 2 2 2 1) (0 * 2 + 0) = 100 := by
  have h := C3_round_robin_partition (fun i => (i : ℤ)) (fun i => (i : ℤ)) (fun _ => 0)
    3 2 2 2 2 2 2 2 1 (fun _ => 100) (by norm_num) (by norm_num) (by norm_num)
    (by norm_num) (by norm_num) (by norm_num) (by norm_num)
  constructor
  · have h1 := h.1.1 1 0 (by norm_num) (by norm_num)
    norm_num [wrap] at h1
    exact h1
  · have h0 := h.1.1 0 0 (by norm_num) (by norm_num)
    norm_num at h0
    exact h0

/-- C4 (code bug): the loop-unrolled `int16` rv32im copy with `M = 1`,
`N = 1`, `strideSrc = strideDst = 1` writes destination index 1 — row 1,
column 0 — which lies outside the logical `1 × 1` view `{0 * 1 + 0}`: the
`m_rem` block of the kernel copies two rows instead of one, so for every odd
`M` it reads source row `M` and overwrites destination row `M`. -/
theorem C4_frame_violation :
    exec (fun _ => 0)
      (plp_mat_copy_stride_i16s_rv32im_unroll (fun i => (i : ℤ) + 5) 1 1 1 1) 1 = 6 ∧
    (1 : Nat) ≠ 0 * 1 + 0 := by
  constructor
  · rfl
  · decide

/-- C5: the SIMD-packed subtract and add kernels store, at every view cell,
the per-lane two's-complement wraparound (`wrap w`, `w` = 16 or 8) of the
difference or sum of the corresponding input cells — no saturation, no
promotion, no carry between lanes — and the SIMD `int16` subtract is
trace-identical to the scalar rv32im subtract kernel on the same operands. -/
theorem C5_simd_lane_semantics :
    ∀ (A B : Mem) (M N sA sB sY nPE p : Nat) (d : Mem),
      N ≤ sA → N ≤ sB → N ≤ sY → 1 ≤ nPE → p < nPE →
      (∀ m n, m < M → n < N →
        exec d (plp_mat_sub_stride_i16s_xpulpv2_unroll A B M N sA sB sY) (m * sY + n) =
          wrap 16 (A (m * sA + n) - B (m * sB + n))) ∧
      plp_mat_sub_stride_i16s_xpulpv2_unroll A B M N sA sB sY =
        plp_mat_sub_stride_i16s_rv32im_unroll A B M N sA sB sY ∧
      plp_mat_sub_stride_i16s_xpulpv2_plain A B M N sA sB sY =
        plp_mat_sub_stride_i16s_rv32im_plain A B M N sA sB sY ∧
      (∀ m n, m < M → m % nPE = p → n < N →
        exec d (plp_mat_add_stride_i8p_xpulpv2 A B M N sA sB sY nPE p) (m * sY + n) =
          wrap 8 (A (m * sA + n) + B (m * sB + n))) ∧
      (∀ m n, m < M → m % nPE = p → n < N →
        exec d (plp_mat_add_stride_i16p_xpulpv2 A B M N sA sB sY nPE p) (m * sY + n) =
          wrap 16 (A (m * sA + n) + B (m * sB + n))) := by
  intro A B M N sA sB sY nPE p d hA hB hY hnpe hp
  refine ⟨?_, ?_, ?_, ?_, ?_⟩
  · intro m n hm hn
    rw [subI16xU_eq_canon A B M N sA sB sY hA hB hY]
    exact exec_canonMat2_view hY hm hn d
  · rw [subI16xU_eq_canon A B M N sA sB sY hA hB hY,
      subI16rvU_eq_canon A B M N sA sB sY hA hB hY]
  · rw [subI16xP_eq_canon A B M N sA sB sY hA hB hY,
      subI16rvP_eq_canon A B M N sA sB sY hA hB hY]
  · intro m n hm hmp hn
    have hms : MemSpec (plp_mat_add_stride_i8p_xpulpv2 A B M N sA sB sY nPE p)
        (fun m => m < M ∧ m % nPE = p)
        (fun m n => addv 8 A B (m * sA + n) (m * sB + n)) N sY := by
      rw [addI8par_eq_canon A B M N sA sB sY nPE p hA hB hY hnpe]
      exact memSpec_parFlat2 hnpe hp
    exact exec_view_of_memSpec hms hY ⟨hm, hmp⟩ hn d
  · intro m n hm hmp hn
    have hms : MemSpec (plp_mat_add_stride_i16p_xpulpv2 A B M N sA sB sY nPE p)
        (fun m => m < M ∧ m % nPE = p)
        (fun m n => addv 16 A B (m * sA + n) (m * sB + n)) N sY := by
      rw [addI16par_eq_canon A B M N sA sB sY nPE p hA hB hY hnpe]
      exact memSpec_parFlat2 hnpe hp
    exact exec_view_of_memSpec hms hY ⟨hm, hmp⟩ hn d

/-- Witness for C5 at a concrete instance: 16-bit lane wraparound,
`32767 - (-1) = 32768 ≡ -32768 (mod 2^16)`. -/
theorem C5_witness :
    exec (fun _ => 0)
      (plp_mat_sub_stride_i16s_xpulpv2_unroll (fun _ => 32767) (fun _ => -1)
        1 1 1 1 1) 0 = -32768 := by
  have h := (C5_simd_lane_semantics (fun _ => 32767) (fun _ => -1) 1 1 1 1 1 1 0
    (fun _ => 0) (by norm_num) (by norm_num) (by norm_num) (by norm_num)
    (by norm_num)).1 0 0 (by norm_num) (by norm_num)
  norm_num [wrap] at h
  exact h

/-- C6: for every input `≤ 0` — zero and every negative value alike — the
square-root kernel writes exactly `0`; the model is a total function, so no
input faults. -/
theorem C6_sqrt_nonpositive (x : ℚ) (hx : x ≤ 0) : plp_sqrt_f32s_xpulpv2 x = 0 := by
  unfold plp_sqrt_f32s_xpulpv2
  rw [if_neg]
  intro h
  linarith

/-- Witness for C6 at the inputs `0` and `-4`. -/
theorem C6_witness :
    plp_sqrt_f32s_xpulpv2 0 = 0 ∧ plp_sqrt_f32s_xpulpv2 (-4) = 0 :=
  ⟨C6_sqrt_nonpositive 0 (by norm_num), C6_sqrt_nonpositive (-4) (by norm_num)⟩

/-- C7 counterexample: at the positive input `1/16` the fixed seed
`1/(2x) = 8` leaves the Newton iteration's convergence basin; the iterate
oscillates to the fixed point `-4`, the kernel returns `-1/4`, and the
result is not within relative tolerance `1e-5` of `sqrt(1/16) = 1/4`. -/
theorem C7_counterexample :
    plp_sqrt_f32s_xpulpv2 (1 / 16) = -(1 / 4) ∧
    ¬ |plp_sqrt_f32s_xpulpv2 (1 / 16) - 1 / 4| ≤ 1 / 100000 * (1 / 4) := by
  refine ⟨plp_sqrt_at_sixteenth, ?_⟩
  rw [plp_sqrt_at_sixteenth]
  rw [show (-(1 / 4 : ℚ) - 1 / 4) = -(1 / 2) by norm_num, abs_neg,
    abs_of_nonneg (by norm_num : (0:ℚ) ≤ 1 / 2)]
  norm_num

/-- C7 amended: for every positive input the kernel computes the input
times the result of exactly fifteen iterations `y ← y (1.5 - y² (x/2))`
from seed `1/(2x)`; the result is within `1e-5` of `sqrt x` at
representative convergent inputs such as `x = 4` and `x = 1` — but not on
the whole domain `1e-6 .. 1e6` (see the counterexample at `1/16`). -/
theorem C7_fixed_iteration_structure :
    (∀ x : ℚ, 0 < x →
      plp_sqrt_f32s_xpulpv2 x = nrIter (x / 2) 15 (1 / (2 * x)) * x) ∧
    |plp_sqrt_f32s_xpulpv2 4 - 2| ≤ 1 / 100000 ∧
    |plp_sqrt_f32s_xpulpv2 1 - 1| ≤ 1 / 100000 := by
  refine ⟨?_, ?_, ?_⟩
  · intro x hx
    unfold plp_sqrt_f32s_xpulpv2
    rw [if_pos (by linarith)]
  · have h4 : plp_sqrt_f32s_xpulpv2 4 = nrIter 2 15 (1 / 8) * 4 := by
      unfold plp_sqrt_f32s_xpulpv2
      norm_num
    rw [h4, abs_le]
    obtain ⟨hl, hu⟩ := nr4_bound
    constructor <;> linarith
  · have h1 : plp_sqrt_f32s_xpulpv2 1 = nrIter (1 / 2) 15 (1 / 2) * 1 := by
      unfold plp_sqrt_f32s_xpulpv2
      norm_num
    rw [h1, abs_le]
    obtain ⟨hl, hu⟩ := nr1_bound
    constructor <;> linarith

/-- Witness for C7's amended structural clause at `x = 4`. -/
theorem C7_witness :
    (0 : ℚ) < 4 ∧ plp_sqrt_f32s_xpulpv2 4 = nrIter (4 / 2) 15 (1 / (2 * 4)) * 4 :=
  ⟨by norm_num, C7_fixed_iteration_structure.1 4 (by norm_num)⟩

/-- Stride independence of a two-source sequential kernel: two calls with
equal logical input content but different (valid) strides produce the same
logical output values. -/
def strideIndep2 (K : Mem → Mem → Nat → Nat → Nat → Nat → Nat → List Evt) : Prop :=
  ∀ A A2 B B2 M N sA sB sY tA tB tY d d2 m n,
    N ≤ sA → N ≤ sB → N ≤ sY → N ≤ tA → N ≤ tB → N ≤ tY → m < M → n < N →
    (∀ m2 n2, m2 < M → n2 < N → A (m2 * sA + n2) = A2 (m2 * tA + n2)) →
    (∀ m2 n2, m2 < M → n2 < N → B (m2 * sB + n2) = B2 (m2 * tB + n2)) →
    exec d (K A B M N sA sB sY) (m * sY + n) =
      exec d2 (K A2 B2 M N tA tB tY) (m * tY + n)

/-- Stride independence of a one-source sequential copy kernel. -/
def strideIndep1 (K : Mem → Nat → Nat → Nat → Nat → List Evt) : Prop :=
  ∀ S S2 M N sS sD tS tD d d2 m n,
    N ≤ sS → N ≤ sD → N ≤ tS → N ≤ tD → m < M → n < N →
    (∀ m2 n2, m2 < M → n2 < N → S (m2 * sS + n2) = S2 (m2 * tS + n2)) →
    exec d (K S M N sS sD) (m * sD + n) = exec d2 (K S2 M N tS tD) (m * tD + n)

/-- Stride independence of a parallel two-source kernel, with all core ids
executed. -/
def strideIndepPar2 (K : Mem → Mem → Nat → Nat → Nat → Nat → Nat → Nat → Nat → List Evt) :
    Prop :=
  ∀ A A2 B B2 M N sA sB sY tA tB tY nPE d d2 m n,
    N ≤ sA → N ≤ sB → N ≤ sY → N ≤ tA → N ≤ tB → N ≤ tY → 1 ≤ nPE → m < M → n < N →
    (∀ m2 n2, m2 < M → n2 < N → A (m2 * sA + n2) = A2 (m2 * tA + n2)) →
    (∀ m2 n2, m2 < M → n2 < N → B (m2 * sB + n2) = B2 (m2 * tB + n2)) →
    exec d (runAll (fun p => K A B M N sA sB sY nPE p) nPE) (m * sY + n) =
      exec d2 (runAll (fun p => K A2 B2 M N tA tB tY nPE p) nPE) (m * tY + n)

/-- Stride independence of a parallel copy kernel, with all core ids
executed. -/
def strideIndepPar1 (K : Mem → Nat → Nat → Nat → Nat → Nat → Nat → List Evt) : Prop :=
  ∀ S S2 M N sS sD tS tD nPE d d2 m n,
    N ≤ sS → N ≤ sD → N ≤ tS → N ≤ tD → 1 ≤ nPE → m < M → n < N →
    (∀ m2 n2, m2 < M → n2 < N → S (m2 * sS + n2) = S2 (m2 * tS + n2)) →
    exec d (runAll (fun p => K S M N sS sD nPE p) nPE) (m * sD + n) =
      exec d2 (runAll (fun p => K S2 M N tS tD nPE p) nPE) (m * tD + n)

theorem runAll_memSpec_add16 (A B : Mem) (M N sA sB sY nPE : Nat)
    (hA : N ≤ sA) (hB : N ≤ sB) (hY : N ≤ sY) (hnpe : 1 ≤ nPE) :
    MemSpec (runAll (fun p => plp_mat_add_stride_i16p_xpulpv2 A B M N sA sB sY nPE p) nPE)
      (fun m => m < M) (fun m n => addv 16 A B (m * sA + n) (m * sB + n)) N sY := by
  apply memSpec_runAll hnpe
  intro p hp
  rw [addI16par_eq_canon A B M N sA sB sY nPE p hA hB hY hnpe]
  exact memSpec_parFlat2 hnpe hp

theorem runAll_memSpec_add8 (A B : Mem) (M N sA sB sY nPE : Nat)
    (hA : N ≤ sA) (hB : N ≤ sB) (hY : N ≤ sY) (hnpe : 1 ≤ nPE) :
    MemSpec (runAll (fun p => plp_mat_add_stride_i8p_xpulpv2 A B M N sA sB sY nPE p) nPE)
      (fun m => m < M) (fun m n => addv 8 A B (m * sA + n) (m * sB + n)) N sY := by
  apply memSpec_runAll hnpe
  intro p hp
  rw [addI8par_eq_canon A B M N sA sB sY nPE p hA hB hY hnpe]
  exact memSpec_parFlat2 hnpe hp

theorem runAll_memSpec_cp16 (S : Mem) (M N sS sD nPE : Nat)
    (hS : N ≤ sS) (hD : N ≤ sD) (hnpe : 1 ≤ nPE) :
    MemSpec (runAll (fun p => plp_mat_copy_stride_i16p_xpulpv2 S M N sS sD nPE p) nPE)
      (fun m => m < M) (fun m n => S (m * sS + n)) N sD := by
  apply memSpec_runAll hnpe
  intro p hp
  rw [cpI16par_eq_canon S M N sS sD nPE p hS hD hnpe]
  exact memSpec_parFlat1 hnpe hp

theorem runAll_memSpec_cp8 (S : Mem) (M N sS sD nPE : Nat)
    (hS : N ≤ sS) (hD : N ≤ sD) (hnpe : 1 ≤ nPE) :
    MemSpec (runAll (fun p => plp_mat_copy_stride_i8p_xpulpv2 S M N sS sD nPE p) nPE)
      (fun m => m < M) (fun m n => S (m * sS + n)) N sD := by
  apply memSpec_runAll hnpe
  intro p hp
  rw [cpI8par_eq_canon S M N sS sD nPE p hS hD hnpe]
  exact memSpec_parFlat1 hnpe hp

/-- C8: for every embedded elementwise kernel variant, calls with the same
`M`, `N` and identical logical input content but different strides (each at
least `N`) produce identical logical output content — the view values do
not depend on `strideA`, `strideB` or `strideY`. -/
theorem C8_stride_independence :
    strideIndep2 plp_mat_add_stride_i32s_xpulpv2_unroll ∧
    strideIndep2 plp_mat_add_stride_i32s_xpulpv2_plain ∧
    strideIndep2 plp_mat_sub_stride_i16s_rv32im_unroll ∧
    strideIndep2 plp_mat_sub_stride_i16s_rv32im_plain ∧
    strideIndep2 plp_mat_sub_stride_i16s_xpulpv2_unroll ∧
    strideIndep2 plp_mat_sub_stride_i16s_xpulpv2_plain ∧
    strideIndep1 plp_mat_copy_stride_i16s_xpulpv2_unroll ∧
    strideIndep1 plp_mat_copy_stride_i16s_xpulpv2_plain ∧
    strideIndep1 plp_mat_copy_stride_i16s_rv32im_plain ∧
    strideIndep1 plp_mat_copy_stride_i16s_rv32im_unroll ∧
    strideIndep1 plp_mat_copy_stride_i32s_rv32im_unroll ∧
    strideIndep1 plp_mat_copy_stride_i32s_rv32im_plain ∧
    strideIndep1 plp_mat_copy_stride_i8s_rv32im_unroll ∧
    strideIndep1 plp_mat_copy_stride_i8s_rv32im_plain ∧
    strideIndepPar2 plp_mat_add_stride_i16p_xpulpv2 ∧
    strideIndepPar2 plp_mat_add_stride_i8p_xpulpv2 ∧
    strideIndepPar1 plp_mat_copy_stride_i16p_xpulpv2 ∧
    strideIndepPar1 plp_mat_copy_stride_i8p_xpulpv2 := by
  refine ⟨?_, ?_, ?_, ?_, ?_, ?_, ?_, ?_, ?_, ?_, ?_, ?_, ?_, ?_, ?_, ?_, ?_, ?_⟩
  · intro A A2 B B2 M N sA sB sY tA tB tY d d2 m n h1 h2 h3 h4 h5 h6 hm hn hcA hcB
    rw [addI32U_eq_canon A B M N sA sB sY h1 h2 h3,
      addI32U_eq_canon A2 B2 M N tA tB tY h4 h5 h6,
      exec_canonMat2_view h3 hm hn d, exec_canonMat2_view h6 hm hn d2]
    simp only [addv]
    rw [hcA m n hm hn, hcB m n hm hn]
  · intro A A2 B B2 M N sA sB sY tA tB tY d d2 m n h1 h2 h3 h4 h5 h6 hm hn hcA hcB
    rw [addI32P_eq_canon A B M N sA sB sY h1 h2 h3,
      addI32P_eq_canon A2 B2 M N tA tB tY h4 h5 h6,
      exec_canonMat2_view h3 hm hn d, exec_canonMat2_view h6 hm hn d2]
    simp only [addv]
    rw [hcA m n hm hn, hcB m n hm hn]
  · intro A A2 B B2 M N sA sB sY tA tB tY d d2 m n h1 h2 h3 h4 h5 h6 hm hn hcA hcB
    rw [subI16rvU_eq_canon A B M N sA sB sY h1 h2 h3,
      subI16rvU_eq_canon A2 B2 M N tA tB tY h4 h5 h6,
      exec_canonMat2_view h3 hm hn d, exec_canonMat2_view h6 hm hn d2]
    simp only [subv]
    rw [hcA m n hm hn, hcB m n hm hn]
  · intro A A2 B B2 M N sA sB sY tA tB tY d d2 m n h1 h2 h3 h4 h5 h6 hm hn hcA hcB
    rw [subI16rvP_eq_canon A B M N sA sB sY h1 h2 h3,
      subI16rvP_eq_canon A2 B2 M N tA tB tY h4 h5 h6,
      exec_canonMat2_view h3 hm hn d, exec_canonMat2_view h6 hm hn d2]
    simp only [subv]
    rw [hcA m n hm hn, hcB m n hm hn]
  · intro A A2 B B2 M N sA sB sY tA tB tY d d2 m n h1 h2 h3 h4 h5 h6 hm hn hcA hcB
    rw [subI16xU_eq_canon A B M N sA sB sY h1 h2 h3,
      subI16xU_eq_canon A2 B2 M N tA tB tY h4 h5 h6,
      exec_canonMat2_view h3 hm hn d, exec_canonMat2_view h6 hm hn d2]
    simp only [subv]
    rw [hcA m n hm hn, hcB m n hm hn]
  · intro A A2 B B2 M N sA sB sY tA tB tY d d2 m n h1 h2 h3 h4 h5 h6 hm hn hcA hcB
    rw [subI16xP_eq_canon A B M N sA sB sY h1 h2 h3,
      subI16xP_eq_canon A2 B2 M N tA tB tY h4 h5 h6,
      exec_canonMat2_view h3 hm hn d, exec_canonMat2_view h6 hm hn d2]
    simp only [subv]
    rw [hcA m n hm hn, hcB m n hm hn]
  · intro S S2 M N sS sD tS tD d d2 m n h1 h2 h3 h4 hm hn hc
    rw [cpI16xU_eq_canon S M N sS sD h1 h2, cpI16xU_eq_canon S2 M N tS tD h3 h4,
      exec_canonMat1_view h2 hm hn d, exec_canonMat1_view h4 hm hn d2]
    exact hc m n hm hn
  · intro S S2 M N sS sD tS tD d d2 m n h1 h2 h3 h4 hm hn hc
    rw [cpI16xP_eq_canon S M N sS sD h1 h2, cpI16xP_eq_canon S2 M N tS tD h3 h4,
      exec_canonMat1_view h2 hm hn d, exec_canonMat1_view h4 hm hn d2]
    exact hc m n hm hn
  · intro S S2 M N sS sD tS tD d d2 m n h1 h2 h3 h4 hm hn hc
    rw [cpI16rvP_eq_canon S M N sS sD h1 h2, cpI16rvP_eq_canon S2 M N tS tD h3 h4,
      exec_canonMat1_view h2 hm hn d, exec_canonMat1_view h4 hm hn d2]
    exact hc m n hm hn
  · intro S S2 M N sS sD tS tD d d2 m n h1 h2 h3 h4 hm hn hc
    rw [exec_view_of_memSpec (memSpec_of_rowMem (cpI16rvU_mem S M N sS sD h1 h2))
      h2 (show m < M + M % 2 by omega) hn d,
      exec_view_of_memSpec (memSpec_of_rowMem (cpI16rvU_mem S2 M N tS tD h3 h4))
      h4 (show m < M + M % 2 by omega) hn d2]
    exact hc m n hm hn
  · intro S S2 M N sS sD tS tD d d2 m n h1 h2 h3 h4 hm hn hc
    rw [cpI32rvU_eq_canon S M N sS sD h1 h2, cpI32rvU_eq_canon S2 M N tS tD h3 h4,
      exec_canonMat1_view h2 hm hn d, exec_canonMat1_view h4 hm hn d2]
    exact hc m n hm hn
  · intro S S2 M N sS sD tS tD d d2 m n h1 h2 h3 h4 hm hn hc
    rw [cpI32rvP_eq_canon S M N sS sD, cpI32rvP_eq_canon S2 M N tS tD,
      exec_canonMat1_view h2 hm hn d, exec_canonMat1_view h4 hm hn d2]
    exact hc m n hm hn
  · intro S S2 M N sS sD tS tD d d2 m n h1 h2 h3 h4 hm hn hc
    rw [exec_view_of_memSpec (memSpec_of_rowMem (cpI8rvU_mem S M N sS sD h1 h2))
      h2 hm hn d,
      exec_view_of_memSpec (memSpec_of_rowMem (cpI8rvU_mem S2 M N tS tD h3 h4))
      h4 hm hn d2]
    exact hc m n hm hn
  · intro S S2 M N sS sD tS tD d d2 m n h1 h2 h3 h4 hm hn hc
    rw [cpI8rvP_eq_canon S M N sS sD h1 h2, cpI8rvP_eq_canon S2 M N tS tD h3 h4,
      exec_canonMat1_view h2 hm hn d, exec_canonMat1_view h4 hm hn d2]
    exact hc m n hm hn
  · intro A A2 B B2 M N sA sB sY tA tB tY nPE d d2 m n h1 h2 h3 h4 h5 h6 hnpe hm hn hcA hcB
    rw [exec_view_of_memSpec (runAll_memSpec_add16 A B M N sA sB sY nPE h1 h2 h3 hnpe)
      h3 hm hn d,
      exec_view_of_memSpec (runAll_memSpec_add16 A2 B2 M N tA tB tY nPE h4 h5 h6 hnpe)
      h6 hm hn d2]
    simp only [addv]
    rw [hcA m n hm hn, hcB m n hm hn]
  · intro A A2 B B2 M N sA sB sY tA tB tY nPE d d2 m n h1 h2 h3 h4 h5 h6 hnpe hm hn hcA hcB
    rw [exec_view_of_memSpec (runAll_memSpec_add8 A B M N sA sB sY nPE h1 h2 h3 hnpe)
      h3 hm hn d,
      exec_view_of_memSpec (runAll_memSpec_add8 A2 B2 M N tA tB tY nPE h4 h5 h6 hnpe)
      h6 hm hn d2]
    simp only [addv]
    rw [hcA m n hm hn, hcB m n hm hn]
  · intro S S2 M N sS sD tS tD nPE d d2 m n h1 h2 h3 h4 hnpe hm hn hc
    rw [exec_view_of_memSpec (runAll_memSpec_cp16 S M N sS sD nPE h1 h2 hnpe) h2 hm hn d,
      exec_view_of_memSpec (runAll_memSpec_cp16 S2 M N tS tD nPE h3 h4 hnpe) h4 hm hn d2]
    exact hc m n hm hn
  · intro S S2 M N sS sD tS tD nPE d d2 m n h1 h2 h3 h4 hnpe hm hn hc
    rw [exec_view_of_memSpec (runAll_memSpec_cp8 S M N sS sD nPE h1 h2 hnpe) h2 hm hn d,
      exec_view_of_memSpec (runAll_memSpec_cp8 S2 M N tS tD nPE h3 h4 hnpe) h4 hm hn d2]
    exact hc m n hm hn

/-- Witness for C8 at a concrete instance: the `int32` add with constant
inputs at strides `(3,3,3)` versus strides `(5,4,7)` yields the same value
at cell `(1, 2)`. -/
theorem C8_witness :
    exec (fun _ => 0)
      (plp_mat_add_stride_i32s_xpulpv2_unroll (fun _ => 9) (fun _ => 33) 2 3 3 3 3)
      (1 * 3 + 2) =
    exec (fun _ => -7)
      (plp_mat_add_stride_i32s_xpulpv2_unroll (fun _ => 9) (fun _ => 33) 2 3 5 4 7)
      (1 * 7 + 2) := by
  exact C8_stride_independence.1 (fun _ => 9) (fun _ => 9) (fun _ => 33) (fun _ => 33)
    2 3 3 3 3 5 4 7 (fun _ => 0) (fun _ => -7) 1 2 (by norm_num) (by norm_num)
    (by norm_num) (by norm_num) (by norm_num) (by norm_num) (by norm_num) (by norm_num)
    (fun _ _ _ _ => rfl) (fun _ _ _ _ => rfl)

/-- C9: the parallel transposed matrix multiplication performs exactly one
barrier rendezvous and it comes after every one of that call's stores, so
the processing element only returns once its partition is complete; the
parallel elementwise add and copy kernels perform no barrier at all. -/
theorem C9_barrier_placement :
    ∀ (A B S : Mem) (M N O sA sB sY sS sD nPE p : Nat),
      (∃ w, plp_mat_mult_trans_i16vp_xpulpv2 A B M N O nPE p = w ++ [Evt.barrier] ∧
        Evt.barrier ∉ w) ∧
      Evt.barrier ∉ plp_mat_add_stride_i16p_xpulpv2 A B M N sA sB sY nPE p ∧
      Evt.barrier ∉ plp_mat_add_stride_i8p_xpulpv2 A B M N sA sB sY nPE p ∧
      Evt.barrier ∉ plp_mat_copy_stride_i16p_xpulpv2 S M N sS sD nPE p ∧
      Evt.barrier ∉ plp_mat_copy_stride_i8p_xpulpv2 S M N sS sD nPE p := by
  intro A B S M N O sA sB sY sS sD nPE p
  refine ⟨?_, ?_, ?_, ?_, ?_⟩
  · refine ⟨_, rfl, ?_⟩
    simp only [List.mem_flatten, List.mem_map, not_exists, not_and]
    rintro l ⟨m, hm, rfl⟩ hl
    obtain ⟨o, ho, he⟩ := List.mem_map.mp hl
    exact absurd he (by simp)
  · have h4 : ∀ ia ib iy, Evt.barrier ∉ (addI16Chunk4 A B ia ib iy).1 := by
      intro ia ib iy
      simp [addI16Chunk4]
    have h2 : ∀ ia ib iy, Evt.barrier ∉ (addI16Chunk2 A B ia ib iy).1 := by
      intro ia ib iy
      simp [addI16Chunk2]
    have h1 : ∀ ia ib iy, Evt.barrier ∉ (addChunk1 16 A B ia ib iy).1 := by
      intro ia ib iy
      simp [addChunk1]
    have hit := no_barrier_nIter2 h4
    unfold plp_mat_add_stride_i16p_xpulpv2
    dsimp only
    split_ifs <;> apply no_barrier_parLoop2 <;> intro ia ib iy <;>
      simp [List.mem_append, hit, h2 _ _ _, h1 _ _ _, addI16Chunk2, addChunk1]
  · have h8 : ∀ ia ib iy, Evt.barrier ∉ (addI8Chunk8 A B ia ib iy).1 := by
      intro ia ib iy
      simp [addI8Chunk8]
    have h4 : ∀ ia ib iy, Evt.barrier ∉ (addI8Chunk4 A B ia ib iy).1 := by
      intro ia ib iy
      simp [addI8Chunk4]
    have h1 : ∀ ia ib iy, Evt.barrier ∉ (addChunk1 8 A B ia ib iy).1 := by
      intro ia ib iy
      simp [addChunk1]
    have hit8 := no_barrier_nIter2 h8
    have hit1 := no_barrier_nIter2 h1
    unfold plp_mat_add_stride_i8p_xpulpv2
    dsimp only
    split_ifs <;> apply no_barrier_parLoop2 <;> intro ia ib iy <;>
      simp [List.mem_append, hit8, hit1, h4 _ _ _, addI8Chunk4]
  · have h4 : ∀ isrc iy, Evt.barrier ∉ (cpI16Chunk4 S isrc iy).1 := by
      intro isrc iy
      simp [cpI16Chunk4]
    have hit := no_barrier_nIter1 h4
    unfold plp_mat_copy_stride_i16p_xpulpv2
    dsimp only
    split_ifs <;> apply no_barrier_parLoop1 <;> intro isrc iy <;>
      simp [List.mem_append, hit, cpI16Chunk2]
  · have h8 : ∀ isrc iy, Evt.barrier ∉ (cpI8Chunk8 S isrc iy).1 := by
      intro isrc iy
      simp [cpI8Chunk8]
    have h1 : ∀ isrc iy, Evt.barrier ∉ (cpChunk1 S isrc iy).1 := by
      intro isrc iy
      simp [cpChunk1]
    have hit8 := no_barrier_nIter1 h8
    have hit1 := no_barrier_nIter1 h1
    unfold plp_mat_copy_stride_i8p_xpulpv2
    dsimp only
    split_ifs <;> first
      | (apply no_barrier_parLoop1
         intro isrc iy
         simp [List.mem_append, hit8, hit1, cpI8Chunk4])
      | simp

/-- C10: the parallel transposed matrix-multiply kernel, run as core `p`,
stores into `pDstC[m*O + o]` the 32-bit wraparound dot product of row `m`
of `pSrcA` with row `o` of `pSrcB`, for exactly the rows `m < M` with
`m % nPE = p` and all `o < O`, and writes no other cell. -/
theorem C10_mult_trans_dot_products :
    ∀ (A B : Mem) (M N O nPE p : Nat) (d : Mem), 1 ≤ nPE → p < nPE →
      (∀ m o, m < M → m % nPE = p → o < O →
        exec d (plp_mat_mult_trans_i16vp_xpulpv2 A B M N O nPE p) (m * O + o) =
          wrap 32 (∑ k ∈ Finset.range N, A (m * N + k) * B (o * N + k))) ∧
      (∀ a, (∀ m o, m < M → m % nPE = p → o < O → a ≠ m * O + o) →
        exec d (plp_mat_mult_trans_i16vp_xpulpv2 A B M N O nPE p) a = d a) := by
  intro A B M N O nPE p d hnpe hp
  have hms := memSpec_multTrans A B M N O nPE p hnpe hp
  constructor
  · intro m o hm hmp ho
    exact exec_view_of_memSpec hms (le_refl O) ⟨hm, hmp⟩ ho d
  · intro a ha
    apply exec_frame_of_memSpec hms
    intro m o hrow ho
    exact ha m o hrow.1 hrow.2 ho

/-- Witness for C10 at a concrete instance: `M = N = O = 2`, `nPE = 1`,
`A i = i`, `B i = i + 1`; cell `(1, 1)` receives `2·3 + 3·4 = 18`. -/
theorem C10_witness :
    exec (fun _ => 0)
      (plp_mat_mult_trans_i16vp_xpulpv2 (fun i => (i : ℤ)) (fun i => (i : ℤ) + 1)
        2 2 2 1 0) (1 * 2 + 1) = 18 := by
  have h := (C10_mult_trans_dot_products (fun i => (i : ℤ)) (fun i => (i : ℤ) + 1)
    2 2 2 1 0 (fun _ => 0) (by norm_num) (by norm_num)).1 1 1 (by norm_num) (by norm_num)
    (by norm_num)
  rw [h]
  norm_num [Finset.sum_range_succ, wrap]
